import Mathlib

/-!
# Verification of the minerva `DagScheduler` (src/minerva/backend/dag/dag_scheduler.cpp)

Shallow embedding of the DAG scheduler: the physical DAG, the per-node runtime
info map, the dispatcher routine, submission (`Create`), `GetValue`,
`OnExternRCUpdate` and `WaitForAll`, translated from
`src/minerva/backend/dag/dag_scheduler.cpp`.

Components whose sources are not in the repository snapshot (the `PhysicalDag`
node containers, the `RuntimeInfoMap` record layout, the `NodeState` enum) are
modelled from the specification (spec.md sections 3, 4.1, 4.2): node states are
`kReady`/`kCompleted`, runtime records start as `Ready` with both counters `0`,
and the DAG stores unordered sets of predecessor/successor ids (modelled as
duplicate-free lists with membership-checked insertion).

Scheduler steps are modelled as pure functions `SchedState → Option (SchedState
× List Act)`; `none` models a fatal `CHECK`/`LOG(FATAL)` abort, and the `Act`
trace records the order of the individual mutations inside a step, including
the `MultiNodeLock` acquire/release points and the deferred `delete` of removed
nodes, so that ordering claims (what runs under the lock, what runs after it)
can be stated.

Counters (`reference_count`, `num_triggers_needed`, `num_nodes_yet_to_finish_`,
`extern_rc`, `target_`) are C++ signed integers and are modelled as `Int`.
-/

namespace Minerva

/-- Node lifecycle state.  Modelled from the spec: the `NodeState` enum is
declared in a header that is not part of the snapshot; spec.md section 3 gives
`state ∈ \x7b Ready, Completed \x7d`. -/
inductive NodeState where
  | kReady
  | kCompleted
deriving DecidableEq

/-- Dispatcher event kinds (`TaskType` in the source). -/
inductive TaskType where
  | kToRun
  | kToComplete
deriving DecidableEq

/-- A DAG node together with its `PhysicalData` payload.  `isOp` distinguishes
op nodes from data nodes; `preds`/`succs` are the unordered neighbour-id sets
of the physical DAG (duplicate-free lists); `size`, `deviceId`, `dataId` and
`externRc` are the `PhysicalData` fields of a data node (dummy values for op
nodes, whose payload is the opaque compute function and a device id). -/
structure PhysNode where
  isOp : Bool
  preds : List Nat
  succs : List Nat
  size : List Nat
  deviceId : Nat
  dataId : Nat
  externRc : Int
deriving DecidableEq

/-- Per-node runtime info (spec.md section 4.2; record layout modelled from the
spec, the map is manipulated through `AddNode`/`RemoveNode`/`At`/`GetState` in
the source). -/
structure RuntimeInfo where
  state : NodeState
  referenceCount : Int
  numTriggersNeeded : Int
deriving DecidableEq

/-- One observable action inside a scheduler step, used to state ordering
properties (what happens under the `MultiNodeLock`, increments before
enqueues, deferred node destruction). -/
inductive Act where
  | lockAcquire
  | lockRelease
  | newDataNode (id : Nat)
  | newOpNode (id : Nat)
  | rtAdd (id : Nat)
  | rtRemove (id : Nat)
  | rcInc (id : Nat)
  | trigInc (id : Nat)
  | setCompleted (id : Nat)
  | rcDec (id : Nat)
  | trigDec (id : Nat)
  | freeData (dataId : Nat)
  | removeFromDag (id : Nat)
  | incYet
  | decYet
  | enqueue (t : TaskType) (id : Nat)
  | pushTask (devId : Nat) (id : Nat)
  | notifyAll
  | deleteNode (id : Nat)
deriving DecidableEq

/-- The scheduler state: the physical DAG (`nodes`), the runtime info map
(`rt`), the dispatcher queue, the history of tasks pushed to devices
(`pushed`), the history of completions reported by the device manager
(`reported`, the model of the device side), `num_nodes_yet_to_finish_`
(`numYet`), `target_`, and the id allocators of the DAG and of
`MinervaSystem::GenerateDataId`. -/
structure SchedState where
  nodes : Nat → Option PhysNode
  rt : Nat → Option RuntimeInfo
  queue : List (TaskType × Nat)
  pushed : List Nat
  reported : List Nat
  numYet : Int
  target : Int
  nextId : Nat
  nextDataId : Nat

/-- Pointwise update of a finite map represented as a function. -/
def setFn {α : Type} (f : Nat → Option α) (id : Nat) (v : Option α) : Nat → Option α :=
  fun j => if j = id then v else f j

/-- Update one node of the DAG. -/
def updNodes (s : SchedState) (id : Nat) (v : Option PhysNode) : SchedState :=
  { s with nodes := setFn s.nodes id v }

/-- Update one runtime-info entry. -/
def updRt (s : SchedState) (id : Nat) (v : Option RuntimeInfo) : SchedState :=
  { s with rt := setFn s.rt id v }

/-- The state of a node as the runtime info map records it. -/
def stateOf (s : SchedState) (id : Nat) : Option NodeState :=
  (s.rt id).map (fun ri => ri.state)

/-- `DagScheduler::OnCreateNode` (line 126): `rt_info_.AddNode(node->node_id())`.
A fresh entry is `Ready` with both counters `0` (spec.md section 3). -/
def onCreateNode (s : SchedState) (id : Nat) : SchedState :=
  updRt s id (some ⟨NodeState.kReady, 0, 0⟩)

/-- `DagScheduler::OnDeleteNode` (line 130): `rt_info_.RemoveNode`. -/
def onDeleteNode (s : SchedState) (id : Nat) : SchedState :=
  updRt s id none

/-- Insertion into an unordered node-id set of the DAG (duplicate edges
collapse). -/
def insertId (l : List Nat) (x : Nat) : List Nat :=
  if x ∈ l then l else l ++ [x]

/-- Detach one removed node id from a neighbour\'s edge sets. -/
def detachOne (id : Nat) (n : PhysNode) : PhysNode :=
  { n with preds := n.preds.filter (fun p => p ≠ id),
           succs := n.succs.filter (fun q => q ≠ id) }

/-- `PhysicalDag::RemoveNodeFromDag` (modelled from spec.md section 4.1):
remove the node from the DAG container and detach it from the edge sets of
every remaining node.  The runtime-info entry is removed separately by
`OnDeleteNode`, which the scheduler calls right after every removal. -/
def removeNodeFromDag (s : SchedState) (id : Nat) : SchedState :=
  { s with nodes := fun j =>
      if j = id then none
      else (s.nodes j).map (detachOne id) }

/-- `DagScheduler::OnCreateEdge` (lines 134-140): check the target is `Ready`,
increment the source reference count, and if the source is not `Completed`
increment the target trigger count. -/
def onCreateEdge (s : SchedState) (src dst : Nat) : Option (SchedState × List Act) :=
  match s.rt dst, s.rt src with
  | some rd, some rs =>
    if rd.state ≠ NodeState.kReady then none  -- CHECK_EQ(GetState(to), kReady)
    else
      let s1 := updRt s src (some { rs with referenceCount := rs.referenceCount + 1 })
      if rs.state ≠ NodeState.kCompleted then
        some (updRt s1 dst (some { rd with numTriggersNeeded := rd.numTriggersNeeded + 1 }),
          [Act.rcInc src, Act.trigInc dst])
      else
        some (s1, [Act.rcInc src])
  | _, _ => none

/-- `DagScheduler::ProcessIfReady` (lines 142-150): the node must be `Ready`;
if its trigger count is zero, increment `num_nodes_yet_to_finish_` and then
enqueue a `kToRun` event for it. -/
def processIfReady (s : SchedState) (opId : Nat) : Option (SchedState × List Act) :=
  match s.rt opId with
  | none => none
  | some ri =>
    if ri.state ≠ NodeState.kReady then none  -- CHECK_EQ(GetState, kReady)
    else if ri.numTriggersNeeded = 0 then
      some ({ s with numYet := s.numYet + 1,
                     queue := s.queue ++ [(TaskType.kToRun, opId)] },
        [Act.incYet, Act.enqueue TaskType.kToRun opId])
    else
      some (s, [])

/-- `PhysicalDag::NewDataNode` together with the `PhysicalData` construction of
`Create` line 29 (fresh data id from `MinervaSystem::GenerateDataId`):
allocates a node id and inserts a data node with empty edge sets. -/
def newDataNodeOp (s : SchedState) (devId : Nat) (size : List Nat) : SchedState × Nat :=
  let id := s.nextId
  ({ s with nodes := setFn s.nodes id (some ⟨false, [], [], size, devId, s.nextDataId, 0⟩),
            nextId := id + 1,
            nextDataId := s.nextDataId + 1 }, id)

/-- The first loop of `Create` (lines 28-30): one data node per result size. -/
def newDataNodes : SchedState → Nat → List (List Nat) → SchedState × List Nat
  | s, _, [] => (s, [])
  | s, devId, size :: rest =>
    let (s1, id) := newDataNodeOp s devId size
    let (s2, ids) := newDataNodes s1 devId rest
    (s2, id :: ids)

/-- The second loop of `Create` (lines 31-33): `OnCreateNode` per result. -/
def onCreateNodes (s : SchedState) (ids : List Nat) : SchedState :=
  ids.foldl onCreateNode s

/-- Add the DAG edge `d → op` (inside `PhysicalDag::NewOpNode`, modelled from
spec.md section 4.1). -/
def addInputEdge (s : SchedState) (d opId : Nat) : SchedState :=
  { s with nodes := fun j =>
      if j = d then (s.nodes d).map (fun n => { n with succs := insertId n.succs opId })
      else if j = opId then (s.nodes opId).map (fun n => { n with preds := insertId n.preds d })
      else s.nodes j }

/-- Add the DAG edge `op → o` (inside `PhysicalDag::NewOpNode`). -/
def addOutputEdge (s : SchedState) (opId o : Nat) : SchedState :=
  { s with nodes := fun j =>
      if j = o then (s.nodes o).map (fun n => { n with preds := insertId n.preds opId })
      else if j = opId then (s.nodes opId).map (fun n => { n with succs := insertId n.succs o })
      else s.nodes j }

/-- `PhysicalDag::NewOpNode` (modelled from spec.md section 4.1) plus the
device-id assignment of `Create` line 42: allocate the op node and add the
edges from every input and to every output. -/
def newOpNodeOp (s : SchedState) (devId : Nat) (inputs outputs : List Nat) :
    SchedState × Nat :=
  let id := s.nextId
  let s1 := { s with nodes := setFn s.nodes id (some ⟨true, [], [], [], devId, 0, 0⟩),
                     nextId := id + 1 }
  let s2 := inputs.foldl (fun t d => addInputEdge t d id) s1
  let s3 := outputs.foldl (fun t o => addOutputEdge t id o) s2
  (s3, id)

/-- The loop `Iter(param_data_nodes, OnCreateEdge(n, op_node))` (lines 45-47). -/
def onCreateInEdges : SchedState → List Nat → Nat → Option (SchedState × List Act)
  | s, [], _ => some (s, [])
  | s, p :: rest, opId => do
    let (s1, a1) ← onCreateEdge s p opId
    let (s2, a2) ← onCreateInEdges s1 rest opId
    some (s2, a1 ++ a2)

/-- The loop `Iter(rst_data_nodes, OnCreateEdge(op_node, n))` (lines 48-50). -/
def onCreateOutEdges : SchedState → Nat → List Nat → Option (SchedState × List Act)
  | s, _, [] => some (s, [])
  | s, opId, r :: rest => do
    let (s1, a1) ← onCreateEdge s opId r
    let (s2, a2) ← onCreateOutEdges s1 opId rest
    some (s2, a1 ++ a2)

/-- `DagScheduler::Create` (lines 25-53).  The result data nodes are allocated
and registered (lines 28-33) and the result `DagChunk` handles are built
(lines 37-39, they do not touch scheduler state and are not traced) before the
`MultiNodeLock` of line 40 is taken; the op node, its edges, the counter
updates and `ProcessIfReady` run under the lock.  A stale `params` handle
(`CHECK_NOTNULL(dynamic_cast<DagChunk*>)` on line 35 plus the spec:
fatal on stale param) is modelled as requiring every param to be a live data
node. -/
def createStep (s : SchedState) (devId : Nat) (params : List Nat)
    (resultSizes : List (List Nat)) : Option (SchedState × List Act) :=
  let (s1, rstIds) := newDataNodes s devId resultSizes
  let s2 := onCreateNodes s1 rstIds
  if ¬ (params.all (fun p => match s.nodes p with
        | some n => !n.isOp
        | none => false)) then none
  else
    let (s3, opId) := newOpNodeOp s2 devId params rstIds
    let s4 := onCreateNode s3 opId
    do
      let (s5, a5) ← onCreateInEdges s4 params opId
      let (s6, a6) ← onCreateOutEdges s5 opId rstIds
      let (s7, a7) ← processIfReady s6 opId
      some (s7,
        rstIds.map Act.newDataNode ++ rstIds.map Act.rtAdd ++
        [Act.lockAcquire, Act.newOpNode opId, Act.rtAdd opId] ++
        a5 ++ a6 ++ a7 ++ [Act.lockRelease])

/-- The predecessor loop of the op branch of the dispatcher (lines 185-196):
for each predecessor, the cast to a data node must succeed, its trigger count
is asserted to be `0`, its reference count is decremented, and it is freed and
removed exactly when the decrement reaches `0` and its `extern_rc` is `0`. -/
def completeOpPreds : SchedState → List Nat → Option (SchedState × List Act)
  | s, [] => some (s, [])
  | s, p :: rest =>
    match s.rt p, s.nodes p with
    | some pri, some pnode =>
      if pnode.isOp then none  -- CHECK_NOTNULL(dynamic_cast<PhysicalDataNode*>(pred))
      else if pri.numTriggersNeeded ≠ 0 then none  -- CHECK_EQ(num_triggers_needed, 0)
      else
        let rc := pri.referenceCount - 1
        let s1 := updRt s p (some { pri with referenceCount := rc })
        if rc = 0 ∧ pnode.externRc = 0 then
          let s2 := onDeleteNode (removeNodeFromDag s1 p) p
          (completeOpPreds s2 rest).map (fun r =>
            (r.1, [Act.rcDec p, Act.freeData pnode.dataId,
                   Act.removeFromDag p, Act.rtRemove p] ++ r.2))
        else
          (completeOpPreds s1 rest).map (fun r => (r.1, Act.rcDec p :: r.2))
    | _, _ => none

/-- The self-reclamation part of the data branch (lines 199-205): a completing
data node that is itself unreferenced (`reference_count == 0` and
`extern_rc == 0`) is freed and removed before its predecessor is touched.
`ri` is the runtime record fetched at line 161 (its `reference_count` is
unchanged by the state write of line 181). -/
def completeDataSelf (s : SchedState) (nodeId : Nat) (node : PhysNode)
    (ri : RuntimeInfo) : SchedState × List Act :=
  if ri.referenceCount = 0 ∧ node.externRc = 0 then
    (onDeleteNode (removeNodeFromDag s nodeId) nodeId,
     [Act.freeData node.dataId, Act.removeFromDag nodeId, Act.rtRemove nodeId])
  else (s, [])

/-- The predecessor part of the data branch (lines 206-214): the data node is
asserted to have exactly one predecessor; the predecessor's trigger count is
asserted to be `0`; its reference count is decremented and it is removed when
the decrement reaches `0` (no `extern_rc` condition and no resource free for
the op). -/
def completeDataPred (s : SchedState) (node : PhysNode) : Option (SchedState × List Act) :=
  match node.preds with
  | [p] =>
    match s.rt p with
    | none => none
    | some pri =>
      if pri.numTriggersNeeded ≠ 0 then none  -- CHECK_EQ(num_triggers_needed, 0)
      else
        let rc := pri.referenceCount - 1
        let s1 := updRt s p (some { pri with referenceCount := rc })
        if rc = 0 then
          some (onDeleteNode (removeNodeFromDag s1 p) p,
            [Act.rcDec p, Act.removeFromDag p, Act.rtRemove p])
        else
          some (s1, [Act.rcDec p])
  | _ => none  -- CHECK_EQ(node->predecessors_.size(), 1)

/-- The successor-triggering loop (lines 217-227): decrement each successor's
trigger count; when the successor is `Ready` and the decremented count is `0`,
increment `num_nodes_yet_to_finish_` and then enqueue `kToRun` for it. -/
def triggerSuccessors : SchedState → List Nat → Option (SchedState × List Act)
  | s, [] => some (s, [])
  | s, q :: rest =>
    match s.rt q with
    | none => none  -- rt_info_.At on an absent entry
    | some qri =>
      let t := qri.numTriggersNeeded - 1
      let s1 := updRt s q (some { qri with numTriggersNeeded := t })
      if qri.state = NodeState.kReady ∧ t = 0 then
        let s2 := { s1 with numYet := s1.numYet + 1,
                            queue := s1.queue ++ [(TaskType.kToRun, q)] }
        (triggerSuccessors s2 rest).map (fun r =>
          (r.1, [Act.trigDec q, Act.incYet, Act.enqueue TaskType.kToRun q] ++ r.2))
      else
        (triggerSuccessors s1 rest).map (fun r => (r.1, Act.trigDec q :: r.2))

/-- Lines 228-234: decrement `num_nodes_yet_to_finish_` and, under
`finish_mutex_`, notify the waiters when the counter is `0` or the finished
node is the targeted one. -/
def finishNotify (s : SchedState) (nodeId : Nat) : SchedState × List Act :=
  let s1 := { s with numYet := s.numYet - 1 }
  if s1.numYet = 0 ∨ (nodeId : Int) = s1.target then (s1, [Act.decYet, Act.notifyAll])
  else (s1, [Act.decYet])

/-- The body of `DagScheduler::DispatcherRoutine` for one popped event
(lines 156-239).  The node is fetched (`GetNode` is fatal on an absent node,
spec.md section 4.1), its runtime record is fetched (line 161), and then:
a `kToRun` event on an op node builds a task and pushes it to the op's device
(lines 162-176; the task payload, snapshots of the input/output data, is not
needed by any claim and is elided); a `kToComplete` event, or a `kToRun` event
on a data node, runs the completion logic (lines 177-234).  Nodes removed from
the DAG are destroyed after the lock is released (lines 237-239). -/
def dispatchEvent (s : SchedState) (tt : TaskType) (nodeId : Nat) :
    Option (SchedState × List Act) :=
  match s.nodes nodeId with
  | none => none
  | some node =>
    match s.rt nodeId with
    | none => none
    | some ri =>
      if tt = TaskType.kToRun ∧ node.isOp then
        some ({ s with pushed := s.pushed ++ [nodeId] },
          [Act.lockAcquire, Act.pushTask node.deviceId nodeId, Act.lockRelease])
      else
        let s1 := updRt s nodeId (some { ri with state := NodeState.kCompleted })
        let core : Option (SchedState × List Act) :=
          if node.isOp then
            if ri.referenceCount = 0 then none  -- CHECK_NE(reference_count, 0), line 184
            else completeOpPreds s1 node.preds
          else
            let sa := completeDataSelf s1 nodeId node ri
            (completeDataPred sa.1 node).map (fun r => (r.1, sa.2 ++ r.2))
        do
          let (s3, a3) ← core
          let (s4, a4) ← triggerSuccessors s3 node.succs
          let fin := finishNotify s4 nodeId
          let removed := (a3 ++ a4).filterMap (fun a =>
            match a with
            | Act.removeFromDag i => some i
            | _ => none)
          some (fin.1,
            [Act.lockAcquire, Act.setCompleted nodeId] ++ a3 ++ a4 ++ fin.2 ++
            [Act.lockRelease] ++ removed.map Act.deleteNode)

/-- One iteration of the dispatcher loop: pop the front event of the queue and
process it.  An empty queue means the dispatcher blocks (no step). -/
def dispatcherStep (s : SchedState) : Option (SchedState × List Act) :=
  match s.queue with
  | [] => none
  | e :: rest => dispatchEvent { s with queue := rest } e.1 e.2

/-- `DagScheduler::OnOperationComplete` (lines 88-91): the device manager
reports a finished task; a `kToComplete` event is enqueued.  The `reported`
history records the report on the device-manager side (each pushed task is
reported at most once; spec.md section 1 treats the device manager as an
external collaborator that calls back on completion). -/
def reportComplete (s : SchedState) (taskId : Nat) : SchedState :=
  { s with queue := s.queue ++ [(TaskType.kToComplete, taskId)],
           reported := s.reported ++ [taskId] }

/-- The frontend mutating a data node's `extern_rc` through its `DagChunk`
handle (the handle code is outside the scheduler). -/
def setExternRc (s : SchedState) (id : Nat) (v : Int) : SchedState :=
  { s with nodes := fun j =>
      if j = id then (s.nodes id).map (fun n => { n with externRc := v })
      else s.nodes j }

/-- `DagScheduler::OnExternRCUpdate` (lines 93-119): under a `MultiNodeLock`
covering the node, a `Completed` node whose reference count and `extern_rc`
are both `0` is freed and removed (the node object is destroyed after the lock
is released); a `Ready` node is left alone.  The fatal default branch of the
switch is unreachable for the two spec-modelled states. -/
def onExternRCUpdate (s : SchedState) (id : Nat) : Option (SchedState × List Act) :=
  match s.nodes id with
  | none => none
  | some node =>
    match s.rt id with
    | none => none  -- rt_info_.GetState on an absent entry
    | some ri =>
      match ri.state with
      | NodeState.kCompleted =>
        if ri.referenceCount = 0 ∧ node.externRc = 0 then
          some (onDeleteNode (removeNodeFromDag s id) id,
            [Act.lockAcquire, Act.freeData node.dataId, Act.removeFromDag id,
             Act.rtRemove id, Act.lockRelease, Act.deleteNode id])
        else some (s, [Act.lockAcquire, Act.lockRelease])
      | NodeState.kReady => some (s, [Act.lockAcquire, Act.lockRelease])

/-- The result of `DagScheduler::GetValue` (lines 77-85): the element count of
the freshly allocated host buffer, the byte count of the copy
(`size.Prod() * sizeof(float)`), and the `(device_id, data_id)` pair passed to
`MinervaSystem::GetPtr`. -/
structure GetValueResult where
  allocElems : Nat
  copyBytes : Nat
  srcDevice : Nat
  srcDataId : Nat
deriving DecidableEq

/-- The product of a `Scale` (`Scale::Prod`). -/
def scaleProd (size : List Nat) : Nat :=
  size.foldl (fun a b => a * b) 1

/-- `DagScheduler::GetValue` (lines 77-85): fetch the chunk's data node
(a dangling chunk is fatal), allocate `size.Prod()` floats, and copy
`size.Prod() * sizeof(float)` bytes from the device pointer
`GetPtr(device_id, data_id)`.  The function never consults the runtime state
of the node. -/
def getValue (s : SchedState) (id : Nat) : Option GetValueResult :=
  match s.nodes id with
  | none => none
  | some n =>
    some ⟨scaleProd n.size, scaleProd n.size * 4, n.deviceId, n.dataId⟩

/-- The loop of `DagScheduler::WaitForAll` (lines 72-74), driven by the values
of `num_nodes_yet_to_finish_` observed at each wakeup: the call returns (with
`some ()`) at the first observation equal to `0`, and keeps waiting
(`none`) otherwise. -/
def waitForAllLoop : List Int → Option Unit
  | [] => none
  | n :: rest => if n = 0 then some () else waitForAllLoop rest

/-- `DagScheduler::WaitForAll` (lines 65-75): under `finish_mutex_`, assert
`target_ == -1` (fatal otherwise, modelled as `none`), then wait until
`num_nodes_yet_to_finish_` is observed to be `0`. -/
def waitForAll (target : Int) (obs : List Int) : Option (Option Unit) :=
  if target ≠ -1 then none  -- CHECK_EQ(target_, -1)
  else some (waitForAllLoop obs)

/-- The state of a freshly constructed scheduler: empty DAG, empty runtime
map, empty queue, `num_nodes_yet_to_finish_ = 0`, `target_ = -1`. -/
def initState : SchedState :=
  ⟨fun _ => none, fun _ => none, [], [], [], 0, -1, 0, 0⟩

/-- The states the scheduler can reach.  Steps: `Create` called by the
frontend on live data-node handles, one dispatcher iteration, a completion
report from the device manager (at most one per pushed task), and a frontend
`extern_rc` mutation on a live data node followed by the mandatory
`OnExternRCUpdate` callback. -/
inductive Reach : SchedState → Prop where
  | init : Reach initState
  | create {s s' : SchedState} {tr : List Act} {devId : Nat} {params : List Nat}
      {sizes : List (List Nat)} :
      Reach s →
      (∀ p ∈ params, ∃ n, s.nodes p = some n ∧ n.isOp = false) →
      createStep s devId params sizes = some (s', tr) →
      Reach s'
  | dispatch {s s' : SchedState} {tr : List Act} :
      Reach s →
      dispatcherStep s = some (s', tr) →
      Reach s'
  | report {s : SchedState} {taskId : Nat} :
      Reach s →
      taskId ∈ s.pushed →
      taskId ∉ s.reported →
      Reach (reportComplete s taskId)
  | externUpd {s s' : SchedState} {tr : List Act} {id : Nat} {v : Int} :
      Reach s →
      (∃ n, s.nodes id = some n ∧ n.isOp = false) →
      0 ≤ v →
      onExternRCUpdate (setExternRc s id v) id = some (s', tr) →
      Reach s'

/-! ## Basic lemmas about the state updates -/

@[simp]
theorem setFn_same {α : Type} (f : Nat → Option α) (id : Nat) (v : Option α) :
    setFn f id v id = v := by
  simp [setFn]

theorem setFn_other {α : Type} (f : Nat → Option α) (id j : Nat) (v : Option α)
    (h : j ≠ id) : setFn f id v j = f j := by
  simp [setFn, h]

@[simp]
theorem updRt_nodes (s : SchedState) (id : Nat) (v : Option RuntimeInfo) :
    (updRt s id v).nodes = s.nodes := rfl

@[simp]
theorem updRt_queue (s : SchedState) (id : Nat) (v : Option RuntimeInfo) :
    (updRt s id v).queue = s.queue := rfl

@[simp]
theorem updRt_pushed (s : SchedState) (id : Nat) (v : Option RuntimeInfo) :
    (updRt s id v).pushed = s.pushed := rfl

@[simp]
theorem updRt_rt_same (s : SchedState) (id : Nat) (v : Option RuntimeInfo) :
    (updRt s id v).rt id = v := by
  simp [updRt]

theorem updRt_rt_other (s : SchedState) (id j : Nat) (v : Option RuntimeInfo)
    (h : j ≠ id) : (updRt s id v).rt j = s.rt j := by
  simp [updRt, setFn, h]

@[simp]
theorem removeNodeFromDag_rt (s : SchedState) (id : Nat) :
    (removeNodeFromDag s id).rt = s.rt := rfl

@[simp]
theorem removeNodeFromDag_queue (s : SchedState) (id : Nat) :
    (removeNodeFromDag s id).queue = s.queue := rfl

@[simp]
theorem removeNodeFromDag_nodes_same (s : SchedState) (id : Nat) :
    (removeNodeFromDag s id).nodes id = none := by
  simp [removeNodeFromDag]

theorem removeNodeFromDag_nodes_other (s : SchedState) (id j : Nat) (h : j ≠ id) :
    (removeNodeFromDag s id).nodes j = (s.nodes j).map (detachOne id) := by
  simp [removeNodeFromDag, h]

@[simp]
theorem onDeleteNode_nodes (s : SchedState) (id : Nat) :
    (onDeleteNode s id).nodes = s.nodes := rfl

@[simp]
theorem onDeleteNode_rt_same (s : SchedState) (id : Nat) :
    (onDeleteNode s id).rt id = none := by
  simp [onDeleteNode]

theorem onDeleteNode_rt_other (s : SchedState) (id j : Nat) (h : j ≠ id) :
    (onDeleteNode s id).rt j = s.rt j := by
  simp [onDeleteNode, updRt, setFn, h]

/-! ## C2 — `GetValue` -/

/-- The state right after one `Create` with no inputs and a single `[2]`-shaped
result on device `7`: data node `0` (state `Ready`) and op node `1` with the
op's `kToRun` event enqueued. -/
def exCreate1 : SchedState × List Act :=
  (createStep initState 7 [] [[2]]).getD (initState, [])

/-- The claim says `get_value` is fatal when the data node is not `Completed`.
In the code `GetValue` (lines 77-85) never consults the runtime state: on the
reachable state right after a `Create`, the result data node `0` is still
`Ready`, and `getValue` succeeds, returning the host copy descriptor. -/
theorem getValue_not_completed_cex :
    Reach exCreate1.1 ∧
    stateOf exCreate1.1 0 = some NodeState.kReady ∧
    getValue exCreate1.1 0 = some ⟨2, 8, 7, 0⟩ := by
  refine ⟨@Reach.create initState exCreate1.1 exCreate1.2 7 [] [[2]]
    Reach.init (by simp) rfl, rfl, rfl⟩

/-- Amended C2: `get_value` performs no state check.  For every live node it
returns a freshly allocated host buffer of `size.Prod()` elements into which
`size.Prod() * sizeof(float)` bytes are copied from the device pointer
`GetPtr(device_id, data_id)`, whatever the node's runtime state; it is fatal
only when the handle no longer refers to a live node. -/
theorem getValue_copies_unconditionally (s : SchedState) (id : Nat) :
    (∀ n, s.nodes id = some n →
      getValue s id = some ⟨scaleProd n.size, scaleProd n.size * 4, n.deviceId, n.dataId⟩) ∧
    (s.nodes id = none → getValue s id = none) := by
  constructor
  · intro n hn
    simp [getValue, hn]
  · intro hn
    simp [getValue, hn]

/-- Witness for the amended C2 at the concrete state of `exCreate1`. -/
theorem getValue_copies_unconditionally_witness :
    getValue exCreate1.1 0 = some ⟨2, 8, 7, 0⟩ :=
  (getValue_copies_unconditionally exCreate1.1 0).1 _ rfl

/-! ## C8 — `WaitForAll` -/

theorem waitForAllLoop_returns_iff (obs : List Int) :
    waitForAllLoop obs = some () ↔ (0 : Int) ∈ obs := by
  induction obs with
  | nil => simp [waitForAllLoop]
  | cons n rest ih =>
    by_cases h : n = 0
    · subst h
      simp [waitForAllLoop]
    · simp [waitForAllLoop, h, ih, Ne.symm h]

/-- C8: `WaitForAll` is fatal exactly when a targeted `Wait` is in progress
(`target_ ≠ -1`, the `CHECK_EQ` of line 71); otherwise it returns exactly when
`num_nodes_yet_to_finish_` is observed to be `0` on `finish_cond_`
(lines 72-74), and keeps blocking otherwise. -/
theorem waitForAll_spec (target : Int) (obs : List Int) :
    (waitForAll target obs = none ↔ target ≠ -1) ∧
    (waitForAll target obs = some (some ()) ↔ (target = -1 ∧ (0 : Int) ∈ obs)) := by
  constructor
  · by_cases h : target = -1 <;> simp [waitForAll, h]
  · by_cases h : target = -1 <;>
      simp [waitForAll, h, waitForAllLoop_returns_iff]

/-! ## C7 — `OnExternRCUpdate` -/

/-- C7: `OnExternRCUpdate`, under a `MultiNodeLock` covering the node, frees
the node's storage and removes it exactly when its state is `Completed`, its
reference count is `0` and its `extern_rc` is `0` (with the node object
destroyed after the lock is released, visible as the trailing `deleteNode`
after `lockRelease` in the trace); a node in any other reachable
configuration, in particular any `Ready` node, is left untouched.  The fatal
default branch of the switch (line 115) is unreachable for the two node
states of the data model, so the call never aborts on a live registered
node. -/
theorem onExternRCUpdate_spec (s : SchedState) (id : Nat) (node : PhysNode)
    (ri : RuntimeInfo) (hn : s.nodes id = some node) (hr : s.rt id = some ri) :
    (ri.state = NodeState.kCompleted ∧ ri.referenceCount = 0 ∧ node.externRc = 0 →
      onExternRCUpdate s id =
        some (onDeleteNode (removeNodeFromDag s id) id,
          [Act.lockAcquire, Act.freeData node.dataId, Act.removeFromDag id,
           Act.rtRemove id, Act.lockRelease, Act.deleteNode id])) ∧
    (¬ (ri.referenceCount = 0 ∧ node.externRc = 0) ∨ ri.state = NodeState.kReady →
      onExternRCUpdate s id = some (s, [Act.lockAcquire, Act.lockRelease])) := by
  constructor
  · rintro ⟨hst, hrc, herc⟩
    simp [onExternRCUpdate, hn, hr, hst, hrc, herc]
  · intro h
    cases hst : ri.state with
    | kReady => simp [onExternRCUpdate, hn, hr, hst]
    | kCompleted =>
      rcases h with h | h
      · simp [onExternRCUpdate, hn, hr, hst, if_neg h]
      · rw [hst] at h
        exact absurd h (by simp)

/-- A concrete state with a `Completed`, unreferenced data node `5` and a
`Ready` data node `6`. -/
def exExtern : SchedState :=
  updRt (updNodes (updRt (updNodes initState 5
      (some ⟨false, [], [], [3], 0, 9, 0⟩)) 5 (some ⟨NodeState.kCompleted, 0, 0⟩))
    6 (some ⟨false, [], [], [1], 0, 10, 0⟩)) 6 (some ⟨NodeState.kReady, 1, 0⟩)

/-- Witness for C7: on `exExtern`, node `5` (`Completed`, both counts `0`) is
reclaimed with the destruction after the lock release, and node `6` (`Ready`)
is left untouched. -/
theorem onExternRCUpdate_spec_witness :
    onExternRCUpdate exExtern 5 =
      some (onDeleteNode (removeNodeFromDag exExtern 5) 5,
        [Act.lockAcquire, Act.freeData 9, Act.removeFromDag 5,
         Act.rtRemove 5, Act.lockRelease, Act.deleteNode 5]) ∧
    onExternRCUpdate exExtern 6 = some (exExtern, [Act.lockAcquire, Act.lockRelease]) := by
  constructor
  · exact (onExternRCUpdate_spec exExtern 5 ⟨false, [], [], [3], 0, 9, 0⟩
      ⟨NodeState.kCompleted, 0, 0⟩ rfl rfl).1 ⟨rfl, rfl, rfl⟩
  · exact (onExternRCUpdate_spec exExtern 6 ⟨false, [], [], [1], 0, 10, 0⟩
      ⟨NodeState.kReady, 1, 0⟩ rfl rfl).2 (Or.inr rfl)

/-! ## C1 — what `Create` does under the `MultiNodeLock` -/

/-- Does this action mutate scheduler state (the DAG, the runtime-info map,
the counters, or the dispatcher queue)?  Lock transitions, pushing a task to a
device, waking waiters and destroying an already-detached node object do
not. -/
def mutatesSched (a : Act) : Bool :=
  match a with
  | Act.lockAcquire => false
  | Act.lockRelease => false
  | Act.deleteNode _ => false
  | Act.pushTask _ _ => false
  | Act.notifyAll => false
  | _ => true

/-- Scans a trace, tracking whether the `MultiNodeLock` is held, and reports
whether any scheduler-state mutation happens while it is not held. -/
def mutatesOutsideLock : Bool → List Act → Bool
  | _, [] => false
  | _, Act.lockAcquire :: rest => mutatesOutsideLock true rest
  | _, Act.lockRelease :: rest => mutatesOutsideLock false rest
  | locked, a :: rest => (!locked && mutatesSched a) || mutatesOutsideLock locked rest

/-- C1 fails on the code: in `Create` (lines 25-53) the result data nodes are
allocated in the DAG and registered in the runtime-info map (lines 28-33)
before the `MultiNodeLock` of line 40 is acquired.  Concretely, for a
`Create` with no inputs and one result, the trace starts with the data-node
allocation and runtime-info registration of node `0` and only then acquires
the lock. -/
theorem create_mutates_before_lock_cex :
    createStep initState 7 [] [[2]] = some exCreate1 ∧
    exCreate1.2.take 3 = [Act.newDataNode 0, Act.rtAdd 0, Act.lockAcquire] ∧
    mutatesSched (Act.newDataNode 0) = true ∧
    mutatesOutsideLock false exCreate1.2 = true :=
  ⟨rfl, rfl, rfl, rfl⟩

theorem newDataNodes_length (sizes : List (List Nat)) :
    ∀ s devId, (newDataNodes s devId sizes).2.length = sizes.length := by
  induction sizes with
  | nil => intro s devId; rfl
  | cons sz rest ih =>
    intro s devId
    simp [newDataNodes, ih]

/-- Amended C1: the op-node allocation, the edge creation, the counter updates
and `ProcessIfReady` all run under the single `MultiNodeLock` covering the
input data nodes, and no scheduler state is mutated after the lock is
released; but the result data nodes are allocated and registered in the
runtime-info map (one `newDataNode` and one `rtAdd` per result shape) before
the lock is acquired. -/
theorem create_lock_scope (s : SchedState) (devId : Nat) (params : List Nat)
    (sizes : List (List Nat)) (s' : SchedState) (tr : List Act)
    (h : createStep s devId params sizes = some (s', tr)) :
    ∃ (ids : List Nat) (mid : List Act), ids.length = sizes.length ∧
      tr = ids.map Act.newDataNode ++ ids.map Act.rtAdd ++
        [Act.lockAcquire] ++ mid ++ [Act.lockRelease] := by
  unfold createStep at h
  rcases hnd : newDataNodes s devId sizes with ⟨s1, rstIds⟩
  simp only [hnd] at h
  have hlen : rstIds.length = sizes.length := by
    rw [← newDataNodes_length sizes s devId, hnd]
  split at h
  · exact absurd h (by simp)
  rcases hop : newOpNodeOp (onCreateNodes s1 rstIds) devId params rstIds with ⟨s3, opId⟩
  simp only [hop] at h
  rcases ho5 : onCreateInEdges (onCreateNode s3 opId) params opId with _ | ⟨s5, a5⟩
  · simp [ho5] at h
  simp only [ho5, Option.bind_eq_bind, Option.some_bind] at h
  rcases ho6 : onCreateOutEdges s5 opId rstIds with _ | ⟨s6, a6⟩
  · simp [ho6] at h
  simp only [ho6, Option.some_bind] at h
  rcases ho7 : processIfReady s6 opId with _ | ⟨s7, a7⟩
  · simp [ho7] at h
  simp only [ho7, Option.some_bind, Option.some.injEq, Prod.mk.injEq] at h
  refine ⟨rstIds, [Act.newOpNode opId, Act.rtAdd opId] ++ a5 ++ a6 ++ a7, hlen, ?_⟩
  rw [← h.2]
  simp

/-- Witness for the amended C1 at the concrete `Create` of `exCreate1`. -/
theorem create_lock_scope_witness :
    ∃ (ids : List Nat) (mid : List Act), ids.length = [[2]].length ∧
      exCreate1.2 = ids.map Act.newDataNode ++ ids.map Act.rtAdd ++
        [Act.lockAcquire] ++ mid ++ [Act.lockRelease] :=
  create_lock_scope initState 7 [] [[2]] exCreate1.1 exCreate1.2 rfl

/-! ## Characterization of the successor-triggering loop -/

/-- Will the successor-triggering loop enqueue `kToRun` for `q`?  Exactly when
`q` is `Ready` and the decrement takes its trigger count from `1` to `0`. -/
def willEnqueue (s : SchedState) (q : Nat) : Bool :=
  match s.rt q with
  | some r => if r.state = NodeState.kReady ∧ r.numTriggersNeeded = 1 then true else false
  | none => false

theorem willEnqueue_eq_true (s : SchedState) (q : Nat) (r : RuntimeInfo)
    (h : s.rt q = some r) :
    willEnqueue s q = true ↔ (r.state = NodeState.kReady ∧ r.numTriggersNeeded = 1) := by
  simp only [willEnqueue, h]
  split <;> simp_all

/-- Congruence for `flatMap` under pointwise agreement on members. -/
theorem flatMap_congr_mem {α β : Type} (l : List α) (f g : α → List β)
    (h : ∀ x ∈ l, f x = g x) : l.flatMap f = l.flatMap g := by
  induction l with
  | nil => rfl
  | cons a rest ih =>
    simp only [List.flatMap_cons]
    rw [h a (List.mem_cons_self a rest), ih (fun x hx => h x (List.mem_cons_of_mem a hx))]

/-- Full characterization of `triggerSuccessors` on a duplicate-free successor
list: every listed node\'s trigger count is decremented (their entries must
exist), nothing else in the runtime map or the rest of the state changes, the
queue gains exactly one `kToRun` event per successor that was `Ready` with
trigger count `1`, `num_nodes_yet_to_finish_` rises by the number of such
events, and the trace has one decrement per successor with an `incYet`
immediately followed by the `enqueue` for the triggered ones. -/
theorem triggerSuccessors_char (l : List Nat) :
    ∀ (s s1 : SchedState) (A : List Act), l.Nodup →
    triggerSuccessors s l = some (s1, A) →
    (∀ q ∈ l, ∃ qri, s.rt q = some qri ∧
        s1.rt q = some { qri with numTriggersNeeded := qri.numTriggersNeeded - 1 }) ∧
    (∀ j, j ∉ l → s1.rt j = s.rt j) ∧
    s1.nodes = s.nodes ∧ s1.pushed = s.pushed ∧ s1.reported = s.reported ∧
    s1.target = s.target ∧ s1.nextId = s.nextId ∧ s1.nextDataId = s.nextDataId ∧
    s1.queue = s.queue ++ (l.filter (willEnqueue s)).map (fun q => (TaskType.kToRun, q)) ∧
    s1.numYet = s.numYet + ((l.filter (willEnqueue s)).length : Int) ∧
    A = l.flatMap (fun q => if willEnqueue s q then
          [Act.trigDec q, Act.incYet, Act.enqueue TaskType.kToRun q]
        else [Act.trigDec q]) := by
  induction l with
  | nil =>
    intro s s1 A _ h
    simp only [triggerSuccessors, Option.some.injEq, Prod.mk.injEq] at h
    simp [← h.1, ← h.2]
  | cons q rest ih =>
    intro s s1 A hN h
    have hqrest : q ∉ rest := (List.nodup_cons.mp hN).1
    have hNrest : rest.Nodup := (List.nodup_cons.mp hN).2
    simp only [triggerSuccessors] at h
    rcases hq : s.rt q with _ | qri
    · simp only [hq] at h
      exact Option.noConfusion h
    simp only [hq] at h
    by_cases hcond : qri.state = NodeState.kReady ∧ qri.numTriggersNeeded - 1 = 0
    · rw [if_pos hcond] at h
      rcases hrec : triggerSuccessors
          { updRt s q (some { qri with numTriggersNeeded := qri.numTriggersNeeded - 1 }) with
            numYet := (updRt s q
              (some { qri with numTriggersNeeded := qri.numTriggersNeeded - 1 })).numYet + 1,
            queue := (updRt s q
              (some { qri with numTriggersNeeded := qri.numTriggersNeeded - 1 })).queue ++
              [(TaskType.kToRun, q)] } rest
        with _ | ⟨s1x, Ax⟩ <;> rw [hrec] at h
      · exact absurd h (by simp)
      set s2 : SchedState :=
        { updRt s q (some { qri with numTriggersNeeded := qri.numTriggersNeeded - 1 }) with
          numYet := (updRt s q
            (some { qri with numTriggersNeeded := qri.numTriggersNeeded - 1 })).numYet + 1,
          queue := (updRt s q
            (some { qri with numTriggersNeeded := qri.numTriggersNeeded - 1 })).queue ++
            [(TaskType.kToRun, q)] } with hs2
      simp only [Option.map_some', Option.some.injEq, Prod.mk.injEq] at h
      obtain ⟨hs1, hA⟩ := h
      obtain ⟨r1, r2, r3, r4, r5, r6, r7, r8, r9, r10, r11⟩ := ih s2 s1x Ax hNrest hrec
      have hwq : willEnqueue s q = true := by
        rw [willEnqueue_eq_true s q qri hq]
        exact ⟨hcond.1, by omega⟩
      have hrt2 : ∀ j, j ≠ q → s2.rt j = s.rt j := by
        intro j hj
        simp [hs2, updRt, setFn, hj]
      have hwrest : ∀ x ∈ rest, willEnqueue s2 x = willEnqueue s x := by
        intro x hx
        have hxq : x ≠ q := fun e => hqrest (e ▸ hx)
        simp [willEnqueue, hs2, updRt, setFn, hxq]
      have hfilter : rest.filter (willEnqueue s2) = rest.filter (willEnqueue s) :=
        List.filter_congr hwrest
      subst hs1
      refine ⟨?_, ?_, ?_, ?_, ?_, ?_, ?_, ?_, ?_, ?_, ?_⟩
      · intro x hx
        rcases List.mem_cons.mp hx with hxq | hxr
        · subst hxq
          refine ⟨qri, hq, ?_⟩
          rw [r2 x hqrest]
          simp [hs2, updRt]
        · obtain ⟨xri, hxri, hxri2⟩ := r1 x hxr
          rw [hrt2 x (fun e => hqrest (e ▸ hxr))] at hxri
          exact ⟨xri, hxri, hxri2⟩
      · intro j hj
        rw [r2 j (fun hr => hj (List.mem_cons_of_mem _ hr)),
          hrt2 j (fun e => hj (e ▸ List.mem_cons_self _ _))]
      · rw [r3]; simp [hs2, updRt]
      · rw [r4]; simp [hs2, updRt]
      · rw [r5]; simp [hs2, updRt]
      · rw [r6]; simp [hs2, updRt]
      · rw [r7]; simp [hs2, updRt]
      · rw [r8]; simp [hs2, updRt]
      · rw [r9, hfilter]
        simp [hs2, updRt, List.filter_cons, hwq]
      · rw [r10, hfilter]
        have h2 : s2.numYet = s.numYet + 1 := rfl
        rw [h2]
        simp only [List.filter_cons, hwq, if_true, List.length_cons]
        push_cast
        ring
      · rw [← hA, r11, flatMap_congr_mem rest _ _ (fun x hx => by rw [hwrest x hx])]
        simp only [List.flatMap_cons, hwq, if_true]
    · rw [if_neg hcond] at h
      rcases hrec : triggerSuccessors
          (updRt s q (some { qri with numTriggersNeeded := qri.numTriggersNeeded - 1 })) rest
        with _ | ⟨s1x, Ax⟩ <;> rw [hrec] at h
      · exact absurd h (by simp)
      set s2 : SchedState :=
        updRt s q (some { qri with numTriggersNeeded := qri.numTriggersNeeded - 1 }) with hs2
      simp only [Option.map_some', Option.some.injEq, Prod.mk.injEq] at h
      obtain ⟨hs1, hA⟩ := h
      obtain ⟨r1, r2, r3, r4, r5, r6, r7, r8, r9, r10, r11⟩ := ih s2 s1x Ax hNrest hrec
      have hwq : willEnqueue s q = false := by
        rw [← Bool.not_eq_true]
        intro hw
        rw [willEnqueue_eq_true s q qri hq] at hw
        exact hcond ⟨hw.1, by omega⟩
      have hrt2 : ∀ j, j ≠ q → s2.rt j = s.rt j := by
        intro j hj
        simp [hs2, updRt, setFn, hj]
      have hwrest : ∀ x ∈ rest, willEnqueue s2 x = willEnqueue s x := by
        intro x hx
        have hxq : x ≠ q := fun e => hqrest (e ▸ hx)
        simp [willEnqueue, hs2, updRt, setFn, hxq]
      have hfilter : rest.filter (willEnqueue s2) = rest.filter (willEnqueue s) :=
        List.filter_congr hwrest
      subst hs1
      refine ⟨?_, ?_, ?_, ?_, ?_, ?_, ?_, ?_, ?_, ?_, ?_⟩
      · intro x hx
        rcases List.mem_cons.mp hx with hxq | hxr
        · subst hxq
          refine ⟨qri, hq, ?_⟩
          rw [r2 x hqrest]
          simp [hs2, updRt]
        · obtain ⟨xri, hxri, hxri2⟩ := r1 x hxr
          rw [hrt2 x (fun e => hqrest (e ▸ hxr))] at hxri
          exact ⟨xri, hxri, hxri2⟩
      · intro j hj
        rw [r2 j (fun hr => hj (List.mem_cons_of_mem _ hr)),
          hrt2 j (fun e => hj (e ▸ List.mem_cons_self _ _))]
      · rw [r3]; simp [hs2, updRt]
      · rw [r4]; simp [hs2, updRt]
      · rw [r5]; simp [hs2, updRt]
      · rw [r6]; simp [hs2, updRt]
      · rw [r7]; simp [hs2, updRt]
      · rw [r8]; simp [hs2, updRt]
      · rw [r9, hfilter]
        simp [hs2, updRt, List.filter_cons, hwq]
      · rw [r10, hfilter]
        have h2 : s2.numYet = s.numYet := rfl
        rw [h2]
        simp [List.filter_cons, hwq]
      · rw [← hA, r11, flatMap_congr_mem rest _ _ (fun x hx => by rw [hwrest x hx])]
        simp [List.flatMap_cons, hwq]

/-! ## Characterization of the op-completion predecessor loop -/

/-- Detach a whole set of removed node ids from a neighbour's edge sets. -/
def detachSet (R : List Nat) (n : PhysNode) : PhysNode :=
  { n with preds := n.preds.filter (fun x => x ∉ R),
           succs := n.succs.filter (fun x => x ∉ R) }

theorem filter_ne_filter_notMem (l : List Nat) (p : Nat) (R : List Nat) :
    (l.filter (fun x => x ≠ p)).filter (fun x => x ∉ R) =
      l.filter (fun x => x ∉ p :: R) := by
  rw [List.filter_filter]
  apply List.filter_congr
  intro x _
  by_cases h1 : x = p <;> by_cases h2 : x ∈ R <;> simp [h1, h2]

theorem detachSet_nil (n : PhysNode) : detachSet [] n = n := by
  cases n
  simp [detachSet]

theorem detachSet_detachOne (p : Nat) (R : List Nat) (n : PhysNode) :
    detachSet R (detachOne p n) = detachSet (p :: R) n := by
  cases n
  simp only [detachSet, detachOne, filter_ne_filter_notMem]

/-- The `data_id` of a node (`0` when the node is absent). -/
def dataIdOf (s : SchedState) (p : Nat) : Nat :=
  match s.nodes p with
  | some n => n.dataId
  | none => 0

/-- Will the predecessor loop of an op completion reclaim `p`?  Exactly when
the reference-count decrement reaches `0` and `extern_rc` is `0`. -/
def willReclaim (s : SchedState) (p : Nat) : Bool :=
  match s.rt p, s.nodes p with
  | some pri, some pnode =>
    if pri.referenceCount = 1 ∧ pnode.externRc = 0 then true else false
  | _, _ => false

theorem willReclaim_eq_true (s : SchedState) (p : Nat) (pri : RuntimeInfo)
    (pnode : PhysNode) (hr : s.rt p = some pri) (hn : s.nodes p = some pnode) :
    willReclaim s p = true ↔ (pri.referenceCount = 1 ∧ pnode.externRc = 0) := by
  simp only [willReclaim, hr, hn]
  split <;> simp_all

/-- Full characterization of the op-completion predecessor loop on a
duplicate-free predecessor list: every listed node must be a data node with
trigger count `0` (the dispatcher asserts both), every listed node's reference
count is decremented, the nodes whose decrement reaches `0` with `extern_rc`
`0` are removed from the DAG (their storage freed, their runtime entries
dropped, the survivors' edge sets detached from them), nothing else changes,
and the trace records the decrement — then free, removal and unregistration
for the reclaimed ones — per predecessor in order. -/
theorem completeOpPreds_char (l : List Nat) :
    ∀ (s s1 : SchedState) (A : List Act), l.Nodup →
    completeOpPreds s l = some (s1, A) →
    (∀ p ∈ l, ∃ pri pnode, s.rt p = some pri ∧ s.nodes p = some pnode ∧
        pnode.isOp = false ∧ pri.numTriggersNeeded = 0) ∧
    (∀ j, s1.nodes j =
        (if j ∈ l.filter (willReclaim s) then none
         else (s.nodes j).map (detachSet (l.filter (willReclaim s))))) ∧
    (∀ j, s1.rt j =
        (if j ∈ l.filter (willReclaim s) then none
         else if j ∈ l then (s.rt j).map (fun r =>
             { r with referenceCount := r.referenceCount - 1 })
         else s.rt j)) ∧
    s1.queue = s.queue ∧ s1.pushed = s.pushed ∧ s1.reported = s.reported ∧
    s1.numYet = s.numYet ∧ s1.target = s.target ∧ s1.nextId = s.nextId ∧
    s1.nextDataId = s.nextDataId ∧
    A = l.flatMap (fun p => if willReclaim s p then
          [Act.rcDec p, Act.freeData (dataIdOf s p), Act.removeFromDag p, Act.rtRemove p]
        else [Act.rcDec p]) := by
  induction l with
  | nil =>
    intro s s1 A _ h
    simp only [completeOpPreds, Option.some.injEq, Prod.mk.injEq] at h
    obtain ⟨h1, h2⟩ := h
    subst h1
    refine ⟨by simp, ?_, ?_, rfl, rfl, rfl, rfl, rfl, rfl, rfl, by simp [← h2]⟩
    · intro j
      have : detachSet ([] : List Nat) = id := funext detachSet_nil
      simp [this]
    · intro j
      simp
  | cons p rest ih =>
    intro s s1 A hN h
    have hprest : p ∉ rest := (List.nodup_cons.mp hN).1
    have hNrest : rest.Nodup := (List.nodup_cons.mp hN).2
    simp only [completeOpPreds] at h
    rcases hpr : s.rt p with _ | pri
    · rw [hpr] at h
      rcases hpn : s.nodes p with _ | pnode <;> simp only [hpn] at h <;>
        exact Option.noConfusion h
    rcases hpn : s.nodes p with _ | pnode
    · simp only [hpr, hpn] at h
      exact Option.noConfusion h
    simp only [hpr, hpn] at h
    by_cases hop : pnode.isOp = true
    · rw [if_pos hop] at h
      exact Option.noConfusion h
    rw [if_neg hop] at h
    by_cases htr : pri.numTriggersNeeded ≠ 0
    · rw [if_pos htr] at h
      exact Option.noConfusion h
    rw [if_neg htr] at h
    push_neg at htr
    by_cases hrc : pri.referenceCount - 1 = 0 ∧ pnode.externRc = 0
    · rw [if_pos hrc] at h
      rcases hrec : completeOpPreds
          (onDeleteNode (removeNodeFromDag
            (updRt s p (some { pri with referenceCount := pri.referenceCount - 1 })) p) p) rest
        with _ | ⟨s1x, Ax⟩ <;> rw [hrec] at h
      · exact Option.noConfusion h
      set s2 : SchedState :=
        onDeleteNode (removeNodeFromDag
          (updRt s p (some { pri with referenceCount := pri.referenceCount - 1 })) p) p with hs2
      simp only [Option.map_some', Option.some.injEq, Prod.mk.injEq] at h
      obtain ⟨hs1, hA⟩ := h
      obtain ⟨r1, r2, r3, r4, r5, r6, r7, r8, r9, r10, r11⟩ := ih s2 s1x Ax hNrest hrec
      have hwp : willReclaim s p = true := by
        rw [willReclaim_eq_true s p pri pnode hpr hpn]
        exact ⟨by omega, hrc.2⟩
      have hrt2 : ∀ j, j ≠ p → s2.rt j = s.rt j := by
        intro j hj
        simp [hs2, onDeleteNode, updRt, setFn, hj]
      have hnodes2 : ∀ j, j ≠ p → s2.nodes j = (s.nodes j).map (detachOne p) := by
        intro j hj
        simp [hs2, onDeleteNode, removeNodeFromDag, updRt, setFn, hj]
      have hwrest : ∀ x ∈ rest, willReclaim s2 x = willReclaim s x := by
        intro x hx
        have hxp : x ≠ p := fun e => hprest (e ▸ hx)
        rw [willReclaim, willReclaim, hrt2 x hxp, hnodes2 x hxp]
        rcases s.rt x with _ | xr <;> rcases s.nodes x with _ | xn <;>
          simp [detachOne]
      have hfilter : rest.filter (willReclaim s2) = rest.filter (willReclaim s) :=
        List.filter_congr hwrest
      subst hs1
      refine ⟨?_, ?_, ?_, ?_, ?_, ?_, ?_, ?_, ?_, ?_, ?_⟩
      · intro x hx
        rcases List.mem_cons.mp hx with hxp | hxr
        · subst hxp
          exact ⟨pri, pnode, hpr, hpn, by simpa using hop, htr⟩
        · obtain ⟨xri, xn, hxri, hxn, hxop, hxtr⟩ := r1 x hxr
          have hxp : x ≠ p := fun e => hprest (e ▸ hxr)
          rw [hrt2 x hxp] at hxri
          rw [hnodes2 x hxp] at hxn
          rcases hsx : s.nodes x with _ | xn0
          · rw [hsx] at hxn
            exact Option.noConfusion hxn
          rw [hsx] at hxn
          simp only [Option.map_some', Option.some.injEq] at hxn
          refine ⟨xri, xn0, hxri, rfl, ?_, hxtr⟩
          have : xn.isOp = xn0.isOp := by rw [← hxn]; rfl
          rw [← this, hxop]
      · intro j
        rw [r2 j, hfilter]
        simp only [List.filter_cons, hwp, if_true]
        by_cases hjp : j = p
        · subst hjp
          have h0 : s2.nodes j = none := by
            simp [hs2, onDeleteNode, removeNodeFromDag]
          have h1 : j ∉ rest.filter (willReclaim s) :=
            fun hm => hprest (List.mem_of_mem_filter hm)
          simp [h0, h1]
        · rw [hnodes2 j hjp]
          have h1 : (j ∈ p :: rest.filter (willReclaim s)) ↔
              j ∈ rest.filter (willReclaim s) := by simp [List.mem_cons, hjp]
          by_cases hjR : j ∈ rest.filter (willReclaim s)
          · simp [hjR, h1]
          · simp only [hjR, if_false, h1, Option.map_map]
            rcases s.nodes j with _ | nj
            · simp
            · simp [Function.comp, detachSet_detachOne]
      · intro j
        rw [r3 j, hfilter]
        simp only [List.filter_cons, hwp, if_true]
        by_cases hjp : j = p
        · subst hjp
          have h0 : s2.rt j = none := by simp [hs2, onDeleteNode]
          have h1 : j ∉ rest.filter (willReclaim s) :=
            fun hm => hprest (List.mem_of_mem_filter hm)
          simp [h0, h1, hprest]
        · have h1 : (j ∈ p :: rest.filter (willReclaim s)) ↔
              j ∈ rest.filter (willReclaim s) := by simp [List.mem_cons, hjp]
          have h2 : (j ∈ p :: rest) ↔ j ∈ rest := by simp [List.mem_cons, hjp]
          simp [h1, h2, hrt2 j hjp]
      · rw [r4]; simp [hs2, onDeleteNode, removeNodeFromDag, updRt]
      · rw [r5]; simp [hs2, onDeleteNode, removeNodeFromDag, updRt]
      · rw [r6]; simp [hs2, onDeleteNode, removeNodeFromDag, updRt]
      · rw [r7]; simp [hs2, onDeleteNode, removeNodeFromDag, updRt]
      · rw [r8]; simp [hs2, onDeleteNode, removeNodeFromDag, updRt]
      · rw [r9]; simp [hs2, onDeleteNode, removeNodeFromDag, updRt]
      · rw [r10]; simp [hs2, onDeleteNode, removeNodeFromDag, updRt]
      · rw [← hA, r11, flatMap_congr_mem rest _ _ (fun x hx => by
          have hxp : x ≠ p := fun e => hprest (e ▸ hx)
          have hd : dataIdOf s2 x = dataIdOf s x := by
            rw [dataIdOf, dataIdOf, hnodes2 x hxp]
            rcases s.nodes x with _ | nx <;> simp [detachOne]
          rw [hwrest x hx, hd])]
        simp only [List.flatMap_cons, hwp, if_true]
        have hda : dataIdOf s p = pnode.dataId := by simp [dataIdOf, hpn]
        rw [hda]
    · rw [if_neg hrc] at h
      rcases hrec : completeOpPreds
          (updRt s p (some { pri with referenceCount := pri.referenceCount - 1 })) rest
        with _ | ⟨s1x, Ax⟩ <;> rw [hrec] at h
      · exact Option.noConfusion h
      set s2 : SchedState :=
        updRt s p (some { pri with referenceCount := pri.referenceCount - 1 }) with hs2
      simp only [Option.map_some', Option.some.injEq, Prod.mk.injEq] at h
      obtain ⟨hs1, hA⟩ := h
      obtain ⟨r1, r2, r3, r4, r5, r6, r7, r8, r9, r10, r11⟩ := ih s2 s1x Ax hNrest hrec
      have hwp : willReclaim s p = false := by
        rw [← Bool.not_eq_true]
        intro hw
        rw [willReclaim_eq_true s p pri pnode hpr hpn] at hw
        exact hrc ⟨by omega, hw.2⟩
      have hrt2 : ∀ j, j ≠ p → s2.rt j = s.rt j := by
        intro j hj
        simp [hs2, updRt, setFn, hj]
      have hnodes2 : s2.nodes = s.nodes := by
        simp [hs2, updRt]
      have hwrest : ∀ x ∈ rest, willReclaim s2 x = willReclaim s x := by
        intro x hx
        have hxp : x ≠ p := fun e => hprest (e ▸ hx)
        rw [willReclaim, willReclaim, hrt2 x hxp, hnodes2]
      have hfilter : rest.filter (willReclaim s2) = rest.filter (willReclaim s) :=
        List.filter_congr hwrest
      subst hs1
      refine ⟨?_, ?_, ?_, ?_, ?_, ?_, ?_, ?_, ?_, ?_, ?_⟩
      · intro x hx
        rcases List.mem_cons.mp hx with hxp | hxr
        · subst hxp
          exact ⟨pri, pnode, hpr, hpn, by simpa using hop, htr⟩
        · obtain ⟨xri, xn, hxri, hxn, hxop, hxtr⟩ := r1 x hxr
          have hxp : x ≠ p := fun e => hprest (e ▸ hxr)
          rw [hrt2 x hxp] at hxri
          rw [hnodes2] at hxn
          exact ⟨xri, xn, hxri, hxn, hxop, hxtr⟩
      · intro j
        rw [r2 j, hfilter, hnodes2]
        simp [List.filter_cons, hwp]
      · intro j
        rw [r3 j, hfilter]
        have hfc : (p :: rest).filter (willReclaim s) = rest.filter (willReclaim s) := by
          simp [List.filter_cons, hwp]
        rw [hfc]
        by_cases hjp : j = p
        · subst hjp
          have h1 : j ∉ rest.filter (willReclaim s) :=
            fun hm => hprest (List.mem_of_mem_filter hm)
          simp [h1, hprest, hs2, updRt, setFn, hpr]
        · have h2 : (j ∈ p :: rest) ↔ j ∈ rest := by simp [List.mem_cons, hjp]
          simp [h2, hrt2 j hjp]
      · rw [r4]; simp [hs2, updRt]
      · rw [r5]; simp [hs2, updRt]
      · rw [r6]; simp [hs2, updRt]
      · rw [r7]; simp [hs2, updRt]
      · rw [r8]; simp [hs2, updRt]
      · rw [r9]; simp [hs2, updRt]
      · rw [r10]; simp [hs2, updRt]
      · rw [← hA, r11, flatMap_congr_mem rest _ _ (fun x hx => by
          have hd : dataIdOf s2 x = dataIdOf s x := by
            rw [dataIdOf, dataIdOf, hnodes2]
          rw [hwrest x hx, hd])]
        simp [List.flatMap_cons, hwp]

/-! ## C6 — when `kToRun` events are enqueued -/

/-- Checks that every `enqueue` action in a trace is immediately preceded by
an `incYet` (the `num_nodes_yet_to_finish_` increment). -/
def incBeforeEnqueueOK : List Act → Bool
  | [] => true
  | Act.enqueue _ _ :: _ => false
  | Act.incYet :: Act.enqueue _ _ :: rest2 => incBeforeEnqueueOK rest2
  | Act.incYet :: rest => incBeforeEnqueueOK rest
  | _ :: rest => incBeforeEnqueueOK rest

theorem incBeforeEnqueueOK_cons_trigDec (q : Nat) (rest : List Act) :
    incBeforeEnqueueOK (Act.trigDec q :: rest) = incBeforeEnqueueOK rest := by
  cases rest <;> rfl

theorem incBeforeEnqueueOK_inc_enqueue (t : TaskType) (q : Nat) (rest : List Act) :
    incBeforeEnqueueOK (Act.incYet :: Act.enqueue t q :: rest) =
      incBeforeEnqueueOK rest := rfl

theorem incBeforeEnqueueOK_triggerTrace (s : SchedState) (l : List Nat) :
    incBeforeEnqueueOK (l.flatMap (fun q => if willEnqueue s q then
        [Act.trigDec q, Act.incYet, Act.enqueue TaskType.kToRun q]
      else [Act.trigDec q])) = true := by
  induction l with
  | nil => rfl
  | cons q rest ih =>
    by_cases hw : willEnqueue s q <;>
      simp only [List.flatMap_cons, hw, if_true, if_false, Bool.false_eq_true,
        List.cons_append, List.nil_append, incBeforeEnqueueOK_cons_trigDec,
        incBeforeEnqueueOK_inc_enqueue, ih]

theorem enqueue_mem_triggerTrace (s : SchedState) (l : List Nat) (q : Nat) :
    Act.enqueue TaskType.kToRun q ∈ (l.flatMap (fun x => if willEnqueue s x then
        [Act.trigDec x, Act.incYet, Act.enqueue TaskType.kToRun x]
      else [Act.trigDec x])) ↔ q ∈ l ∧ willEnqueue s q = true := by
  rw [List.mem_flatMap]
  constructor
  · rintro ⟨x, hx, hmem⟩
    by_cases hw : willEnqueue s x
    · rw [if_pos hw] at hmem
      simp only [List.mem_cons, List.not_mem_nil, or_false] at hmem
      rcases hmem with h | h | h <;> first
        | exact Act.noConfusion h
        | (injection h with h1 h2; exact h2 ▸ ⟨hx, hw⟩)
    · rw [if_neg hw] at hmem
      simp only [List.mem_cons, List.not_mem_nil, or_false] at hmem
      exact Act.noConfusion hmem
  · rintro ⟨hq, hw⟩
    exact ⟨q, hq, by simp [hw]⟩

/-- C6: a `kToRun` event is enqueued exactly when the node is `Ready` with
trigger count `0` — in `ProcessIfReady` (lines 142-150, where the count is
checked directly) and in the successor loop of the dispatcher (lines 217-227,
where the event fires exactly when the decrement takes the count from `1` to
`0` on a `Ready` successor) — and at both sites `num_nodes_yet_to_finish_` is
incremented by one per enqueued event, with the increment immediately
preceding the enqueue in the trace. -/
theorem toRun_enqueue_discipline :
    (∀ (s : SchedState) (opId : Nat) (ri : RuntimeInfo),
      s.rt opId = some ri → ri.state = NodeState.kReady →
      processIfReady s opId = some (
        if ri.numTriggersNeeded = 0 then
          ({ s with numYet := s.numYet + 1,
                    queue := s.queue ++ [(TaskType.kToRun, opId)] },
            [Act.incYet, Act.enqueue TaskType.kToRun opId])
        else (s, []))) ∧
    (∀ (s s1 : SchedState) (l : List Nat) (A : List Act), l.Nodup →
      triggerSuccessors s l = some (s1, A) →
      (∀ q qri, q ∈ l → s.rt q = some qri →
        ((Act.enqueue TaskType.kToRun q ∈ A) ↔
          (qri.state = NodeState.kReady ∧ qri.numTriggersNeeded = 1))) ∧
      s1.queue = s.queue ++ (l.filter (willEnqueue s)).map (fun q => (TaskType.kToRun, q)) ∧
      s1.numYet = s.numYet + ((l.filter (willEnqueue s)).length : Int) ∧
      incBeforeEnqueueOK A = true) := by
  constructor
  · intro s opId ri hr hready
    by_cases ht : ri.numTriggersNeeded = 0 <;>
      simp [processIfReady, hr, hready, ht]
  · intro s s1 l A hN h
    obtain ⟨r1, r2, r3, r4, r5, r6, r7, r8, r9, r10, r11⟩ :=
      triggerSuccessors_char l s s1 A hN h
    refine ⟨?_, r9, r10, ?_⟩
    · intro q qri hq hqr
      rw [r11, enqueue_mem_triggerTrace, willEnqueue_eq_true s q qri hqr]
      constructor
      · rintro ⟨_, h2⟩; exact h2
      · intro h2; exact ⟨hq, h2⟩
    · rw [r11]
      exact incBeforeEnqueueOK_triggerTrace s l

/-- A state used as a witness input: `Ready` op `4` with trigger count `0`;
successors `7` (`Ready`, trigger count `1`) and `8` (`Ready`, trigger count
`2`). -/
def exTrig : SchedState :=
  updRt (updRt (updRt initState 4 (some ⟨NodeState.kReady, 0, 0⟩))
    7 (some ⟨NodeState.kReady, 0, 1⟩)) 8 (some ⟨NodeState.kReady, 0, 2⟩)

/-- Witness for C6 at concrete inputs: `processIfReady` on the trigger-free
`Ready` op `4` increments then enqueues; the successor loop on `[7, 8]`
enqueues exactly for `7` (decremented `1 → 0`), with `incYet` right before the
enqueue. -/
theorem toRun_enqueue_discipline_witness :
    processIfReady exTrig 4 = some (
      { exTrig with numYet := exTrig.numYet + 1,
                    queue := exTrig.queue ++ [(TaskType.kToRun, 4)] },
      [Act.incYet, Act.enqueue TaskType.kToRun 4]) ∧
    (∀ s1 A, triggerSuccessors exTrig [7, 8] = some (s1, A) →
      (Act.enqueue TaskType.kToRun 7 ∈ A ↔
        (NodeState.kReady = NodeState.kReady ∧ (1 : Int) = 1)) ∧
      incBeforeEnqueueOK A = true) := by
  constructor
  · have := toRun_enqueue_discipline.1 exTrig 4 ⟨NodeState.kReady, 0, 0⟩ rfl rfl
    simpa using this
  · intro s1 A h
    obtain ⟨g1, _, _, g4⟩ :=
      toRun_enqueue_discipline.2 exTrig s1 [7, 8] A (by decide) h
    refine ⟨?_, g4⟩
    have := g1 7 ⟨NodeState.kReady, 0, 1⟩ (by decide) rfl
    simpa using this

/-! ## Inversion lemmas for the dispatcher branches -/

theorem finishNotify_fst_rt (s : SchedState) (n : Nat) :
    (finishNotify s n).1.rt = s.rt := by
  rw [finishNotify]
  split <;> rfl

theorem finishNotify_fst_nodes (s : SchedState) (n : Nat) :
    (finishNotify s n).1.nodes = s.nodes := by
  rw [finishNotify]
  split <;> rfl

theorem finishNotify_fst_queue (s : SchedState) (n : Nat) :
    (finishNotify s n).1.queue = s.queue := by
  rw [finishNotify]
  split <;> rfl

theorem finishNotify_fst_pushed (s : SchedState) (n : Nat) :
    (finishNotify s n).1.pushed = s.pushed := by
  rw [finishNotify]
  split <;> rfl

theorem finishNotify_fst_reported (s : SchedState) (n : Nat) :
    (finishNotify s n).1.reported = s.reported := by
  rw [finishNotify]
  split <;> rfl

theorem finishNotify_fst_numYet (s : SchedState) (n : Nat) :
    (finishNotify s n).1.numYet = s.numYet - 1 := by
  rw [finishNotify]
  split <;> rfl

theorem finishNotify_fst_target (s : SchedState) (n : Nat) :
    (finishNotify s n).1.target = s.target := by
  rw [finishNotify]
  split <;> rfl

theorem finishNotify_fst_nextId (s : SchedState) (n : Nat) :
    (finishNotify s n).1.nextId = s.nextId := by
  rw [finishNotify]
  split <;> rfl

theorem finishNotify_fst_nextDataId (s : SchedState) (n : Nat) :
    (finishNotify s n).1.nextDataId = s.nextDataId := by
  rw [finishNotify]
  split <;> rfl

/-- The ids whose `removeFromDag` action appears in a trace. -/
def removedIds (A : List Act) : List Nat :=
  A.filterMap (fun a =>
    match a with
    | Act.removeFromDag i => some i
    | _ => none)

/-- A `kToRun` event on an op node pushes a task and does nothing else
(lines 162-176). -/
theorem dispatchEvent_push (s : SchedState) (id : Nat) (node : PhysNode)
    (ri : RuntimeInfo) (hn : s.nodes id = some node) (hr : s.rt id = some ri)
    (hop : node.isOp = true) :
    dispatchEvent s TaskType.kToRun id =
      some ({ s with pushed := s.pushed ++ [id] },
        [Act.lockAcquire, Act.pushTask node.deviceId id, Act.lockRelease]) := by
  simp [dispatchEvent, hn, hr, hop]

/-- Inversion of a successful `kToComplete` on an op node: the reference-count
check passed, the predecessor loop and the successor loop ran in order on the
state whose runtime entry was set to `Completed`, the counter was decremented
and the removed nodes were destroyed after the lock release. -/
theorem dispatchEvent_complete_op_inv (s s1 : SchedState) (A : List Act)
    (id : Nat) (node : PhysNode) (ri : RuntimeInfo)
    (hn : s.nodes id = some node) (hr : s.rt id = some ri) (hop : node.isOp = true)
    (h : dispatchEvent s TaskType.kToComplete id = some (s1, A)) :
    ri.referenceCount ≠ 0 ∧
    ∃ s3 a3 s4 a4,
      completeOpPreds (updRt s id (some { ri with state := NodeState.kCompleted }))
        node.preds = some (s3, a3) ∧
      triggerSuccessors s3 node.succs = some (s4, a4) ∧
      s1 = (finishNotify s4 id).1 ∧
      A = [Act.lockAcquire, Act.setCompleted id] ++ a3 ++ a4 ++
        (finishNotify s4 id).2 ++ [Act.lockRelease] ++
        (removedIds (a3 ++ a4)).map Act.deleteNode := by
  simp only [dispatchEvent, hn, hr] at h
  rw [if_neg (by simp)] at h
  rw [if_pos hop] at h
  by_cases hrc : ri.referenceCount = 0
  · rw [if_pos hrc] at h
    simp at h
  rw [if_neg hrc] at h
  refine ⟨hrc, ?_⟩
  rcases h3 : completeOpPreds (updRt s id (some { ri with state := NodeState.kCompleted }))
      node.preds with _ | ⟨s3, a3⟩ <;> rw [h3] at h
  · simp at h
  rcases h4 : triggerSuccessors s3 node.succs with _ | ⟨s4, a4⟩ <;>
    simp only [h3, h4, Option.bind_eq_bind, Option.none_bind, Option.some_bind] at h
  · simp at h
  simp only [Option.some.injEq, Prod.mk.injEq] at h
  exact ⟨s3, a3, s4, a4, rfl, h4, h.1.symm, by rw [← h.2]; simp [removedIds]⟩

/-- Inversion of a successful completion of a data node (a `kToComplete`
event, or the degenerate `kToRun` on a data node — both take the completion
branch): the self-reclamation check ran first, then the single-predecessor
part, then the successor loop. -/
theorem dispatchEvent_complete_data_inv (s s1 : SchedState) (A : List Act)
    (tt : TaskType) (id : Nat) (node : PhysNode) (ri : RuntimeInfo)
    (hn : s.nodes id = some node) (hr : s.rt id = some ri) (hop : node.isOp = false)
    (h : dispatchEvent s tt id = some (s1, A)) :
    ∃ s3 apred s4 a4,
      completeDataPred
        (completeDataSelf (updRt s id (some { ri with state := NodeState.kCompleted }))
          id node ri).1 node = some (s3, apred) ∧
      triggerSuccessors s3 node.succs = some (s4, a4) ∧
      s1 = (finishNotify s4 id).1 ∧
      A = [Act.lockAcquire, Act.setCompleted id] ++
        ((completeDataSelf (updRt s id (some { ri with state := NodeState.kCompleted }))
          id node ri).2 ++ apred) ++ a4 ++
        (finishNotify s4 id).2 ++ [Act.lockRelease] ++
        (removedIds ((completeDataSelf
            (updRt s id (some { ri with state := NodeState.kCompleted })) id node ri).2 ++
          apred ++ a4)).map Act.deleteNode := by
  simp only [dispatchEvent, hn, hr] at h
  rw [if_neg (by simp [hop])] at h
  rw [if_neg (by simp [hop])] at h
  rcases h3 : completeDataPred
      (completeDataSelf (updRt s id (some { ri with state := NodeState.kCompleted }))
        id node ri).1 node with _ | ⟨s3, apred⟩ <;> rw [h3] at h
  · simp at h
  rcases h4 : triggerSuccessors s3 node.succs with _ | ⟨s4, a4⟩ <;>
    simp only [Option.map_some', Option.bind_eq_bind, Option.some_bind, h4] at h
  · simp at h
  simp only [Option.some.injEq, Prod.mk.injEq] at h
  refine ⟨s3, apred, s4, a4, rfl, h4, h.1.symm, ?_⟩
  rw [← h.2]
  simp [removedIds, List.append_assoc]

/-! ## Trace membership helpers -/

theorem removeFromDag_mem_predTrace (s : SchedState) (l : List Nat) (x : Nat) :
    Act.removeFromDag x ∈ (l.flatMap (fun p => if willReclaim s p then
        [Act.rcDec p, Act.freeData (dataIdOf s p), Act.removeFromDag p, Act.rtRemove p]
      else [Act.rcDec p])) ↔ x ∈ l ∧ willReclaim s x = true := by
  rw [List.mem_flatMap]
  constructor
  · rintro ⟨p, hp, hmem⟩
    by_cases hw : willReclaim s p
    · rw [if_pos hw] at hmem
      simp only [List.mem_cons, List.not_mem_nil, or_false] at hmem
      rcases hmem with h | h | h | h <;> first
        | exact Act.noConfusion h
        | (injection h with h1; exact h1 ▸ ⟨hp, hw⟩)
    · rw [if_neg hw] at hmem
      simp only [List.mem_cons, List.not_mem_nil, or_false] at hmem
      exact Act.noConfusion hmem
  · rintro ⟨hx, hw⟩
    exact ⟨x, hx, by simp [hw]⟩

theorem freeData_mem_predTrace (s : SchedState) (l : List Nat) (x : Nat)
    (hx : x ∈ l) (hw : willReclaim s x = true) :
    Act.freeData (dataIdOf s x) ∈ (l.flatMap (fun p => if willReclaim s p then
        [Act.rcDec p, Act.freeData (dataIdOf s p), Act.removeFromDag p, Act.rtRemove p]
      else [Act.rcDec p])) := by
  rw [List.mem_flatMap]
  exact ⟨x, hx, by simp [hw]⟩

theorem removeFromDag_not_mem_triggerTrace (s : SchedState) (l : List Nat) (x : Nat) :
    Act.removeFromDag x ∉ (l.flatMap (fun q => if willEnqueue s q then
        [Act.trigDec q, Act.incYet, Act.enqueue TaskType.kToRun q]
      else [Act.trigDec q])) := by
  rw [List.mem_flatMap]
  rintro ⟨q, _, hmem⟩
  by_cases hw : willEnqueue s q <;>
    simp only [hw, if_true, if_false, Bool.false_eq_true, List.mem_cons,
      List.not_mem_nil, or_false] at hmem <;>
    rcases hmem with h | h | h <;> exact Act.noConfusion h

theorem finishNotify_snd_shape (s : SchedState) (n : Nat) :
    ∀ a ∈ (finishNotify s n).2, a = Act.decYet ∨ a = Act.notifyAll := by
  rw [finishNotify]
  split <;> intro a ha <;> simp only [List.mem_cons, List.not_mem_nil, or_false] at ha
  · rcases ha with h | h
    · exact Or.inl h
    · exact Or.inr h
  · exact Or.inl ha

/-! ## C4 — op-node completion effects on predecessors -/

/-- C4: a `kToComplete` on an op node sets its state to `Completed`, requires
a nonzero reference count, and for every predecessor data node `p` the
dispatcher asserts `p`'s trigger count is `0` and that `p` is a data node,
decrements `p`'s reference count, and frees `p`'s storage and removes `p`
from the DAG exactly when the decrement reaches `0` and `p`'s `extern_rc`
is `0` (lines 177-196).  Stated for nodes whose neighbour sets satisfy the
DAG well-formedness facts (no self edges, bipartite predecessor/successor
disjointness, duplicate-free sets) that hold for every node the scheduler
builds. -/
theorem opComplete_pred_effects
    (s s1 : SchedState) (A : List Act) (id : Nat) (node : PhysNode) (ri : RuntimeInfo)
    (hn : s.nodes id = some node) (hr : s.rt id = some ri) (hop : node.isOp = true)
    (hpN : node.preds.Nodup) (hsN : node.succs.Nodup)
    (hself : id ∉ node.preds) (hselfs : id ∉ node.succs)
    (hdisj : ∀ q ∈ node.succs, q ∉ node.preds)
    (h : dispatchEvent s TaskType.kToComplete id = some (s1, A)) :
    stateOf s1 id = some NodeState.kCompleted ∧
    ri.referenceCount ≠ 0 ∧
    (∀ p ∈ node.preds, ∃ pri pnode, s.rt p = some pri ∧ s.nodes p = some pnode ∧
      pnode.isOp = false ∧ pri.numTriggersNeeded = 0 ∧
      (s1.nodes p = none ↔ (pri.referenceCount = 1 ∧ pnode.externRc = 0)) ∧
      (Act.removeFromDag p ∈ A ↔ (pri.referenceCount = 1 ∧ pnode.externRc = 0)) ∧
      ((pri.referenceCount = 1 ∧ pnode.externRc = 0) → Act.freeData pnode.dataId ∈ A) ∧
      (¬ (pri.referenceCount = 1 ∧ pnode.externRc = 0) →
        s1.rt p = some { pri with referenceCount := pri.referenceCount - 1 })) := by
  obtain ⟨hrc, s3, a3, s4, a4, hpred, htrig, hs1, hA⟩ :=
    dispatchEvent_complete_op_inv s s1 A id node ri hn hr hop h
  set sC : SchedState := updRt s id (some { ri with state := NodeState.kCompleted }) with hsC
  obtain ⟨c1, c2, c3, c4, c5, c6, c7, c8, c9, c10, c11⟩ :=
    completeOpPreds_char node.preds sC s3 a3 hpN hpred
  obtain ⟨t1, t2, t3, t4, t5, t6, t7, t8, t9, t10, t11⟩ :=
    triggerSuccessors_char node.succs s3 s4 a4 hsN htrig
  have hCrt : ∀ p, p ≠ id → sC.rt p = s.rt p := fun p hp =>
    updRt_rt_other s id p _ hp
  have hCnodes : sC.nodes = s.nodes := rfl
  have hwrC : ∀ p, p ≠ id → willReclaim sC p = willReclaim s p := by
    intro p hp
    rw [willReclaim, willReclaim, hCrt p hp, hCnodes]
  -- the completed node itself
  have hselfstate : stateOf s1 id = some NodeState.kCompleted := by
    have h4 : s4.rt id = s3.rt id := t2 id hselfs
    have h3 : s3.rt id = sC.rt id := by
      have hidF : id ∉ node.preds.filter (willReclaim sC) :=
        fun hm => hself (List.mem_of_mem_filter hm)
      rw [c3 id, if_neg hidF, if_neg hself]
    rw [stateOf, hs1, finishNotify_fst_rt, h4, h3, hsC, updRt_rt_same]
    rfl
  refine ⟨hselfstate, hrc, ?_⟩
  intro p hp
  have hpid : p ≠ id := fun e => hself (e ▸ hp)
  obtain ⟨pri, pnode, hpri, hpnode, hpop, hptr⟩ := c1 p hp
  rw [hCrt p hpid] at hpri
  rw [hCnodes] at hpnode
  have hwr : willReclaim sC p = willReclaim s p := hwrC p hpid
  have hwrs : willReclaim s p = true ↔ (pri.referenceCount = 1 ∧ pnode.externRc = 0) :=
    willReclaim_eq_true s p pri pnode hpri hpnode
  have hpsucc : p ∉ node.succs := fun hm => (hdisj p hm) hp
  have hs4nodes : s4.nodes p = s3.nodes p := by rw [t3]
  have hs4rt : s4.rt p = s3.rt p := t2 p hpsucc
  have hs1nodes : s1.nodes p = s3.nodes p := by
    rw [hs1, finishNotify_fst_nodes, hs4nodes]
  have hs1rt : s1.rt p = s3.rt p := by
    rw [hs1, finishNotify_fst_rt, hs4rt]
  refine ⟨pri, pnode, hpri, hpnode, hpop, hptr, ?_, ?_, ?_, ?_⟩
  · -- removal of the node record iff reclaim condition
    rw [hs1nodes, c2 p]
    by_cases hw : willReclaim s p
    · have hpf : p ∈ node.preds.filter (willReclaim sC) :=
        List.mem_filter.mpr ⟨hp, by rw [hwr]; exact hw⟩
      simp only [hpf, if_true, true_iff]
      exact hwrs.mp hw
    · have hpf : p ∉ node.preds.filter (willReclaim sC) := by
        intro hm
        exact hw (hwr ▸ (List.mem_filter.mp hm).2)
      simp only [hpf, if_false, hCnodes, hpnode, Option.map_some']
      constructor
      · intro hx; exact Option.noConfusion hx
      · intro hx; exact absurd (hwrs.mpr hx) hw
  · -- removeFromDag act in the trace iff reclaim condition
    rw [hA, ← hwrs, ← hwr]
    constructor
    · intro hm
      simp only [List.mem_append] at hm
      rcases hm with ((((h1 | h1) | h1) | h1) | h1) | h1
      · simp at h1
      · rw [c11] at h1
        exact ((removeFromDag_mem_predTrace sC node.preds p).mp h1).2
      · rw [t11] at h1
        exact absurd h1 (removeFromDag_not_mem_triggerTrace s3 node.succs p)
      · rcases finishNotify_snd_shape s4 id _ h1 with h2 | h2 <;> exact Act.noConfusion h2
      · simp at h1
      · obtain ⟨i, _, h2⟩ := List.mem_map.mp h1
        exact Act.noConfusion h2
    · intro hw
      have : Act.removeFromDag p ∈ a3 := by
        rw [c11]
        exact (removeFromDag_mem_predTrace sC node.preds p).mpr ⟨hp, hw⟩
      simp [this]
  · -- storage freed when reclaimed
    intro hcond
    have hw : willReclaim sC p = true := by rw [hwr]; exact hwrs.mpr hcond
    have hda : dataIdOf sC p = pnode.dataId := by
      rw [dataIdOf, hCnodes, hpnode]
    have : Act.freeData pnode.dataId ∈ a3 := by
      rw [c11, ← hda]
      exact freeData_mem_predTrace sC node.preds p hp hw
    rw [hA]
    simp [this]
  · -- otherwise: reference count decremented, node kept
    intro hcond
    have hw : willReclaim sC p = false := by
      rw [hwr, ← Bool.not_eq_true]
      intro hx
      exact hcond (hwrs.mp hx)
    have hpf : p ∉ node.preds.filter (willReclaim sC) := by
      intro hm
      rw [(List.mem_filter.mp hm).2] at hw
      exact Bool.noConfusion hw
    rw [hs1rt, c3 p, if_neg hpf, if_pos hp, hCrt p hpid, hpri]
    rfl

/-- A concrete scenario for the op-completion theorem: op `1` (pushed and
reported) completes; its input data node `0` is `Completed` with reference
count `1` and no external handle, its output data node `2` is `Ready` with
one missing trigger. -/
def exC4 : SchedState :=
  { nodes := fun j =>
      if j = 0 then some ⟨false, [], [1], [2], 0, 5, 0⟩
      else if j = 1 then some ⟨true, [0], [2], [], 0, 0, 0⟩
      else if j = 2 then some ⟨false, [1], [], [3], 0, 6, 0⟩
      else none,
    rt := fun j =>
      if j = 0 then some ⟨NodeState.kCompleted, 1, 0⟩
      else if j = 1 then some ⟨NodeState.kReady, 1, 0⟩
      else if j = 2 then some ⟨NodeState.kReady, 0, 1⟩
      else none,
    queue := [], pushed := [1], reported := [1], numYet := 1, target := -1,
    nextId := 3, nextDataId := 7 }

def exC4run : SchedState × List Act :=
  (dispatchEvent exC4 TaskType.kToComplete 1).getD (initState, [])

/-- Witness for C4: completing op `1` on `exC4` marks it `Completed`, reclaims
its input `0` (decrement `1 → 0` with `extern_rc = 0`), freeing data id `5`. -/
theorem opComplete_pred_effects_witness :
    stateOf exC4run.1 1 = some NodeState.kCompleted ∧
    exC4run.1.nodes 0 = none ∧ Act.freeData 5 ∈ exC4run.2 := by
  obtain ⟨h1, _, h3⟩ := opComplete_pred_effects exC4 exC4run.1 exC4run.2 1
    ⟨true, [0], [2], [], 0, 0, 0⟩ ⟨NodeState.kReady, 1, 0⟩ rfl rfl rfl
    (by decide) (by decide) (by decide) (by decide) (by decide) rfl
  obtain ⟨pri, pnode, hp1, hp2, _, _, hrem, _, hfree, _⟩ := h3 0 (by decide)
  have e1 : pri = ⟨NodeState.kCompleted, 1, 0⟩ := (Option.some.inj hp1).symm
  have e2 : pnode = ⟨false, [], [1], [2], 0, 5, 0⟩ := (Option.some.inj hp2).symm
  refine ⟨h1, hrem.mpr ⟨?_, ?_⟩, ?_⟩
  · rw [e1]
  · rw [e2]
  · have := hfree ⟨by rw [e1], by rw [e2]⟩
    rw [e2] at this
    exact this

/-! ## C5 — data-node completion effects -/

theorem freeData_not_mem_triggerTrace (s : SchedState) (l : List Nat) (d : Nat) :
    Act.freeData d ∉ (l.flatMap (fun q => if willEnqueue s q then
        [Act.trigDec q, Act.incYet, Act.enqueue TaskType.kToRun q]
      else [Act.trigDec q])) := by
  rw [List.mem_flatMap]
  rintro ⟨q, _, hmem⟩
  by_cases hw : willEnqueue s q <;>
    simp only [hw, if_true, if_false, Bool.false_eq_true, List.mem_cons,
      List.not_mem_nil, or_false] at hmem <;>
    rcases hmem with h | h | h <;> exact Act.noConfusion h

/-- C5: when the dispatcher processes a completion for a data node
(lines 197-215), it aborts unless the node has exactly one predecessor; the
data node itself is reclaimed — before its predecessor is touched, as the
trace shows — exactly when its own reference count and `extern_rc` are `0`;
then the single predecessor op's reference count is decremented, the op being
removed exactly when the decrement reaches `0`, with no `extern_rc` condition
and no storage free for the op. -/
theorem dataComplete_effects :
    (∀ (s : SchedState) (tt : TaskType) (id : Nat) (node : PhysNode) (ri : RuntimeInfo),
      s.nodes id = some node → s.rt id = some ri → node.isOp = false →
      node.preds.length ≠ 1 → dispatchEvent s tt id = none) ∧
    (∀ (s s1 : SchedState) (A : List Act) (tt : TaskType) (id p : Nat)
      (node pnode : PhysNode) (ri : RuntimeInfo),
      s.nodes id = some node → s.rt id = some ri → node.isOp = false →
      node.preds = [p] → s.nodes p = some pnode → p ≠ id → p ∉ node.succs →
      id ∉ node.succs → node.succs.Nodup →
      dispatchEvent s tt id = some (s1, A) →
      ∃ pri, s.rt p = some pri ∧ pri.numTriggersNeeded = 0 ∧
        (∃ tail, A = Act.lockAcquire :: Act.setCompleted id ::
          ((if ri.referenceCount = 0 ∧ node.externRc = 0
            then [Act.freeData node.dataId, Act.removeFromDag id, Act.rtRemove id]
            else []) ++ Act.rcDec p :: tail)) ∧
        (s1.nodes id = none ↔ (ri.referenceCount = 0 ∧ node.externRc = 0)) ∧
        (s1.nodes p = none ↔ pri.referenceCount = 1) ∧
        (pri.referenceCount ≠ 1 →
          s1.rt p = some { pri with referenceCount := pri.referenceCount - 1 }) ∧
        (¬ (ri.referenceCount = 0 ∧ node.externRc = 0) → ∀ d, Act.freeData d ∉ A)) := by
  constructor
  · intro s tt id node ri hn hr hop hlen
    simp only [dispatchEvent, hn, hr]
    rw [if_neg (by simp [hop])]
    rw [if_neg (by simp [hop])]
    have hcdp : ∀ sd, completeDataPred sd node = none := by
      intro sd
      rw [completeDataPred]
      rcases hps : node.preds with _ | ⟨a, t⟩
      · rfl
      rcases t with _ | ⟨b, t2⟩
      · rw [hps] at hlen
        simp at hlen
      · rfl
    rw [hcdp]
    rfl
  · intro s s1 A tt id p node pnode ri hn hr hop hp hpn hpid hpsucc hidsucc hsN h
    obtain ⟨s3, apred, s4, a4, hpred, htrig, hs1, hA⟩ :=
      dispatchEvent_complete_data_inv s s1 A tt id node ri hn hr hop h
    set sC : SchedState := updRt s id (some { ri with state := NodeState.kCompleted })
      with hsC
    obtain ⟨t1, t2, t3, t4, t5, t6, t7, t8, t9, t10, t11⟩ :=
      triggerSuccessors_char node.succs s3 s4 a4 hsN htrig
    have hsdp : (completeDataSelf sC id node ri).1.rt p = s.rt p := by
      rw [completeDataSelf]
      split
      · rw [onDeleteNode_rt_other _ _ _ hpid, removeNodeFromDag_rt, hsC,
          updRt_rt_other s id p _ hpid]
      · rw [hsC, updRt_rt_other s id p _ hpid]
    have hsdnp : (completeDataSelf sC id node ri).1.nodes p =
        (if ri.referenceCount = 0 ∧ node.externRc = 0
         then (s.nodes p).map (detachOne id) else s.nodes p) := by
      rw [completeDataSelf]
      split
      · simp only [if_pos (by assumption)]
        rw [onDeleteNode_nodes, removeNodeFromDag_nodes_other _ _ _ hpid]
        rfl
      · simp only [if_neg (by assumption)]
        rfl
    have hsdni : (completeDataSelf sC id node ri).1.nodes id =
        (if ri.referenceCount = 0 ∧ node.externRc = 0 then none else some node) := by
      rw [completeDataSelf]
      split
      · simp only [if_pos (by assumption)]
        rw [onDeleteNode_nodes, removeNodeFromDag_nodes_same]
      · simp only [if_neg (by assumption)]
        exact hn
    have hsda : (completeDataSelf sC id node ri).2 =
        (if ri.referenceCount = 0 ∧ node.externRc = 0
         then [Act.freeData node.dataId, Act.removeFromDag id, Act.rtRemove id]
         else []) := by
      rw [completeDataSelf]
      split
      · simp only [if_pos (by assumption)]
      · simp only [if_neg (by assumption)]
    simp only [completeDataPred, hp] at hpred
    rcases hpri : (completeDataSelf sC id node ri).1.rt p with _ | pri
    · rw [hpri] at hpred
      exact Option.noConfusion hpred
    simp only [hpri] at hpred
    rw [hsdp] at hpri
    by_cases htr : pri.numTriggersNeeded ≠ 0
    · rw [if_pos htr] at hpred
      exact Option.noConfusion hpred
    rw [if_neg htr] at hpred
    push_neg at htr
    refine ⟨pri, hpri, htr, ?_, ?_, ?_, ?_, ?_⟩
    · -- trace shape: self reclamation before the predecessor decrement
      by_cases hrc1 : pri.referenceCount - 1 = 0
      · rw [if_pos hrc1] at hpred
        simp only [Option.some.injEq, Prod.mk.injEq] at hpred
        refine ⟨[Act.removeFromDag p, Act.rtRemove p] ++ a4 ++
          (finishNotify s4 id).2 ++ [Act.lockRelease] ++
          (removedIds ((completeDataSelf sC id node ri).2 ++ apred ++ a4)).map
            Act.deleteNode, ?_⟩
        rw [hA, ← hpred.2, hsda]
        split <;> simp
      · rw [if_neg hrc1] at hpred
        simp only [Option.some.injEq, Prod.mk.injEq] at hpred
        refine ⟨a4 ++ (finishNotify s4 id).2 ++ [Act.lockRelease] ++
          (removedIds ((completeDataSelf sC id node ri).2 ++ apred ++ a4)).map
            Act.deleteNode, ?_⟩
        rw [hA, ← hpred.2, hsda]
        split <;> simp
    · -- the data node itself is reclaimed iff unreferenced
      have hs1n : s1.nodes id = s3.nodes id := by
        rw [hs1, finishNotify_fst_nodes, t3]
      rw [hs1n]
      have hs3n : s3.nodes id =
          (if ri.referenceCount = 0 ∧ node.externRc = 0 then none
           else (if pri.referenceCount - 1 = 0 then (some node).map (detachOne p)
                 else some node)) := by
        by_cases hrc1 : pri.referenceCount - 1 = 0
        · rw [if_pos hrc1] at hpred
          simp only [Option.some.injEq, Prod.mk.injEq] at hpred
          rw [← hpred.1, onDeleteNode_nodes,
            removeNodeFromDag_nodes_other _ _ _ (Ne.symm hpid), updRt_nodes, hsdni]
          split
          · simp [hrc1]
          · simp [hrc1]
        · rw [if_neg hrc1] at hpred
          simp only [Option.some.injEq, Prod.mk.injEq] at hpred
          rw [← hpred.1, updRt_nodes, hsdni]
          split
          · simp [hrc1]
          · simp [hrc1]
      rw [hs3n]
      split
      · simp only [true_iff]
        assumption
      · constructor
        · intro hx
          split at hx <;> exact Option.noConfusion hx
        · intro hx
          exact absurd hx (by assumption)
    · -- the predecessor op is removed iff its decrement reaches zero
      have hs1n : s1.nodes p = s3.nodes p := by
        rw [hs1, finishNotify_fst_nodes, t3]
      rw [hs1n]
      by_cases hrc1 : pri.referenceCount - 1 = 0
      · rw [if_pos hrc1] at hpred
        simp only [Option.some.injEq, Prod.mk.injEq] at hpred
        rw [← hpred.1, onDeleteNode_nodes, removeNodeFromDag_nodes_same]
        simp only [true_iff]
        omega
      · rw [if_neg hrc1] at hpred
        simp only [Option.some.injEq, Prod.mk.injEq] at hpred
        rw [← hpred.1, updRt_nodes, hsdnp]
        have : pri.referenceCount ≠ 1 := by omega
        split <;> simp [hpn, this]
    · -- otherwise the reference count is decremented in place
      intro hne
      have hrc1 : ¬ pri.referenceCount - 1 = 0 := by omega
      rw [if_neg hrc1] at hpred
      simp only [Option.some.injEq, Prod.mk.injEq] at hpred
      have hs1r : s1.rt p = s3.rt p := by
        rw [hs1, finishNotify_fst_rt, t2 p hpsucc]
      rw [hs1r, ← hpred.1, updRt_rt_same]
    · -- no storage free at all when the data node is not reclaimed
      intro hne d
      rw [hA, hsda, if_neg hne]
      intro hmem
      simp only [List.nil_append, List.mem_append] at hmem
      have hapred : ∀ a ∈ apred, a = Act.rcDec p ∨ a = Act.removeFromDag p ∨
          a = Act.rtRemove p := by
        intro a ha
        by_cases hrc1 : pri.referenceCount - 1 = 0
        · rw [if_pos hrc1] at hpred
          simp only [Option.some.injEq, Prod.mk.injEq] at hpred
          rw [← hpred.2] at ha
          simp only [List.mem_cons, List.not_mem_nil, or_false] at ha
          tauto
        · rw [if_neg hrc1] at hpred
          simp only [Option.some.injEq, Prod.mk.injEq] at hpred
          rw [← hpred.2] at ha
          simp only [List.mem_cons, List.not_mem_nil, or_false] at ha
          tauto
      rcases hmem with ((((h1 | h1) | h1) | h1) | h1) | h1
      · simp at h1
      · rcases hapred _ h1 with h2 | h2 | h2 <;> exact Act.noConfusion h2
      · rw [t11] at h1
        exact freeData_not_mem_triggerTrace s3 node.succs d h1
      · rcases finishNotify_snd_shape s4 id _ h1 with h2 | h2 <;> exact Act.noConfusion h2
      · simp at h1
      · obtain ⟨i, _, h2⟩ := List.mem_map.mp h1
        exact Act.noConfusion h2

/-- A concrete scenario for the data-completion theorem: data node `2`
(`Ready`, unreferenced, no external handle) completes; its producer op `1` is
`Completed` with reference count `1`.  Node `9` is a malformed data node with
two predecessors used to exercise the single-predecessor assertion. -/
def exC5 : SchedState :=
  { nodes := fun j =>
      if j = 1 then some ⟨true, [], [2], [], 0, 0, 0⟩
      else if j = 2 then some ⟨false, [1], [], [4], 0, 8, 0⟩
      else if j = 9 then some ⟨false, [1, 2], [], [4], 0, 9, 0⟩
      else none,
    rt := fun j =>
      if j = 1 then some ⟨NodeState.kCompleted, 1, 0⟩
      else if j = 2 then some ⟨NodeState.kReady, 0, 0⟩
      else if j = 9 then some ⟨NodeState.kReady, 0, 0⟩
      else none,
    queue := [(TaskType.kToRun, 2)], pushed := [1], reported := [1],
    numYet := 1, target := -1, nextId := 10, nextDataId := 10 }

def exC5run : SchedState × List Act :=
  (dispatchEvent exC5 TaskType.kToRun 2).getD (initState, [])

/-- Witness for C5: completing data node `2` on `exC5` reclaims it and removes
its producer op `1` (decrement `1 → 0`); and processing a completion for the
two-predecessor data node `9` is fatal. -/
theorem dataComplete_effects_witness :
    exC5run.1.nodes 2 = none ∧ exC5run.1.nodes 1 = none ∧
    dispatchEvent exC5 TaskType.kToComplete 9 = none := by
  obtain ⟨pri, hpri, htr, _, hselfiff, hprediff, _, _⟩ :=
    dataComplete_effects.2 exC5 exC5run.1 exC5run.2 TaskType.kToRun 2 1
    ⟨false, [1], [], [4], 0, 8, 0⟩ ⟨true, [], [2], [], 0, 0, 0⟩
    ⟨NodeState.kReady, 0, 0⟩ rfl rfl rfl rfl rfl
    (by decide) (by decide) (by decide) (by decide) rfl
  have e1 : pri = ⟨NodeState.kCompleted, 1, 0⟩ := (Option.some.inj hpri).symm
  refine ⟨hselfiff.mpr ⟨rfl, rfl⟩, hprediff.mpr (by rw [e1]), ?_⟩
  exact dataComplete_effects.1 exC5 TaskType.kToComplete 9
    ⟨false, [1, 2], [], [4], 0, 9, 0⟩ ⟨NodeState.kReady, 0, 0⟩ rfl rfl rfl (by decide)

/-! ## C3 — replayed completion events -/

theorem updRt_updRt (s : SchedState) (id : Nat) (v w : Option RuntimeInfo) :
    updRt (updRt s id v) id w = updRt s id w := by
  rw [updRt, updRt, updRt]
  congr 1
  funext j
  simp only [setFn]
  split <;> rfl

/-- Amended C3: the completion branch of the dispatcher (lines 177-234) never
reads the node's stored state — it only overwrites it — so a `kToComplete`
event for a node whose state was already `Completed` is processed exactly as
if the node were still `Ready`: nothing detects the replay.  Formally,
overwriting the stored state with any value (in particular `kCompleted`,
modelling a replay) leaves the result of processing the event unchanged. -/
theorem completion_ignores_prior_state (s : SchedState) (id : Nat)
    (ri : RuntimeInfo) (w : NodeState) (hr : s.rt id = some ri) :
    dispatchEvent (updRt s id (some { ri with state := w })) TaskType.kToComplete id =
      dispatchEvent s TaskType.kToComplete id := by
  rcases hn : s.nodes id with _ | node
  · simp only [dispatchEvent, updRt_nodes, hn]
  · simp only [dispatchEvent, updRt_nodes, hn, updRt_rt_same, hr]
    rw [updRt_updRt]
    rfl

/-- The state reached by: `Create` of a zero-input op with one result, the
dispatch of its `kToRun`, the device completion report, and the dispatch of
its `kToComplete`.  Op node `1` is `Completed` and still in the DAG (its
output data node `0` has not completed yet). -/
def exB2 : SchedState × List Act :=
  (dispatcherStep exCreate1.1).getD (initState, [])

def exB3 : SchedState :=
  reportComplete exB2.1 1

def exB4 : SchedState × List Act :=
  (dispatcherStep exB3).getD (initState, [])

/-- C3 fails on the code: on the reachable state `exB4.1` the op node `1` is
already `Completed` and still in the DAG, yet processing another `kToComplete`
event for it succeeds (no `LOG(FATAL)`/`CHECK` fires): the replay is silently
applied, not detected. -/
theorem replay_completion_not_detected_cex :
    Reach exB4.1 ∧
    stateOf exB4.1 1 = some NodeState.kCompleted ∧
    exB4.1.nodes 1 ≠ none ∧
    (dispatchEvent exB4.1 TaskType.kToComplete 1).isSome = true := by
  refine ⟨?_, rfl, by decide, rfl⟩
  have h1 : Reach exCreate1.1 :=
    @Reach.create initState exCreate1.1 exCreate1.2 7 [] [[2]]
      Reach.init (by simp) rfl
  have h2 : Reach exB2.1 := Reach.dispatch h1 rfl
  have h3 : Reach exB3 := Reach.report h2 (by decide) (by decide)
  exact Reach.dispatch h3 rfl

/-- Witness for the amended C3: on the concrete state `exC4`, overwriting op
`1`'s state with `Completed` (a replayed completion) leaves the processing of
its `kToComplete` event unchanged. -/
theorem completion_ignores_prior_state_witness :
    dispatchEvent (updRt exC4 1 (some ⟨NodeState.kCompleted, 1, 0⟩))
        TaskType.kToComplete 1 =
      dispatchEvent exC4 TaskType.kToComplete 1 :=
  completion_ignores_prior_state exC4 1 ⟨NodeState.kReady, 1, 0⟩
    NodeState.kCompleted rfl

/-! ## C10 — completing an op with zero reference count is fatal -/

theorem onCreateInEdges_rc_state (params : List Nat) :
    ∀ (s s1 : SchedState) (opId : Nat) (A : List Act),
    opId ∉ params →
    onCreateInEdges s params opId = some (s1, A) →
    (s1.rt opId).map (fun r => (r.state, r.referenceCount)) =
      (s.rt opId).map (fun r => (r.state, r.referenceCount)) := by
  induction params with
  | nil =>
    intro s s1 opId A _ h
    simp only [onCreateInEdges, Option.some.injEq, Prod.mk.injEq] at h
    rw [← h.1]
  | cons p rest ih =>
    intro s s1 opId A hni h
    have hpo : p ≠ opId := fun e => hni (e ▸ List.mem_cons_self _ _)
    have hro : opId ∉ rest := fun hm => hni (List.mem_cons_of_mem _ hm)
    simp only [onCreateInEdges, Option.bind_eq_bind] at h
    rcases he : onCreateEdge s p opId with _ | ⟨se, ae⟩ <;> rw [he] at h
    · simp at h
    simp only [Option.some_bind] at h
    rcases hrec : onCreateInEdges se rest opId with _ | ⟨sr, ar⟩ <;> rw [hrec] at h
    · simp at h
    simp only [Option.some_bind, Option.some.injEq, Prod.mk.injEq] at h
    have hse : (se.rt opId).map (fun r => (r.state, r.referenceCount)) =
        (s.rt opId).map (fun r => (r.state, r.referenceCount)) := by
      rw [onCreateEdge] at he
      rcases hd : s.rt opId with _ | rd <;> rcases hs : s.rt p with _ | rs <;>
        simp only [hd, hs] at he
      · exact Option.noConfusion he
      · exact Option.noConfusion he
      · exact Option.noConfusion he
      split at he
      · exact Option.noConfusion he
      split at he <;>
        simp only [Option.some.injEq, Prod.mk.injEq] at he <;>
        rw [← he.1] <;>
        simp [updRt, setFn, Ne.symm hpo, hd]
    rw [← h.1, ih se sr opId ar hro hrec, hse]

theorem processIfReady_rt (s : SchedState) (opId : Nat) (r : SchedState × List Act)
    (h : processIfReady s opId = some r) : r.1.rt = s.rt := by
  rw [processIfReady] at h
  rcases hs : s.rt opId with _ | ri <;> simp only [hs] at h
  · exact Option.noConfusion h
  split at h
  · exact Option.noConfusion h
  split at h <;> simp only [Option.some.injEq] at h <;> rw [← h]

/-- C10: a `kToComplete` for an op node whose reference count is `0` aborts
(the `CHECK_NE` of line 184: an op must have at least one still-pending
successor when it completes); and an op submitted through `Create` with an
empty `result_sizes` list gets reference count `0` (no outgoing edge ever
increments it), so its completion is fatal. -/
theorem opComplete_rc_zero_fatal :
    (∀ (s : SchedState) (id : Nat) (node : PhysNode) (ri : RuntimeInfo),
      s.nodes id = some node → s.rt id = some ri → node.isOp = true →
      ri.referenceCount = 0 →
      dispatchEvent s TaskType.kToComplete id = none) ∧
    (∀ (s s1 : SchedState) (tr : List Act) (devId : Nat) (params : List Nat),
      (∀ p ∈ params, p ≠ s.nextId) →
      createStep s devId params [] = some (s1, tr) →
      ∃ ri, s1.rt s.nextId = some ri ∧ ri.referenceCount = 0 ∧
        ri.state = NodeState.kReady) := by
  constructor
  · intro s id node ri hn hr hop hrc
    simp only [dispatchEvent, hn, hr]
    rw [if_neg (by simp), if_pos hop, if_pos hrc]
    rfl
  · intro s s1 tr devId params hni h
    unfold createStep at h
    simp only [newDataNodes, onCreateNodes, List.foldl_nil] at h
    split at h
    · exact absurd h (by simp)
    rcases hop : newOpNodeOp s devId params [] with ⟨s3, opId⟩
    simp only [hop] at h
    have hopid : opId = s.nextId := by
      have h2 := congrArg Prod.snd hop
      rw [show (newOpNodeOp s devId params []).2 = s.nextId from rfl] at h2
      exact h2.symm
    rcases ho5 : onCreateInEdges (onCreateNode s3 opId) params opId with _ | ⟨s5, a5⟩
    · simp [ho5] at h
    simp only [ho5, Option.bind_eq_bind, Option.some_bind] at h
    simp only [onCreateOutEdges, Option.some_bind] at h
    rcases ho7 : processIfReady s5 opId with _ | ⟨s7, a7⟩
    · simp [ho7] at h
    simp only [ho7, Option.some_bind, Option.some.injEq, Prod.mk.injEq] at h
    have hrt5 : (s5.rt opId).map (fun r => (r.state, r.referenceCount)) =
        some (NodeState.kReady, 0) := by
      rw [onCreateInEdges_rc_state params (onCreateNode s3 opId) s5 opId a5
        (fun hm => (hni opId hm) hopid) ho5]
      rw [onCreateNode, updRt_rt_same]
      rfl
    have hrt1 : s1.rt = s5.rt := by
      rw [← h.1, processIfReady_rt s5 opId (s7, a7) ho7]
    rcases hv : s5.rt opId with _ | ri
    · rw [hv] at hrt5
      exact Option.noConfusion hrt5
    rw [hv] at hrt5
    simp only [Option.map_some', Option.some.injEq, Prod.mk.injEq] at hrt5
    refine ⟨ri, ?_, hrt5.2, hrt5.1⟩
    rw [hrt1, ← hopid, hv]

/-- Witness for C10: `Create` with no inputs and no result shapes on the empty
scheduler yields op `0` with reference count `0` in state `Ready`, and
completing an op with reference count `0` (op `1` of the `exC5` scenario has
count `1`; node `11` below has count `0`) is fatal. -/
def exC10 : SchedState :=
  updRt (updNodes initState 11 (some ⟨true, [], [], [], 0, 0, 0⟩)) 11
    (some ⟨NodeState.kReady, 0, 0⟩)

theorem opComplete_rc_zero_fatal_witness :
    dispatchEvent exC10 TaskType.kToComplete 11 = none ∧
    (∃ ri, ((createStep initState 7 [] []).getD (initState, [])).1.rt 0 = some ri ∧
      ri.referenceCount = 0 ∧ ri.state = NodeState.kReady) := by
  constructor
  · exact opComplete_rc_zero_fatal.1 exC10 11 ⟨true, [], [], [], 0, 0, 0⟩
      ⟨NodeState.kReady, 0, 0⟩ rfl rfl rfl rfl
  · exact opComplete_rc_zero_fatal.2 initState
      ((createStep initState 7 [] []).getD (initState, [])).1
      ((createStep initState 7 [] []).getD (initState, [])).2 7 []
      (by simp) rfl

/-! ## C9 — groundwork: pending counts, set insertion, the invariant -/

/-- The number of entries of `l` (with multiplicity) whose runtime state is
not `Completed` — dead ids count as not completed. -/
def pendingCount (s : SchedState) (l : List Nat) : Nat :=
  l.countP (fun x => decide (stateOf s x ≠ some NodeState.kCompleted))

theorem insertId_nodup (l : List Nat) (x : Nat) (h : l.Nodup) : (insertId l x).Nodup := by
  rw [insertId]
  split
  · exact h
  · rw [List.nodup_append]
    exact ⟨h, List.nodup_singleton x, by
      intro a ha hmem
      rw [List.mem_singleton] at hmem
      subst hmem
      exact absurd ha (by assumption)⟩

theorem insertId_mem (l : List Nat) (x y : Nat) : y ∈ insertId l x ↔ y ∈ l ∨ y = x := by
  rw [insertId]
  split
  · constructor
    · exact Or.inl
    · rintro (h | h)
      · exact h
      · subst h; assumption
  · simp [List.mem_append]

/-- Fold of set insertions. -/
def insertAll (l : List Nat) (xs : List Nat) : List Nat :=
  xs.foldl insertId l

theorem insertAll_nodup (xs : List Nat) :
    ∀ l, l.Nodup → (insertAll l xs).Nodup := by
  induction xs with
  | nil => intro l h; exact h
  | cons x rest ih =>
    intro l h
    exact ih (insertId l x) (insertId_nodup l x h)

theorem insertAll_mem (xs : List Nat) :
    ∀ (l : List Nat) (y : Nat), y ∈ insertAll l xs ↔ y ∈ l ∨ y ∈ xs := by
  induction xs with
  | nil => intro l y; simp [insertAll]
  | cons x rest ih =>
    intro l y
    rw [insertAll, List.foldl_cons, show List.foldl insertId (insertId l x) rest =
      insertAll (insertId l x) rest from rfl, ih, insertId_mem]
    simp [List.mem_cons]
    tauto

theorem insertAll_countP_le (xs : List Nat) (p : Nat → Bool) :
    (insertAll [] xs).countP p ≤ xs.countP p := by
  refine List.Subperm.countP_le p (List.subperm_of_subset ?_ ?_)
  · exact insertAll_nodup xs [] (List.nodup_nil)
  · intro y hy
    rcases (insertAll_mem xs [] y).mp hy with h | h
    · exact absurd h (List.not_mem_nil y)
    · exact h

/-- The reachability invariant of the scheduler state: well-formed bipartite
DAG with mutually consistent duplicate-free edge sets, the trigger and
reference counters bounding the pending predecessor/successor counts, the
dispatcher-queue entries describing `Ready` nodes with zero trigger count
(`kToRun`) or pushed-and-reported ops (`kToComplete`), no duplicate events,
duplicate-free push history, and pushed-but-unfinished ops `Ready` with all
inputs `Completed`. -/
structure Inv (s : SchedState) : Prop where
  domEq : ∀ id, (s.nodes id).isSome ↔ (s.rt id).isSome
  bounded : ∀ id, (s.nodes id).isSome → id < s.nextId
  queueBounded : ∀ e ∈ s.queue, e.2 < s.nextId
  pushedBounded : ∀ id ∈ s.pushed, id < s.nextId
  edges : ∀ id n, s.nodes id = some n →
    n.preds.Nodup ∧ n.succs.Nodup ∧
    (∀ p ∈ n.preds, ∃ np, s.nodes p = some np ∧ id ∈ np.succs ∧ np.isOp = !n.isOp) ∧
    (∀ q ∈ n.succs, ∃ nq, s.nodes q = some nq ∧ id ∈ nq.preds ∧ nq.isOp = !n.isOp)
  noSelf : ∀ id n, s.nodes id = some n → id ∉ n.preds ∧ id ∉ n.succs
  psDisj : ∀ id n, s.nodes id = some n → ∀ x ∈ n.preds, x ∉ n.succs
  trigGe : ∀ id n ri, s.nodes id = some n → s.rt id = some ri →
    ri.state = NodeState.kReady → (pendingCount s n.preds : Int) ≤ ri.numTriggersNeeded
  toRunInv : ∀ id, (TaskType.kToRun, id) ∈ s.queue → ∃ n ri,
    s.nodes id = some n ∧ s.rt id = some ri ∧ ri.state = NodeState.kReady ∧
    ri.numTriggersNeeded = 0 ∧ (n.isOp = true → id ∉ s.pushed)
  toCompInv : ∀ id, (TaskType.kToComplete, id) ∈ s.queue → ∃ n ri,
    s.nodes id = some n ∧ s.rt id = some ri ∧ n.isOp = true ∧
    ri.state = NodeState.kReady ∧ ri.numTriggersNeeded = 0 ∧
    id ∈ s.pushed ∧ id ∈ s.reported
  queueOnce : ∀ e, s.queue.count e ≤ 1
  pushedNodup : s.pushed.Nodup
  reportedSub : ∀ id ∈ s.reported, id ∈ s.pushed
  pushedReady : ∀ id ∈ s.pushed, ∀ n ri, s.nodes id = some n → s.rt id = some ri →
    ri.state = NodeState.kReady → ∀ p ∈ n.preds, stateOf s p = some NodeState.kCompleted
  pendingPushed : ∀ id ∈ s.pushed, id ∉ s.reported → ∃ n ri,
    s.nodes id = some n ∧ s.rt id = some ri ∧ n.isOp = true ∧
    ri.state = NodeState.kReady ∧ ri.numTriggersNeeded = 0

theorem inv_init : Inv initState := by
  constructor <;> simp [initState]

/-- Counting lemma for completion steps: in a neighbour list, the completing
node `n` leaves the pending count, removed nodes other than `n` were already
not pending, and every survivor keeps its status; so the post count plus `n`'s
contribution is bounded by the pre count. -/
theorem countP_le_after_complete (l : List Nat) (f g : Nat → Bool) (R : List Nat)
    (n : Nat)
    (hsurv : ∀ x ∈ l, x ≠ n → x ∉ R → g x = f x)
    (hn2 : ∀ x, x = n → x ∉ R → g x = false)
    (hrem : ∀ x ∈ l, x ∈ R → x ≠ n → f x = false)
    (hfn : n ∈ l → f n = true) :
    (l.filter (fun x => x ∉ R)).countP g + (if n ∈ l then 1 else 0) ≤ l.countP f := by
  induction l with
  | nil => simp
  | cons x rest ih =>
    have ih2 := ih (fun y hy => hsurv y (List.mem_cons_of_mem x hy))
      (fun y hy => hrem y (List.mem_cons_of_mem x hy))
    by_cases hxn : x = n
    · subst hxn
      have hfx : f x = true := hfn (List.mem_cons_self x rest)
      by_cases hnr : x ∈ rest
      · have h2 := ih2 (fun _ => hfx)
        simp only [hnr, if_true] at h2
        simp only [decide_not] at h2
        by_cases hxR : x ∈ R
        · simp [List.filter_cons, List.countP_cons, hxR, hfx]
          omega
        · have hgx : g x = false := hn2 x rfl hxR
          simp [List.filter_cons, List.countP_cons, hxR, hfx, hgx]
          omega
      · have h2 := ih2 (fun h => absurd h hnr)
        simp only [hnr, if_false] at h2
        simp only [decide_not] at h2
        by_cases hxR : x ∈ R
        · simp [List.filter_cons, List.countP_cons, hxR, hfx]
          omega
        · have hgx : g x = false := hn2 x rfl hxR
          simp [List.filter_cons, List.countP_cons, hxR, hfx, hgx]
          omega
    · have h2 := ih2 (fun h => hfn (List.mem_cons_of_mem x h))
      simp only [decide_not] at h2
      have hmemc : (n ∈ x :: rest) ↔ (n ∈ rest) := by
        simp [List.mem_cons, Ne.symm hxn]
      rw [if_congr hmemc rfl rfl]
      by_cases hxR : x ∈ R
      · have hfx : f x = false := hrem x (List.mem_cons_self x rest) hxR hxn
        simp [List.filter_cons, List.countP_cons, hxR, hfx]
        omega
      · have hgx : g x = f x := hsurv x (List.mem_cons_self x rest) hxn hxR
        by_cases hfx : f x = true
        · simp [List.filter_cons, List.countP_cons, hxR, hgx, hfx]
          omega
        · rw [Bool.not_eq_true] at hfx
          simp [List.filter_cons, List.countP_cons, hxR, hgx, hfx]
          omega

theorem pendingCount_zero (s : SchedState) (l : List Nat)
    (h : pendingCount s l = 0) :
    ∀ p ∈ l, stateOf s p = some NodeState.kCompleted := by
  intro p hp
  rw [pendingCount, List.countP_eq_zero] at h
  have := h p hp
  simpa using this

/-- Popping the front event preserves the invariant. -/
theorem inv_pop (s : SchedState) (e : TaskType × Nat) (rest : List (TaskType × Nat))
    (hq : s.queue = e :: rest) (hInv : Inv s) : Inv { s with queue := rest } := by
  obtain ⟨i1, i2, i3, i4, i5, i6, i7, i8, i10, i11, i12, i13, i14, i15, i16⟩ := hInv
  refine ⟨i1, i2, ?_, i4, i5, i6, i7, i8, ?_, ?_, ?_, i13, i14, ?_, i16⟩
  · intro x hx
    exact i3 x (by rw [hq]; exact List.mem_cons_of_mem e hx)
  · intro id hid
    obtain ⟨n, ri, h⟩ := i10 id (by rw [hq]; exact List.mem_cons_of_mem e hid)
    exact ⟨n, ri, h⟩
  · intro id hid
    obtain ⟨n, ri, h⟩ := i11 id (by rw [hq]; exact List.mem_cons_of_mem e hid)
    exact ⟨n, ri, h⟩
  · intro x
    have := i12 x
    rw [hq, List.count_cons] at this
    show List.count x rest ≤ 1
    omega
  · exact i15

theorem count_le_one_of_snd_nodup (e : TaskType × Nat) (l : List (TaskType × Nat))
    (h : (l.map Prod.snd).Nodup) : l.count e ≤ 1 := by
  induction l with
  | nil => simp
  | cons a rest ih =>
    rw [List.map_cons, List.nodup_cons] at h
    have hrest := ih h.2
    rw [List.count_cons]
    by_cases hae : e = a
    · have h0 : rest.count e = 0 := by
        rw [List.count_eq_zero]
        intro hmem
        apply h.1
        rw [← hae]
        exact List.mem_map_of_mem Prod.snd hmem
      rw [h0]
      simp [hae]
    · have hne : (a == e) = false := by
        simp
        exact fun h2 => hae h2.symm
      rw [hne]
      simpa using hrest

theorem rt_sub_zero (r : RuntimeInfo) :
    ({ state := r.state, referenceCount := r.referenceCount - 0,
       numTriggersNeeded := r.numTriggersNeeded - 0 } : RuntimeInfo) = r := by
  cases r
  simp

/-- The master preservation lemma for completion steps: if the post state is
described pointwise by the completed node `n`, the removed set `R`, and the
freshly enqueued events `news`, then the invariant carries over. -/
theorem completion_preserves_inv
    (sPop s' : SchedState) (n : Nat) (node : PhysNode) (ri : RuntimeInfo)
    (R : List Nat) (news : List (TaskType × Nat))
    (hInv : Inv sPop)
    (hq : sPop.nodes n = some node) (hr : sPop.rt n = some ri)
    (hready : ri.state = NodeState.kReady) (_htrig0 : ri.numTriggersNeeded = 0)
    (hpredsC : ∀ p ∈ node.preds, stateOf sPop p = some NodeState.kCompleted)
    (hRsub : ∀ x ∈ R, x = n ∨ x ∈ node.preds)
    (hnoNrest : ∀ t, (t, n) ∉ sPop.queue)
    (HnRep : node.isOp = true → n ∈ sPop.reported)
    (Hnodes : ∀ j, s'.nodes j =
      if j ∈ R then none else (sPop.nodes j).map (detachSet R))
    (Hrt : ∀ j, s'.rt j = if j ∈ R then none else
        (sPop.rt j).map (fun r =>
          { state := if j = n then NodeState.kCompleted else r.state,
            referenceCount := r.referenceCount - (if j ∈ node.preds then 1 else 0),
            numTriggersNeeded :=
              r.numTriggersNeeded - (if j ∈ node.succs then 1 else 0) }))
    (Hqueue : s'.queue = sPop.queue ++ news)
    (Hnews : ∀ e ∈ news, e.1 = TaskType.kToRun ∧ e.2 ∈ node.succs ∧
      ∃ qri, sPop.rt e.2 = some qri ∧ qri.state = NodeState.kReady ∧
        qri.numTriggersNeeded = 1)
    (HnewsN : (news.map Prod.snd).Nodup)
    (Hpushed : s'.pushed = sPop.pushed)
    (Hreported : s'.reported = sPop.reported)
    (HnextId : s'.nextId = sPop.nextId) :
    Inv s' := by
  have hnself := hInv.noSelf n node hq
  have hRC : ∀ x ∈ R, x ≠ n → stateOf sPop x = some NodeState.kCompleted := by
    intro x hx hxn
    rcases hRsub x hx with h | h
    · exact absurd h hxn
    · exact hpredsC x h
  have hcons1 : ∀ j nj, sPop.nodes j = some nj → (n ∈ nj.preds ↔ j ∈ node.succs) := by
    intro j nj hnj
    constructor
    · intro hmem
      obtain ⟨np, hnp, hmem2, _⟩ := (hInv.edges j nj hnj).2.2.1 n hmem
      rw [hq] at hnp
      injection hnp with hnp
      exact hnp ▸ hmem2
    · intro hmem
      obtain ⟨nq, hnq, hmem2, _⟩ := (hInv.edges n node hq).2.2.2 j hmem
      rw [hnj] at hnq
      injection hnq with hnq
      exact hnq ▸ hmem2
  have hstateEq : ∀ x, x ∉ R → x ≠ n → stateOf s' x = stateOf sPop x := by
    intro x hxR hxn
    rw [stateOf, stateOf, Hrt x, if_neg hxR]
    rcases sPop.rt x with _ | r
    · rfl
    · simp [hxn]
  have hstateN : n ∉ R → stateOf s' n = some NodeState.kCompleted := by
    intro hnR
    rw [stateOf, Hrt n, if_neg hnR, hr]
    simp
  have hsReady : stateOf sPop n = some NodeState.kReady := by
    rw [stateOf, hr]
    simp [hready]
  -- queue entries are untouched by the completion
  have hkeep : ∀ m nm rm, m ≠ n → sPop.nodes m = some nm → sPop.rt m = some rm →
      rm.state = NodeState.kReady → rm.numTriggersNeeded = 0 →
      m ∉ R ∧ m ∉ node.succs ∧ m ∉ node.preds ∧
      s'.nodes m = some (detachSet R nm) ∧ s'.rt m = some rm := by
    intro m nm rm hmn hnm hrm hrdy htr
    have hmp : m ∉ node.preds := by
      intro hmem
      have h1 := hpredsC m hmem
      rw [stateOf, hrm] at h1
      simp only [Option.map_some', Option.some.injEq] at h1
      rw [hrdy] at h1
      exact NodeState.noConfusion h1
    have hmR : m ∉ R := by
      intro hmem
      rcases hRsub m hmem with h | h
      · exact hmn h
      · exact hmp h
    have hms : m ∉ node.succs := by
      intro hmem
      have hnp : n ∈ nm.preds := (hcons1 m nm hnm).mpr hmem
      have hpend := hInv.trigGe m nm rm hnm hrm hrdy
      rw [htr] at hpend
      have h0 : pendingCount sPop nm.preds = 0 := by omega
      have := pendingCount_zero sPop nm.preds h0 n hnp
      rw [hsReady] at this
      injection this with this
      exact NodeState.noConfusion this
    refine ⟨hmR, hms, hmp, ?_, ?_⟩
    · rw [Hnodes m, if_neg hmR, hnm]
      rfl
    · rw [Hrt m, if_neg hmR, hrm]
      simp only [Option.map_some', Option.some.injEq]
      rw [if_neg hmp, if_neg hms, if_neg hmn]
      exact rt_sub_zero rm
  -- facts about the fresh events
  have hnewsFacts : ∀ q, (TaskType.kToRun, q) ∈ news →
      q ∈ node.succs ∧ q ∉ R ∧ q ≠ n ∧
      ∃ nq qri, sPop.nodes q = some nq ∧ sPop.rt q = some qri ∧
        qri.state = NodeState.kReady ∧ qri.numTriggersNeeded = 1 ∧
        s'.nodes q = some (detachSet R nq) ∧
        s'.rt q = some { qri with numTriggersNeeded := 0 } := by
    intro q hq2
    obtain ⟨_, hqs, qri, hqri, hqrdy, hqtr⟩ := Hnews _ hq2
    have hqn : q ≠ n := by
      intro e
      exact hnself.2 (e ▸ hqs)
    have hqp : q ∉ node.preds := fun hmem => (hInv.psDisj n node hq q hmem) hqs
    have hqR : q ∉ R := by
      intro hmem
      rcases hRsub q hmem with h | h
      · exact hqn h
      · exact hqp h
    obtain ⟨nq, hnq, _, _⟩ := (hInv.edges n node hq).2.2.2 q hqs
    refine ⟨hqs, hqR, hqn, nq, qri, hnq, hqri, hqrdy, hqtr, ?_, ?_⟩
    · rw [Hnodes q, if_neg hqR, hnq]
      rfl
    · rw [Hrt q, if_neg hqR, hqri]
      simp only [Option.map_some', Option.some.injEq]
      rw [if_neg hqn, if_neg hqp, if_pos hqs, hqtr]
      simp
  refine ⟨?_, ?_, ?_, ?_, ?_, ?_, ?_, ?_, ?_, ?_, ?_, ?_, ?_, ?_, ?_⟩
  · -- domEq
    intro j
    rw [Hnodes j, Hrt j]
    by_cases hjR : j ∈ R
    · simp [hjR]
    · rw [if_neg hjR, if_neg hjR, Option.isSome_map', Option.isSome_map']
      exact hInv.domEq j
  · -- bounded
    intro j hj
    rw [Hnodes j] at hj
    rw [HnextId]
    by_cases hjR : j ∈ R
    · rw [if_pos hjR] at hj
      exact absurd hj (by simp)
    · rw [if_neg hjR, Option.isSome_map'] at hj
      exact hInv.bounded j hj
  · -- queueBounded
    intro e he
    rw [Hqueue] at he
    rw [HnextId]
    rcases List.mem_append.mp he with h | h
    · exact hInv.queueBounded e h
    · obtain ⟨_, _, qri, hqri, _, _⟩ := Hnews e h
      have : (sPop.rt e.2).isSome := by rw [hqri]; rfl
      exact hInv.bounded e.2 ((hInv.domEq e.2).mpr this)
  · -- pushedBounded
    intro id hid
    rw [Hpushed] at hid
    rw [HnextId]
    exact hInv.pushedBounded id hid
  · -- edges
    intro j nj' hj
    rw [Hnodes j] at hj
    by_cases hjR : j ∈ R
    · rw [if_pos hjR] at hj
      exact Option.noConfusion hj
    rw [if_neg hjR] at hj
    rcases hnj : sPop.nodes j with _ | nj
    · rw [hnj] at hj
      exact Option.noConfusion hj
    rw [hnj] at hj
    injection hj with hj
    subst hj
    obtain ⟨e1, e2, e3, e4⟩ := hInv.edges j nj hnj
    refine ⟨e1.filter _, e2.filter _, ?_, ?_⟩
    · intro p hp
      have hp2 := List.mem_filter.mp hp
      have hpR : p ∉ R := by simpa using hp2.2
      obtain ⟨np, hnp, hmem, hbip⟩ := e3 p hp2.1
      refine ⟨detachSet R np, ?_, ?_, hbip⟩
      · rw [Hnodes p, if_neg hpR, hnp]
        rfl
      · rw [detachSet]
        simp only [List.mem_filter]
        exact ⟨hmem, by simpa using hjR⟩
    · intro p hp
      have hp2 := List.mem_filter.mp hp
      have hpR : p ∉ R := by simpa using hp2.2
      obtain ⟨np, hnp, hmem, hbip⟩ := e4 p hp2.1
      refine ⟨detachSet R np, ?_, ?_, hbip⟩
      · rw [Hnodes p, if_neg hpR, hnp]
        rfl
      · rw [detachSet]
        simp only [List.mem_filter]
        exact ⟨hmem, by simpa using hjR⟩
  · -- noSelf
    intro j nj' hj
    rw [Hnodes j] at hj
    by_cases hjR : j ∈ R
    · rw [if_pos hjR] at hj
      exact Option.noConfusion hj
    rw [if_neg hjR] at hj
    rcases hnj : sPop.nodes j with _ | nj
    · rw [hnj] at hj
      exact Option.noConfusion hj
    rw [hnj] at hj
    injection hj with hj
    subst hj
    have := hInv.noSelf j nj hnj
    constructor
    · intro hmem
      exact this.1 (List.mem_of_mem_filter hmem)
    · intro hmem
      exact this.2 (List.mem_of_mem_filter hmem)
  · -- psDisj
    intro j nj' hj x hx
    rw [Hnodes j] at hj
    by_cases hjR : j ∈ R
    · rw [if_pos hjR] at hj
      exact Option.noConfusion hj
    rw [if_neg hjR] at hj
    rcases hnj : sPop.nodes j with _ | nj
    · rw [hnj] at hj
      exact Option.noConfusion hj
    rw [hnj] at hj
    injection hj with hj
    subst hj
    intro hmem
    exact hInv.psDisj j nj hnj x (List.mem_of_mem_filter hx)
      (List.mem_of_mem_filter hmem)
  · -- trigGe
    intro j nj' rj' hj hrj hrdy
    rw [Hnodes j] at hj
    rw [Hrt j] at hrj
    by_cases hjR : j ∈ R
    · rw [if_pos hjR] at hj
      exact absurd hj (by simp)
    rw [if_neg hjR] at hj
    rw [if_neg hjR] at hrj
    rcases hnj : sPop.nodes j with _ | nj
    · rw [hnj] at hj
      exact Option.noConfusion hj
    rcases hrjj : sPop.rt j with _ | rj
    · rw [hrjj] at hrj
      exact Option.noConfusion hrj
    rw [hnj] at hj
    rw [hrjj] at hrj
    injection hj with hj
    injection hrj with hrj
    subst hj
    subst hrj
    simp only at hrdy
    have hjn : j ≠ n := by
      intro e
      rw [if_pos e] at hrdy
      exact NodeState.noConfusion hrdy
    rw [if_neg hjn] at hrdy
    have hpre := hInv.trigGe j nj rj hnj hrjj hrdy
    have hcount := countP_le_after_complete nj.preds
      (fun x => decide (stateOf sPop x ≠ some NodeState.kCompleted))
      (fun x => decide (stateOf s' x ≠ some NodeState.kCompleted)) R n
      (fun x _ hxn hxR => by
        show decide (stateOf s' x ≠ some NodeState.kCompleted) =
          decide (stateOf sPop x ≠ some NodeState.kCompleted)
        rw [hstateEq x hxR hxn])
      (fun x hxn hxR => by
        show decide (stateOf s' x ≠ some NodeState.kCompleted) = false
        rw [hxn, hstateN (hxn ▸ hxR)]
        decide)
      (fun x _ hxR hxn => by
        show decide (stateOf sPop x ≠ some NodeState.kCompleted) = false
        rw [hRC x hxR hxn]
        decide)
      (fun _ => by
        show decide (stateOf sPop n ≠ some NodeState.kCompleted) = true
        rw [hsReady]
        decide)
    have hiff : (n ∈ nj.preds) ↔ (j ∈ node.succs) := hcons1 j nj hnj
    rw [detachSet]
    simp only
    show (pendingCount s' (nj.preds.filter (fun x => x ∉ R)) : Int) ≤ _
    rw [pendingCount] at *
    by_cases hmem : j ∈ node.succs
    · rw [if_pos hmem]
      have : n ∈ nj.preds := hiff.mpr hmem
      rw [if_pos this] at hcount
      omega
    · rw [if_neg hmem]
      have : n ∉ nj.preds := fun h => hmem (hiff.mp h)
      rw [if_neg this] at hcount
      omega
  · -- toRunInv
    intro id hid
    rw [Hqueue] at hid
    rcases List.mem_append.mp hid with h | h
    · obtain ⟨nm, rm, hnm, hrm, hrdy, htr, hpsh⟩ := hInv.toRunInv id h
      have hmn : id ≠ n := by
        intro e
        exact hnoNrest TaskType.kToRun (e ▸ h)
      obtain ⟨_, _, _, hn', hr'⟩ := hkeep id nm rm hmn hnm hrm hrdy htr
      refine ⟨detachSet R nm, rm, hn', hr', hrdy, htr, ?_⟩
      intro hop
      rw [Hpushed]
      exact hpsh hop
    · obtain ⟨hqs2, hqR, hqn, nq, qri2, hnq, hqri2, hqrdy2, hqtr2, hn', hr'⟩ :=
        hnewsFacts id h
      refine ⟨detachSet R nq, { qri2 with numTriggersNeeded := 0 }, hn', hr',
        hqrdy2, rfl, ?_⟩
      intro hop
      rw [Hpushed]
      intro hpsh
      have := hInv.pushedReady id hpsh nq qri2 hnq hqri2 hqrdy2
      have hnp : n ∈ nq.preds := (hcons1 id nq hnq).mpr hqs2
      have := this n hnp
      rw [hsReady] at this
      injection this with this
      exact NodeState.noConfusion this
  · -- toCompInv
    intro id hid
    rw [Hqueue] at hid
    rcases List.mem_append.mp hid with h | h
    · obtain ⟨nm, rm, hnm, hrm, hop, hrdy, htr, hpsh, hrep⟩ := hInv.toCompInv id h
      have hmn : id ≠ n := by
        intro e
        exact hnoNrest TaskType.kToComplete (e ▸ h)
      obtain ⟨_, _, _, hn', hr'⟩ := hkeep id nm rm hmn hnm hrm hrdy htr
      refine ⟨detachSet R nm, rm, hn', hr', hop, hrdy, htr, ?_, ?_⟩
      · rw [Hpushed]; exact hpsh
      · rw [Hreported]; exact hrep
    · obtain ⟨hfst, _, _⟩ := Hnews _ h
      exact absurd hfst (by simp)
  · -- queueOnce
    intro e
    rw [Hqueue, List.count_append]
    have hrest := hInv.queueOnce e
    obtain ⟨t, q⟩ := e
    rcases t with _ | _
    · -- kToRun
      by_cases hmem : (TaskType.kToRun, q) ∈ news
      · have hnews1 : news.count (TaskType.kToRun, q) ≤ 1 :=
          count_le_one_of_snd_nodup (TaskType.kToRun, q) news HnewsN
        have hrest0 : (TaskType.kToRun, q) ∉ sPop.queue := by
          intro hin
          obtain ⟨nm, rm, _, hrm, _, htr, _⟩ := hInv.toRunInv q hin
          obtain ⟨_, _, qri, hqri, _, hqtr⟩ := Hnews _ hmem
          rw [hrm] at hqri
          injection hqri with hqri
          rw [← hqri] at hqtr
          rw [htr] at hqtr
          exact absurd hqtr (by norm_num)
        rw [List.count_eq_zero.mpr hrest0]
        omega
      · rw [List.count_eq_zero.mpr hmem]
        omega
    · -- kToComplete: never among the news
      have hnews0 : (TaskType.kToComplete, q) ∉ news := by
        intro hin
        obtain ⟨hfst, _, _⟩ := Hnews _ hin
        exact absurd hfst (by simp)
      rw [List.count_eq_zero.mpr hnews0]
      omega
  · -- pushedNodup
    rw [Hpushed]
    exact hInv.pushedNodup
  · -- reportedSub
    intro id hid
    rw [Hreported] at hid
    rw [Hpushed]
    exact hInv.reportedSub id hid
  · -- pushedReady
    intro id hid nj' rj' hj hrj hrdy p hp
    rw [Hpushed] at hid
    rw [Hnodes id] at hj
    rw [Hrt id] at hrj
    by_cases hidR : id ∈ R
    · rw [if_pos hidR] at hj
      exact Option.noConfusion hj
    rw [if_neg hidR] at hj
    rw [if_neg hidR] at hrj
    rcases hnj : sPop.nodes id with _ | nj
    · rw [hnj] at hj
      exact Option.noConfusion hj
    rcases hrjj : sPop.rt id with _ | rj
    · rw [hrjj] at hrj
      exact Option.noConfusion hrj
    rw [hnj] at hj
    rw [hrjj] at hrj
    injection hj with hj
    injection hrj with hrj
    subst hj
    subst hrj
    simp only at hrdy
    have hidn : id ≠ n := by
      intro e
      rw [if_pos e] at hrdy
      exact NodeState.noConfusion hrdy
    rw [if_neg hidn] at hrdy
    have hpre := hInv.pushedReady id hid nj rj hnj hrjj hrdy
    rw [detachSet] at hp
    simp only [List.mem_filter] at hp
    obtain ⟨hp1, hp2⟩ := hp
    have hpR : p ∉ R := by simpa using hp2
    by_cases hpn : p = n
    · subst hpn
      exact hstateN hpR
    · rw [hstateEq p hpR hpn]
      exact hpre p hp1
  · -- pendingPushed
    intro id hid hidrep
    rw [Hpushed] at hid
    rw [Hreported] at hidrep
    obtain ⟨nm, rm, hnm, hrm, hop, hrdy, htr⟩ := hInv.pendingPushed id hid hidrep
    have hidn : id ≠ n := by
      intro e
      subst e
      rw [hq] at hnm
      injection hnm with hnm
      apply hidrep
      apply HnRep
      rw [hnm]
      exact hop
    obtain ⟨_, _, _, hn', hr'⟩ := hkeep id nm rm hidn hnm hrm hrdy htr
    exact ⟨detachSet R nm, rm, hn', hr', hop, hrdy, htr⟩

/-- A successful `kToComplete` on a `Ready`, trigger-free, reported op node
preserves the invariant. -/
theorem inv_complete_op (sPop s' : SchedState) (A : List Act) (id : Nat)
    (node : PhysNode) (ri : RuntimeInfo)
    (hInv : Inv sPop)
    (hn : sPop.nodes id = some node) (hr : sPop.rt id = some ri)
    (hop : node.isOp = true)
    (hready : ri.state = NodeState.kReady) (htrig0 : ri.numTriggersNeeded = 0)
    (hnoNrest : ∀ t, (t, id) ∉ sPop.queue)
    (hRep : id ∈ sPop.reported)
    (h : dispatchEvent sPop TaskType.kToComplete id = some (s', A)) :
    Inv s' := by
  obtain ⟨hrc, s3, a3, s4, a4, h3, h4, hs', hA⟩ :=
    dispatchEvent_complete_op_inv sPop s' A id node ri hn hr hop h
  obtain ⟨hpN, hsN, _, _⟩ := hInv.edges id node hn
  have hself := hInv.noSelf id node hn
  have hdisj := hInv.psDisj id node hn
  have hpend := hInv.trigGe id node ri hn hr hready
  rw [htrig0] at hpend
  have h0 : pendingCount sPop node.preds = 0 := by omega
  have hpredsC := pendingCount_zero sPop node.preds h0
  set sC : SchedState := updRt sPop id (some { ri with state := NodeState.kCompleted })
    with hsC
  obtain ⟨c1, c2, c3, c4, c5, c6, c7, c8, c9, c10, c11⟩ :=
    completeOpPreds_char node.preds sC s3 a3 hpN h3
  obtain ⟨t1, t2, t3, t4, t5, t6, t7, t8, t9, t10, t11⟩ :=
    triggerSuccessors_char node.succs s3 s4 a4 hsN h4
  set R : List Nat := node.preds.filter (willReclaim sC) with hR
  set news : List (TaskType × Nat) :=
    (node.succs.filter (willEnqueue s3)).map (fun q => (TaskType.kToRun, q)) with hnews
  have hCrt : ∀ j, j ≠ id → sC.rt j = sPop.rt j := by
    intro j hj
    rw [hsC]
    exact updRt_rt_other sPop id j _ hj
  have hRsub : ∀ x ∈ R, x = id ∨ x ∈ node.preds := by
    intro x hx
    rw [hR] at hx
    exact Or.inr (List.mem_of_mem_filter hx)
  have Hnodes : ∀ j, s'.nodes j =
      if j ∈ R then none else (sPop.nodes j).map (detachSet R) := by
    intro j
    rw [hs', finishNotify_fst_nodes, t3]
    exact c2 j
  have Hrt : ∀ j, s'.rt j = if j ∈ R then none else
      (sPop.rt j).map (fun r =>
        { state := if j = id then NodeState.kCompleted else r.state,
          referenceCount := r.referenceCount - (if j ∈ node.preds then 1 else 0),
          numTriggersNeeded :=
            r.numTriggersNeeded - (if j ∈ node.succs then 1 else 0) }) := by
    intro j
    rw [hs', finishNotify_fst_rt]
    by_cases hjR : j ∈ R
    · have hjp : j ∈ node.preds := List.mem_of_mem_filter (hR ▸ hjR)
      have hjs : j ∉ node.succs := hdisj j hjp
      rw [t2 j hjs, c3 j, if_pos hjR, if_pos hjR]
    · by_cases hjs : j ∈ node.succs
      · have hjp : j ∉ node.preds := fun hmem => (hdisj j hmem) hjs
        have hjid : j ≠ id := fun e => hself.2 (e ▸ hjs)
        obtain ⟨qri, hq3, hq4⟩ := t1 j hjs
        have h3j : s3.rt j = sPop.rt j := by
          rw [c3 j, if_neg hjR, if_neg hjp]
          exact hCrt j hjid
        rw [h3j] at hq3
        rw [hq4, if_neg hjR, hq3]
        simp [hjid, hjp, hjs]
      · have h4j : s4.rt j = s3.rt j := t2 j hjs
        by_cases hjp : j ∈ node.preds
        · have hjid : j ≠ id := fun e => hself.1 (e ▸ hjp)
          rw [h4j, c3 j, if_neg hjR, if_pos hjp, hCrt j hjid, if_neg hjR]
          rcases sPop.rt j with _ | r
          · rfl
          · simp [hjid, hjp, hjs]
        · by_cases hjid : j = id
          · subst hjid
            rw [h4j, c3 j, if_neg hjR, if_neg hjp, hsC, updRt_rt_same,
              if_neg hjR, hr]
            simp [hjp, hjs]
          · rw [h4j, c3 j, if_neg hjR, if_neg hjp, hCrt j hjid, if_neg hjR]
            rcases sPop.rt j with _ | r
            · rfl
            · simp [hjid, hjp, hjs]
  have Hqueue : s'.queue = sPop.queue ++ news := by
    rw [hs', finishNotify_fst_queue, t9, c4, hsC]
    rfl
  have Hnews : ∀ e ∈ news, e.1 = TaskType.kToRun ∧ e.2 ∈ node.succs ∧
      ∃ qri, sPop.rt e.2 = some qri ∧ qri.state = NodeState.kReady ∧
        qri.numTriggersNeeded = 1 := by
    intro e he
    rw [hnews, List.mem_map] at he
    obtain ⟨q, hq2, rfl⟩ := he
    have hqs : q ∈ node.succs := List.mem_of_mem_filter hq2
    have hwq : willEnqueue s3 q = true := List.of_mem_filter hq2
    have hqid : q ≠ id := fun e2 => hself.2 (e2 ▸ hqs)
    have hqp : q ∉ node.preds := fun hmem => hdisj q hmem hqs
    have hqR : q ∉ R := by
      intro hmem
      rw [hR] at hmem
      exact hqp (List.mem_of_mem_filter hmem)
    have h3q : s3.rt q = sPop.rt q := by
      rw [c3 q, if_neg hqR, if_neg hqp]
      exact hCrt q hqid
    rcases hq3 : s3.rt q with _ | qri
    · rw [willEnqueue, hq3] at hwq
      exact Bool.noConfusion hwq
    · have hcond := (willEnqueue_eq_true s3 q qri hq3).mp hwq
      refine ⟨rfl, hqs, qri, ?_, hcond.1, hcond.2⟩
      rw [← h3q]
      exact hq3
  have HnewsN : (news.map Prod.snd).Nodup := by
    rw [hnews, List.map_map]
    simpa using List.Nodup.filter (willEnqueue s3) hsN
  have Hpushed : s'.pushed = sPop.pushed := by
    rw [hs', finishNotify_fst_pushed, t4, c5, hsC]
    rfl
  have Hreported : s'.reported = sPop.reported := by
    rw [hs', finishNotify_fst_reported, t5, c6, hsC]
    rfl
  have HnextId : s'.nextId = sPop.nextId := by
    rw [hs', finishNotify_fst_nextId, t7, c9, hsC]
    rfl
  exact completion_preserves_inv sPop s' id node ri R news hInv hn hr hready htrig0
    hpredsC hRsub hnoNrest (fun _ => hRep) Hnodes Hrt Hqueue Hnews HnewsN Hpushed
    Hreported HnextId

/-- Invariant preservation for a completion whose core phase (state write plus
reclamations) is described pointwise by the removed set `R`, once the
successor-triggering loop and the finish notification have run. -/
theorem completion_after_core (sPop s3 s4 s' : SchedState) (a4 : List Act)
    (id : Nat) (node : PhysNode) (ri : RuntimeInfo) (R : List Nat)
    (hInv : Inv sPop)
    (hn : sPop.nodes id = some node) (hr : sPop.rt id = some ri)
    (hready : ri.state = NodeState.kReady) (htrig0 : ri.numTriggersNeeded = 0)
    (hnoNrest : ∀ t, (t, id) ∉ sPop.queue)
    (HnRep : node.isOp = true → id ∈ sPop.reported)
    (hRsub : ∀ x ∈ R, x = id ∨ x ∈ node.preds)
    (HN3 : ∀ j, s3.nodes j = if j ∈ R then none else (sPop.nodes j).map (detachSet R))
    (HR3 : ∀ j, s3.rt j = if j ∈ R then none else (sPop.rt j).map (fun r =>
        { state := if j = id then NodeState.kCompleted else r.state,
          referenceCount := r.referenceCount - (if j ∈ node.preds then 1 else 0),
          numTriggersNeeded := r.numTriggersNeeded }))
    (HQ3 : s3.queue = sPop.queue) (HP3 : s3.pushed = sPop.pushed)
    (HRep3 : s3.reported = sPop.reported) (HI3 : s3.nextId = sPop.nextId)
    (h4 : triggerSuccessors s3 node.succs = some (s4, a4))
    (hs' : s' = (finishNotify s4 id).1) :
    Inv s' := by
  obtain ⟨hpN, hsN, _, _⟩ := hInv.edges id node hn
  have hself := hInv.noSelf id node hn
  have hdisj := hInv.psDisj id node hn
  have hpend := hInv.trigGe id node ri hn hr hready
  rw [htrig0] at hpend
  have h0 : pendingCount sPop node.preds = 0 := by omega
  have hpredsC := pendingCount_zero sPop node.preds h0
  obtain ⟨t1, t2, t3, t4, t5, t6, t7, t8, t9, t10, t11⟩ :=
    triggerSuccessors_char node.succs s3 s4 a4 hsN h4
  set news : List (TaskType × Nat) :=
    (node.succs.filter (willEnqueue s3)).map (fun q => (TaskType.kToRun, q)) with hnews
  have hRnotSucc : ∀ j ∈ R, j ∉ node.succs := by
    intro j hj
    rcases hRsub j hj with h1 | h1
    · exact h1 ▸ hself.2
    · exact hdisj j h1
  have Hnodes : ∀ j, s'.nodes j =
      if j ∈ R then none else (sPop.nodes j).map (detachSet R) := by
    intro j
    rw [hs', finishNotify_fst_nodes, t3]
    exact HN3 j
  have Hrt : ∀ j, s'.rt j = if j ∈ R then none else
      (sPop.rt j).map (fun r =>
        { state := if j = id then NodeState.kCompleted else r.state,
          referenceCount := r.referenceCount - (if j ∈ node.preds then 1 else 0),
          numTriggersNeeded :=
            r.numTriggersNeeded - (if j ∈ node.succs then 1 else 0) }) := by
    intro j
    rw [hs', finishNotify_fst_rt]
    by_cases hjR : j ∈ R
    · rw [t2 j (hRnotSucc j hjR), HR3 j, if_pos hjR, if_pos hjR]
    · by_cases hjs : j ∈ node.succs
      · have hjp : j ∉ node.preds := fun hmem => (hdisj j hmem) hjs
        have hjid : j ≠ id := fun e => hself.2 (e ▸ hjs)
        obtain ⟨qri, hq3, hq4⟩ := t1 j hjs
        have h3j := HR3 j
        rw [hq3, if_neg hjR] at h3j
        rw [hq4, if_neg hjR]
        rcases hq0 : sPop.rt j with _ | r
        · rw [hq0] at h3j
          exact Option.noConfusion h3j
        · rw [hq0] at h3j
          simp only [Option.map_some', Option.some.injEq] at h3j
          subst h3j
          simp [hjid, hjp, hjs]
      · rw [t2 j hjs, HR3 j, if_neg hjR, if_neg hjR]
        rcases sPop.rt j with _ | r
        · rfl
        · simp [hjs]
  have Hqueue : s'.queue = sPop.queue ++ news := by
    rw [hs', finishNotify_fst_queue, t9, HQ3]
  have Hnews : ∀ e ∈ news, e.1 = TaskType.kToRun ∧ e.2 ∈ node.succs ∧
      ∃ qri, sPop.rt e.2 = some qri ∧ qri.state = NodeState.kReady ∧
        qri.numTriggersNeeded = 1 := by
    intro e he
    rw [hnews, List.mem_map] at he
    obtain ⟨q, hq2, rfl⟩ := he
    have hqs : q ∈ node.succs := List.mem_of_mem_filter hq2
    have hwq : willEnqueue s3 q = true := List.of_mem_filter hq2
    have hqid : q ≠ id := fun e2 => hself.2 (e2 ▸ hqs)
    have hqp : q ∉ node.preds := fun hmem => hdisj q hmem hqs
    have hqR : q ∉ R := by
      intro hmem
      rcases hRsub q hmem with h1 | h1
      · exact hqid h1
      · exact hqp h1
    rcases hq3 : s3.rt q with _ | qri
    · rw [willEnqueue, hq3] at hwq
      exact Bool.noConfusion hwq
    · have hcond := (willEnqueue_eq_true s3 q qri hq3).mp hwq
      have h3q := HR3 q
      rw [hq3, if_neg hqR] at h3q
      rcases hq0 : sPop.rt q with _ | r
      · rw [hq0] at h3q
        exact Option.noConfusion h3q
      · rw [hq0] at h3q
        simp only [Option.map_some', Option.some.injEq] at h3q
        subst h3q
        simp only at hcond
        rw [if_neg hqid] at hcond
        exact ⟨rfl, hqs, r, rfl, hcond.1, hcond.2⟩
  have HnewsN : (news.map Prod.snd).Nodup := by
    rw [hnews, List.map_map]
    simpa using List.Nodup.filter (willEnqueue s3) hsN
  have Hpushed : s'.pushed = sPop.pushed := by
    rw [hs', finishNotify_fst_pushed, t4, HP3]
  have Hreported : s'.reported = sPop.reported := by
    rw [hs', finishNotify_fst_reported, t5, HRep3]
  have HnextId : s'.nextId = sPop.nextId := by
    rw [hs', finishNotify_fst_nextId, t7, HI3]
  exact completion_preserves_inv sPop s' id node ri R news hInv hn hr hready htrig0
    hpredsC hRsub hnoNrest HnRep Hnodes Hrt Hqueue Hnews HnewsN Hpushed
    Hreported HnextId

theorem detachOne_eq_detachSet (p : Nat) (n : PhysNode) :
    detachOne p n = detachSet [p] n := by
  rw [← detachSet_detachOne p [] n, detachSet_nil]

theorem detachOne_comp (a b : Nat) :
    detachOne b ∘ detachOne a = detachSet [a, b] := by
  funext n
  rw [Function.comp_apply, detachOne_eq_detachSet, detachSet_detachOne]

theorem map_detachOne_two (o : Option PhysNode) (a b : Nat) :
    (o.map (detachOne a)).map (detachOne b) = o.map (detachSet [a, b]) := by
  cases o with
  | none => rfl
  | some n =>
    simp only [Option.map_some', Option.some.injEq]
    rw [detachOne_eq_detachSet, detachSet_detachOne]

theorem map_detachSet_nil (o : Option PhysNode) : o.map (detachSet []) = o := by
  cases o <;> simp [detachSet_nil]

theorem map_detachOne_one (o : Option PhysNode) (p : Nat) :
    o.map (detachOne p) = o.map (detachSet [p]) := by
  cases o <;> simp [detachOne_eq_detachSet]

/-- A successful completion event on a `Ready`, trigger-free data node
preserves the invariant (a `kToRun` on a data node takes the completion
branch of the dispatcher). -/
theorem inv_complete_data (sPop s' : SchedState) (A : List Act) (tt : TaskType)
    (id : Nat) (node : PhysNode) (ri : RuntimeInfo)
    (hInv : Inv sPop)
    (hn : sPop.nodes id = some node) (hr : sPop.rt id = some ri)
    (hop : node.isOp = false)
    (hready : ri.state = NodeState.kReady) (htrig0 : ri.numTriggersNeeded = 0)
    (hnoNrest : ∀ t, (t, id) ∉ sPop.queue)
    (h : dispatchEvent sPop tt id = some (s', A)) :
    Inv s' := by
  obtain ⟨s3, apred, s4, a4, hpredEq, h4, hs', hA⟩ :=
    dispatchEvent_complete_data_inv sPop s' A tt id node ri hn hr hop h
  have hself := hInv.noSelf id node hn
  set sC : SchedState := updRt sPop id (some { ri with state := NodeState.kCompleted })
    with hsC
  rcases hpreds : node.preds with _ | ⟨p, prest⟩
  · simp only [completeDataPred, hpreds] at hpredEq
    exact Option.noConfusion hpredEq
  rcases prest with _ | ⟨p2, prest2⟩
  swap
  · simp only [completeDataPred, hpreds] at hpredEq
    exact Option.noConfusion hpredEq
  have hpmem : p ∈ node.preds := by
    rw [hpreds]
    exact List.mem_cons_self p []
  have hpid : p ≠ id := fun e => hself.1 (e ▸ hpmem)
  have hHnRep : node.isOp = true → id ∈ sPop.reported := fun hopT => by
    rw [hop] at hopT
    exact Bool.noConfusion hopT
  by_cases hSelf : ri.referenceCount = 0 ∧ node.externRc = 0
  · -- the completing data node reclaims itself first
    have hsa1 : (completeDataSelf sC id node ri).1 =
        onDeleteNode (removeNodeFromDag sC id) id := by
      rw [completeDataSelf, if_pos hSelf]
    rw [hsa1] at hpredEq
    have hsap : (onDeleteNode (removeNodeFromDag sC id) id).rt p = sPop.rt p := by
      rw [onDeleteNode_rt_other _ _ _ hpid, removeNodeFromDag_rt, hsC,
        updRt_rt_other _ _ _ _ hpid]
    simp only [completeDataPred, hpreds] at hpredEq
    rw [hsap] at hpredEq
    rcases hprt : sPop.rt p with _ | pri
    · simp only [hprt] at hpredEq
      exact Option.noConfusion hpredEq
    simp only [hprt] at hpredEq
    by_cases htrpC : pri.numTriggersNeeded ≠ 0
    · rw [if_pos htrpC] at hpredEq
      exact Option.noConfusion hpredEq
    rw [if_neg htrpC] at hpredEq
    by_cases hPred : pri.referenceCount - 1 = 0
    · rw [if_pos hPred] at hpredEq
      simp only [Option.some.injEq, Prod.mk.injEq] at hpredEq
      have hs3 : s3 = onDeleteNode (removeNodeFromDag
          (updRt (onDeleteNode (removeNodeFromDag sC id) id) p
            (some { pri with referenceCount := pri.referenceCount - 1 })) p) p :=
        hpredEq.1.symm
      refine completion_after_core sPop s3 s4 s' a4 id node ri [id, p] hInv hn hr
        hready htrig0 hnoNrest hHnRep ?_ ?_ ?_ ?_ ?_ ?_ ?_ h4 hs'
      · intro x hx
        rcases List.mem_cons.mp hx with h1 | h1
        · exact Or.inl h1
        · rw [List.mem_singleton] at h1
          exact Or.inr (h1 ▸ hpmem)
      · intro j
        rw [hs3]
        by_cases hjp2 : j = p
        · subst hjp2
          simp [onDeleteNode, removeNodeFromDag, updRt, hsC]
        · by_cases hjid : j = id
          · subst hjid
            simp [onDeleteNode, removeNodeFromDag, updRt, hsC, hjp2]
          · simp [onDeleteNode, removeNodeFromDag, updRt, hsC, hjp2, hjid,
              detachOne_comp, map_detachOne_two]
      · intro j
        rw [hs3]
        by_cases hjp2 : j = p
        · subst hjp2
          simp [onDeleteNode, removeNodeFromDag, updRt, setFn, hsC]
        · by_cases hjid : j = id
          · subst hjid
            simp [onDeleteNode, removeNodeFromDag, updRt, setFn, hsC, hjp2]
          · have hjpreds : j ∉ node.preds := by
              rw [hpreds]
              simp [hjp2]
            rcases hjr : sPop.rt j with _ | r
            · simp [onDeleteNode, removeNodeFromDag, updRt, setFn, hsC, hjp2,
                hjid, hjr]
            · simp [onDeleteNode, removeNodeFromDag, updRt, setFn, hsC, hjp2,
                hjid, hjr, hjpreds]
      · simp [hs3, hsC, onDeleteNode, removeNodeFromDag, updRt]
      · simp [hs3, hsC, onDeleteNode, removeNodeFromDag, updRt]
      · simp [hs3, hsC, onDeleteNode, removeNodeFromDag, updRt]
      · simp [hs3, hsC, onDeleteNode, removeNodeFromDag, updRt]
    · rw [if_neg hPred] at hpredEq
      simp only [Option.some.injEq, Prod.mk.injEq] at hpredEq
      have hs3 : s3 = updRt (onDeleteNode (removeNodeFromDag sC id) id) p
          (some { pri with referenceCount := pri.referenceCount - 1 }) :=
        hpredEq.1.symm
      refine completion_after_core sPop s3 s4 s' a4 id node ri [id] hInv hn hr
        hready htrig0 hnoNrest hHnRep ?_ ?_ ?_ ?_ ?_ ?_ ?_ h4 hs'
      · intro x hx
        rw [List.mem_singleton] at hx
        exact Or.inl hx
      · intro j
        rw [hs3]
        by_cases hjid : j = id
        · subst hjid
          simp [onDeleteNode, removeNodeFromDag, updRt, hsC]
        · simp [onDeleteNode, removeNodeFromDag, updRt, hsC, hjid,
            map_detachOne_one]
      · intro j
        rw [hs3]
        by_cases hjp2 : j = p
        · subst hjp2
          simp [onDeleteNode, removeNodeFromDag, updRt, setFn, hsC, hpid, hprt,
            hpreds]
        · by_cases hjid : j = id
          · subst hjid
            simp [onDeleteNode, removeNodeFromDag, updRt, setFn, hsC, hjp2]
          · have hjpreds : j ∉ node.preds := by
              rw [hpreds]
              simp [hjp2]
            rcases hjr : sPop.rt j with _ | r
            · simp [onDeleteNode, removeNodeFromDag, updRt, setFn, hsC, hjp2,
                hjid, hjr]
            · simp [onDeleteNode, removeNodeFromDag, updRt, setFn, hsC, hjp2,
                hjid, hjr, hjpreds]
      · simp [hs3, hsC, onDeleteNode, removeNodeFromDag, updRt]
      · simp [hs3, hsC, onDeleteNode, removeNodeFromDag, updRt]
      · simp [hs3, hsC, onDeleteNode, removeNodeFromDag, updRt]
      · simp [hs3, hsC, onDeleteNode, removeNodeFromDag, updRt]
  · -- no self-reclamation
    have hsa1 : (completeDataSelf sC id node ri).1 = sC := by
      rw [completeDataSelf, if_neg hSelf]
    rw [hsa1] at hpredEq
    have hsap : sC.rt p = sPop.rt p := by
      rw [hsC]
      exact updRt_rt_other _ _ _ _ hpid
    simp only [completeDataPred, hpreds] at hpredEq
    rw [hsap] at hpredEq
    rcases hprt : sPop.rt p with _ | pri
    · simp only [hprt] at hpredEq
      exact Option.noConfusion hpredEq
    simp only [hprt] at hpredEq
    by_cases htrpC : pri.numTriggersNeeded ≠ 0
    · rw [if_pos htrpC] at hpredEq
      exact Option.noConfusion hpredEq
    rw [if_neg htrpC] at hpredEq
    by_cases hPred : pri.referenceCount - 1 = 0
    · rw [if_pos hPred] at hpredEq
      simp only [Option.some.injEq, Prod.mk.injEq] at hpredEq
      have hs3 : s3 = onDeleteNode (removeNodeFromDag
          (updRt sC p (some { pri with referenceCount := pri.referenceCount - 1 })) p) p :=
        hpredEq.1.symm
      refine completion_after_core sPop s3 s4 s' a4 id node ri [p] hInv hn hr
        hready htrig0 hnoNrest hHnRep ?_ ?_ ?_ ?_ ?_ ?_ ?_ h4 hs'
      · intro x hx
        rw [List.mem_singleton] at hx
        exact Or.inr (hx ▸ hpmem)
      · intro j
        rw [hs3]
        by_cases hjp2 : j = p
        · subst hjp2
          simp [onDeleteNode, removeNodeFromDag, updRt, hsC]
        · simp [onDeleteNode, removeNodeFromDag, updRt, hsC, hjp2,
            map_detachOne_one]
      · intro j
        rw [hs3]
        by_cases hjp2 : j = p
        · subst hjp2
          simp [onDeleteNode, removeNodeFromDag, updRt, setFn, hsC]
        · by_cases hjid : j = id
          · subst hjid
            simp [onDeleteNode, removeNodeFromDag, updRt, setFn, hsC, hjp2, hr,
              hpreds, hself.1, Ne.symm hpid]
          · have hjpreds : j ∉ node.preds := by
              rw [hpreds]
              simp [hjp2]
            rcases hjr : sPop.rt j with _ | r
            · simp [onDeleteNode, removeNodeFromDag, updRt, setFn, hsC, hjp2,
                hjid, hjr]
            · simp [onDeleteNode, removeNodeFromDag, updRt, setFn, hsC, hjp2,
                hjid, hjr, hjpreds]
      · simp [hs3, hsC, onDeleteNode, removeNodeFromDag, updRt]
      · simp [hs3, hsC, onDeleteNode, removeNodeFromDag, updRt]
      · simp [hs3, hsC, onDeleteNode, removeNodeFromDag, updRt]
      · simp [hs3, hsC, onDeleteNode, removeNodeFromDag, updRt]
    · rw [if_neg hPred] at hpredEq
      simp only [Option.some.injEq, Prod.mk.injEq] at hpredEq
      have hs3 : s3 = updRt sC p
          (some { pri with referenceCount := pri.referenceCount - 1 }) :=
        hpredEq.1.symm
      refine completion_after_core sPop s3 s4 s' a4 id node ri [] hInv hn hr
        hready htrig0 hnoNrest hHnRep ?_ ?_ ?_ ?_ ?_ ?_ ?_ h4 hs'
      · intro x hx
        exact absurd hx (List.not_mem_nil x)
      · intro j
        rw [hs3]
        simp [updRt, hsC, map_detachSet_nil]
      · intro j
        rw [hs3]
        by_cases hjp2 : j = p
        · subst hjp2
          simp [updRt, setFn, hsC, hpid, hprt, hpreds]
        · by_cases hjid : j = id
          · subst hjid
            simp [updRt, setFn, hsC, hjp2, hr, hpreds, hself.1, Ne.symm hpid]
          · have hjpreds : j ∉ node.preds := by
              rw [hpreds]
              simp [hjp2]
            rcases hjr : sPop.rt j with _ | r
            · simp [updRt, setFn, hsC, hjp2, hjid, hjr]
            · simp [updRt, setFn, hsC, hjp2, hjid, hjr, hjpreds]
      · simp [hs3, hsC, updRt]
      · simp [hs3, hsC, updRt]
      · simp [hs3, hsC, updRt]
      · simp [hs3, hsC, updRt]

/-- Pushing a `Ready`, trigger-free, not-yet-pushed op task preserves the
invariant. -/
theorem inv_push (sPop : SchedState) (id : Nat) (node : PhysNode) (ri : RuntimeInfo)
    (hInv : Inv sPop)
    (hn : sPop.nodes id = some node) (hr : sPop.rt id = some ri)
    (hop : node.isOp = true)
    (hready : ri.state = NodeState.kReady) (htrig0 : ri.numTriggersNeeded = 0)
    (hnpush : id ∉ sPop.pushed)
    (hnoNrest : ∀ t, (t, id) ∉ sPop.queue) :
    Inv { sPop with pushed := sPop.pushed ++ [id] } := by
  have hpend := hInv.trigGe id node ri hn hr hready
  rw [htrig0] at hpend
  have h0 : pendingCount sPop node.preds = 0 := by omega
  have hpredsC := pendingCount_zero sPop node.preds h0
  refine ⟨hInv.domEq, hInv.bounded, hInv.queueBounded, ?_, hInv.edges, hInv.noSelf,
    hInv.psDisj, hInv.trigGe, ?_, ?_, hInv.queueOnce, ?_, ?_, ?_, ?_⟩
  · intro x hx
    rcases List.mem_append.mp hx with h1 | h1
    · exact hInv.pushedBounded x h1
    · rw [List.mem_singleton] at h1
      subst h1
      exact hInv.bounded x (by rw [hn]; rfl)
  · intro m hm
    obtain ⟨nm, rm, h1, h2, h3, h4, h5⟩ := hInv.toRunInv m hm
    refine ⟨nm, rm, h1, h2, h3, h4, ?_⟩
    intro hopm
    show m ∉ sPop.pushed ++ [id]
    rw [List.mem_append]
    rintro (hx | hx)
    · exact h5 hopm hx
    · rw [List.mem_singleton] at hx
      exact hnoNrest TaskType.kToRun (hx ▸ hm)
  · intro m hm
    obtain ⟨nm, rm, h1, h2, h3, h4, h5, h6, h7⟩ := hInv.toCompInv m hm
    exact ⟨nm, rm, h1, h2, h3, h4, h5, List.mem_append_left _ h6, h7⟩
  · show (sPop.pushed ++ [id]).Nodup
    rw [List.nodup_append]
    exact ⟨hInv.pushedNodup, List.nodup_singleton id, by
      intro a ha hmem
      rw [List.mem_singleton] at hmem
      subst hmem
      exact absurd ha hnpush⟩
  · intro x hx
    exact List.mem_append_left _ (hInv.reportedSub x hx)
  · intro m hm nm rm h1 h2 h3 q hq
    rcases List.mem_append.mp hm with h0m | h0m
    · exact hInv.pushedReady m h0m nm rm h1 h2 h3 q hq
    · rw [List.mem_singleton] at h0m
      subst h0m
      rw [hn] at h1
      injection h1 with h1
      subst h1
      exact hpredsC q hq
  · intro m hm hrep
    rcases List.mem_append.mp hm with h0m | h0m
    · exact hInv.pendingPushed m h0m hrep
    · rw [List.mem_singleton] at h0m
      subst h0m
      exact ⟨node, ri, hn, hr, hop, hready, htrig0⟩

/-- One dispatcher iteration preserves the invariant. -/
theorem inv_dispatch (s s' : SchedState) (tr : List Act)
    (hInv : Inv s) (h : dispatcherStep s = some (s', tr)) : Inv s' := by
  rw [dispatcherStep] at h
  rcases hq : s.queue with _ | ⟨e, rest⟩
  · simp only [hq] at h
    exact Option.noConfusion h
  simp only [hq] at h
  obtain ⟨t, m⟩ := e
  have hInvPop : Inv { s with queue := rest } := inv_pop s (t, m) rest hq hInv
  have hqmem : (t, m) ∈ s.queue := by
    rw [hq]
    exact List.mem_cons_self _ _
  have hds : (t, m) ∉ rest := by
    intro hmem
    have hcnt := hInv.queueOnce (t, m)
    rw [hq, List.count_cons] at hcnt
    have hne : List.count (t, m) rest ≠ 0 := by
      rw [Ne, List.count_eq_zero]
      exact fun h2 => h2 hmem
    simp at hcnt
    omega
  rcases t with _ | _
  · -- `kToRun` was popped
    obtain ⟨nm, rm, h1, h2, h3, h4, h5⟩ := hInv.toRunInv m hqmem
    have hnoT : ∀ t2, (t2, m) ∉ ({ s with queue := rest } : SchedState).queue := by
      intro t2 hmem
      show False
      rcases t2 with _ | _
      · exact hds hmem
      · obtain ⟨nc, rc2, hc1, hc2, hcop, hcrdy, hctr, hcpsh, hcrep⟩ :=
          hInv.toCompInv m (by rw [hq]; exact List.mem_cons_of_mem _ hmem)
        rw [h1] at hc1
        injection hc1 with hc1
        by_cases hopm : nm.isOp = true
        · exact h5 hopm hcpsh
        · exact hopm (by rw [hc1]; exact hcop)
    by_cases hopm : nm.isOp = true
    · have hpush := dispatchEvent_push { s with queue := rest } m nm rm h1 h2 hopm
      rw [hpush] at h
      simp only [Option.some.injEq, Prod.mk.injEq] at h
      obtain ⟨hs'eq, _⟩ := h
      rw [← hs'eq]
      exact inv_push { s with queue := rest } m nm rm hInvPop h1 h2 hopm h3 h4
        (h5 hopm) hnoT
    · have hopf : nm.isOp = false := by
        cases hb : nm.isOp
        · rfl
        · exact absurd hb hopm
      exact inv_complete_data { s with queue := rest } s' tr TaskType.kToRun m nm rm
        hInvPop h1 h2 hopf h3 h4 hnoT h
  · -- `kToComplete` was popped
    obtain ⟨nm, rm, h1, h2, hopm, h3, h4, hpsh, hrep⟩ := hInv.toCompInv m hqmem
    have hnoT : ∀ t2, (t2, m) ∉ ({ s with queue := rest } : SchedState).queue := by
      intro t2 hmem
      show False
      rcases t2 with _ | _
      · obtain ⟨nr, rr, hr1, hr2, hrr3, hrr4, hr5⟩ :=
          hInv.toRunInv m (by rw [hq]; exact List.mem_cons_of_mem _ hmem)
        rw [h1] at hr1
        injection hr1 with hr1
        exact hr5 (by rw [← hr1]; exact hopm) hpsh
      · exact hds hmem
    exact inv_complete_op { s with queue := rest } s' tr m nm rm hInvPop h1 h2 hopm
      h3 h4 hnoT hrep h

/-- The device manager reporting a pushed, not-yet-reported task preserves the
invariant. -/
theorem inv_report (s : SchedState) (taskId : Nat) (hInv : Inv s)
    (hpsh : taskId ∈ s.pushed) (hnrep : taskId ∉ s.reported) :
    Inv (reportComplete s taskId) := by
  obtain ⟨nm, rm, h1, h2, hop, hrdy, htr⟩ := hInv.pendingPushed taskId hpsh hnrep
  refine ⟨hInv.domEq, hInv.bounded, ?_, hInv.pushedBounded, hInv.edges, hInv.noSelf,
    hInv.psDisj, hInv.trigGe, ?_, ?_, ?_, hInv.pushedNodup, ?_, hInv.pushedReady,
    ?_⟩
  · intro e he
    show e.2 < s.nextId
    rcases List.mem_append.mp he with h0 | h0
    · exact hInv.queueBounded e h0
    · rw [List.mem_singleton] at h0
      subst h0
      exact hInv.pushedBounded taskId hpsh
  · intro m hm
    have hm2 : (TaskType.kToRun, m) ∈ s.queue ++ [(TaskType.kToComplete, taskId)] := hm
    rcases List.mem_append.mp hm2 with h0 | h0
    · obtain ⟨n2, r2, g1, g2, g3, g4, g5⟩ := hInv.toRunInv m h0
      exact ⟨n2, r2, g1, g2, g3, g4, g5⟩
    · rw [List.mem_singleton] at h0
      exact absurd (congrArg Prod.fst h0) (by simp)
  · intro m hm
    rcases List.mem_append.mp hm with h0 | h0
    · obtain ⟨n2, r2, g1, g2, g3, g4, g5, g6, g7⟩ := hInv.toCompInv m h0
      exact ⟨n2, r2, g1, g2, g3, g4, g5, g6, List.mem_append_left _ g7⟩
    · rw [List.mem_singleton] at h0
      have hm2 : m = taskId := congrArg Prod.snd h0
      subst hm2
      exact ⟨nm, rm, h1, h2, hop, hrdy, htr, hpsh, List.mem_append_right _
        (List.mem_singleton_self m)⟩
  · intro e
    show List.count e (s.queue ++ [(TaskType.kToComplete, taskId)]) ≤ 1
    rw [List.count_append]
    by_cases he : e = (TaskType.kToComplete, taskId)
    · have h0 : (TaskType.kToComplete, taskId) ∉ s.queue := by
        intro hin
        obtain ⟨n2, r2, g1, g2, g3, g4, g5, g6, g7⟩ := hInv.toCompInv taskId hin
        exact hnrep g7
      subst he
      rw [List.count_eq_zero.mpr h0]
      simp
    · have h0 : e ∉ [(TaskType.kToComplete, taskId)] := by
        rw [List.mem_singleton]
        exact he
      rw [List.count_eq_zero.mpr h0]
      have := hInv.queueOnce e
      omega
  · intro x hx
    rcases List.mem_append.mp hx with h0 | h0
    · exact hInv.reportedSub x h0
    · rw [List.mem_singleton] at h0
      subst h0
      exact hpsh
  · intro m hm hrep
    have hrep2 : m ∉ s.reported := fun h2 => hrep (List.mem_append_left _ h2)
    exact hInv.pendingPushed m hm hrep2

/-- Mutating a node's `extern_rc` preserves the invariant (no edge, state or
counter changes). -/
theorem inv_setExternRc (s : SchedState) (id : Nat) (v : Int) (hInv : Inv s) :
    Inv (setExternRc s id v) := by
  have hchar : ∀ j, (setExternRc s id v).nodes j =
      if j = id then (s.nodes id).map (fun n => { n with externRc := v })
      else s.nodes j := fun _ => rfl
  have hpre : ∀ j n2, (setExternRc s id v).nodes j = some n2 →
      ∃ n1, s.nodes j = some n1 ∧ n2.preds = n1.preds ∧ n2.succs = n1.succs ∧
        n2.isOp = n1.isOp := by
    intro j n2 hj
    rw [hchar] at hj
    by_cases hji : j = id
    · rw [if_pos hji] at hj
      rcases hn : s.nodes id with _ | n1
      · rw [hn] at hj
        exact Option.noConfusion hj
      · rw [hn] at hj
        simp only [Option.map_some', Option.some.injEq] at hj
        subst hj
        exact ⟨n1, hji ▸ hn, rfl, rfl, rfl⟩
    · rw [if_neg hji] at hj
      exact ⟨n2, hj, rfl, rfl, rfl⟩
  have hto : ∀ j n1, s.nodes j = some n1 →
      ∃ n2, (setExternRc s id v).nodes j = some n2 ∧ n2.preds = n1.preds ∧
        n2.succs = n1.succs ∧ n2.isOp = n1.isOp := by
    intro j n1 hj
    rw [hchar j]
    by_cases hji : j = id
    · subst hji
      rw [if_pos rfl, hj]
      exact ⟨{ n1 with externRc := v }, rfl, rfl, rfl, rfl⟩
    · rw [if_neg hji]
      exact ⟨n1, hj, rfl, rfl, rfl⟩
  refine ⟨?_, ?_, hInv.queueBounded, hInv.pushedBounded, ?_, ?_, ?_, ?_, ?_, ?_,
    hInv.queueOnce, hInv.pushedNodup, hInv.reportedSub, ?_, ?_⟩
  · intro j
    rw [show (setExternRc s id v).rt = s.rt from rfl, hchar j]
    by_cases hji : j = id
    · subst hji
      rw [if_pos rfl, Option.isSome_map']
      exact hInv.domEq j
    · rw [if_neg hji]
      exact hInv.domEq j
  · intro j hj
    rw [hchar j] at hj
    by_cases hji : j = id
    · subst hji
      rw [if_pos rfl, Option.isSome_map'] at hj
      exact hInv.bounded j hj
    · rw [if_neg hji] at hj
      exact hInv.bounded j hj
  · intro j n2 hj
    obtain ⟨n1, h1, hp, hs, hi⟩ := hpre j n2 hj
    obtain ⟨e1, e2, e3, e4⟩ := hInv.edges j n1 h1
    rw [hp, hs, hi]
    refine ⟨e1, e2, ?_, ?_⟩
    · intro p hp2
      obtain ⟨np, hnp, hmem, hbip⟩ := e3 p hp2
      obtain ⟨np2, hnp2, hp2', hs2', hi2'⟩ := hto p np hnp
      exact ⟨np2, hnp2, by rw [hs2']; exact hmem, by rw [hi2']; exact hbip⟩
    · intro q hq2
      obtain ⟨nq, hnq, hmem, hbip⟩ := e4 q hq2
      obtain ⟨nq2, hnq2, hp2', hs2', hi2'⟩ := hto q nq hnq
      exact ⟨nq2, hnq2, by rw [hp2']; exact hmem, by rw [hi2']; exact hbip⟩
  · intro j n2 hj
    obtain ⟨n1, h1, hp, hs, _⟩ := hpre j n2 hj
    rw [hp, hs]
    exact hInv.noSelf j n1 h1
  · intro j n2 hj x hx
    obtain ⟨n1, h1, hp, hs, _⟩ := hpre j n2 hj
    rw [hs]
    rw [hp] at hx
    exact hInv.psDisj j n1 h1 x hx
  · intro j n2 r2 hj hr2 hrdy
    obtain ⟨n1, h1, hp, _, _⟩ := hpre j n2 hj
    rw [hp]
    exact hInv.trigGe j n1 r2 h1 hr2 hrdy
  · intro m hm
    obtain ⟨n1, r1, g1, g2, g3, g4, g5⟩ := hInv.toRunInv m hm
    obtain ⟨n2, hn2, _, _, hi2⟩ := hto m n1 g1
    refine ⟨n2, r1, hn2, g2, g3, g4, ?_⟩
    intro hop2
    exact g5 (by rw [← hi2]; exact hop2)
  · intro m hm
    obtain ⟨n1, r1, g1, g2, g3, g4, g5, g6, g7⟩ := hInv.toCompInv m hm
    obtain ⟨n2, hn2, _, _, hi2⟩ := hto m n1 g1
    exact ⟨n2, r1, hn2, g2, by rw [hi2]; exact g3, g4, g5, g6, g7⟩
  · intro m hm n2 r2 h1 h2 h3 q hq
    obtain ⟨n1, g1, hp, _, _⟩ := hpre m n2 h1
    rw [hp] at hq
    exact hInv.pushedReady m hm n1 r2 g1 h2 h3 q hq
  · intro m hm hrep
    obtain ⟨n1, r1, g1, g2, g3, g4, g5⟩ := hInv.pendingPushed m hm hrep
    obtain ⟨n2, hn2, _, _, hi2⟩ := hto m n1 g1
    exact ⟨n2, r1, hn2, g2, by rw [hi2]; exact g3, g4, g5⟩

/-- Removing a `Completed` node from the DAG (free + removal + runtime-entry
drop) preserves the invariant. -/
theorem inv_removeCompleted (s : SchedState) (id : Nat) (node : PhysNode)
    (ri : RuntimeInfo) (hInv : Inv s)
    (hn : s.nodes id = some node) (hr : s.rt id = some ri)
    (hcomp : ri.state = NodeState.kCompleted) :
    Inv (onDeleteNode (removeNodeFromDag s id) id) := by
  have hN : ∀ j, (onDeleteNode (removeNodeFromDag s id) id).nodes j =
      if j = id then none else (s.nodes j).map (detachSet [id]) := by
    intro j
    by_cases hji : j = id
    · subst hji
      simp [onDeleteNode, removeNodeFromDag, updRt]
    · simp [onDeleteNode, removeNodeFromDag, updRt, hji, map_detachOne_one]
  have hR : ∀ j, (onDeleteNode (removeNodeFromDag s id) id).rt j =
      if j = id then none else s.rt j := by
    intro j
    by_cases hji : j = id
    · subst hji
      simp [onDeleteNode, removeNodeFromDag, updRt, setFn]
    · simp [onDeleteNode, removeNodeFromDag, updRt, setFn, hji]
  have hstateEq : ∀ x, x ≠ id →
      stateOf (onDeleteNode (removeNodeFromDag s id) id) x = stateOf s x := by
    intro x hx
    rw [stateOf, stateOf, hR x, if_neg hx]
  have hsComp : stateOf s id = some NodeState.kCompleted := by
    rw [stateOf, hr]
    simp [hcomp]
  have hcountLe : ∀ l : List Nat,
      pendingCount (onDeleteNode (removeNodeFromDag s id) id)
        (l.filter (fun x => x ∉ [id])) ≤ pendingCount s l := by
    intro l
    rw [pendingCount, pendingCount]
    have h1 : (l.filter (fun x => x ∉ [id])).countP
          (fun x => decide (stateOf (onDeleteNode (removeNodeFromDag s id) id) x ≠
            some NodeState.kCompleted)) =
        (l.filter (fun x => x ∉ [id])).countP
          (fun x => decide (stateOf s x ≠ some NodeState.kCompleted)) := by
      apply List.countP_congr
      intro x hx
      have hx2 := List.mem_filter.mp hx
      have hxid : x ≠ id := by simpa using hx2.2
      rw [hstateEq x hxid]
    rw [h1]
    exact List.Sublist.countP_le _ (List.filter_sublist l)
  have hneid : ∀ m rm, s.rt m = some rm → rm.state = NodeState.kReady → m ≠ id := by
    intro m rm hrm hrdy e
    subst e
    rw [hr] at hrm
    injection hrm with hrm
    rw [← hrm] at hrdy
    rw [hcomp] at hrdy
    exact NodeState.noConfusion hrdy
  refine ⟨?_, ?_, hInv.queueBounded, hInv.pushedBounded, ?_, ?_, ?_, ?_, ?_, ?_,
    hInv.queueOnce, hInv.pushedNodup, hInv.reportedSub, ?_, ?_⟩
  · intro j
    rw [hN j, hR j]
    by_cases hji : j = id
    · simp [hji]
    · rw [if_neg hji, if_neg hji, Option.isSome_map']
      exact hInv.domEq j
  · intro j hj
    rw [hN j] at hj
    by_cases hji : j = id
    · rw [if_pos hji] at hj
      exact absurd hj (by simp)
    · rw [if_neg hji, Option.isSome_map'] at hj
      exact hInv.bounded j hj
  · intro j n2 hj
    rw [hN j] at hj
    by_cases hji : j = id
    · rw [if_pos hji] at hj
      exact Option.noConfusion hj
    rw [if_neg hji] at hj
    rcases hnj : s.nodes j with _ | n1
    · rw [hnj] at hj
      exact Option.noConfusion hj
    rw [hnj] at hj
    injection hj with hj
    subst hj
    obtain ⟨e1, e2, e3, e4⟩ := hInv.edges j n1 hnj
    refine ⟨e1.filter _, e2.filter _, ?_, ?_⟩
    · intro p hp
      have hp2 := List.mem_filter.mp hp
      have hpid : p ∉ ([id] : List Nat) := by simpa using hp2.2
      have hpid2 : p ≠ id := by simpa using hpid
      obtain ⟨np, hnp, hmem, hbip⟩ := e3 p hp2.1
      refine ⟨detachSet [id] np, ?_, ?_, hbip⟩
      · rw [hN p, if_neg hpid2, hnp]
        rfl
      · rw [detachSet]
        simp only [List.mem_filter]
        exact ⟨hmem, by simpa using hji⟩
    · intro q hq
      have hq2 := List.mem_filter.mp hq
      have hqid : q ∉ ([id] : List Nat) := by simpa using hq2.2
      have hqid2 : q ≠ id := by simpa using hqid
      obtain ⟨nq, hnq, hmem, hbip⟩ := e4 q hq2.1
      refine ⟨detachSet [id] nq, ?_, ?_, hbip⟩
      · rw [hN q, if_neg hqid2, hnq]
        rfl
      · rw [detachSet]
        simp only [List.mem_filter]
        exact ⟨hmem, by simpa using hji⟩
  · intro j n2 hj
    rw [hN j] at hj
    by_cases hji : j = id
    · rw [if_pos hji] at hj
      exact Option.noConfusion hj
    rw [if_neg hji] at hj
    rcases hnj : s.nodes j with _ | n1
    · rw [hnj] at hj
      exact Option.noConfusion hj
    rw [hnj] at hj
    injection hj with hj
    subst hj
    have := hInv.noSelf j n1 hnj
    exact ⟨fun hmem => this.1 (List.mem_of_mem_filter hmem),
      fun hmem => this.2 (List.mem_of_mem_filter hmem)⟩
  · intro j n2 hj x hx
    rw [hN j] at hj
    by_cases hji : j = id
    · rw [if_pos hji] at hj
      exact Option.noConfusion hj
    rw [if_neg hji] at hj
    rcases hnj : s.nodes j with _ | n1
    · rw [hnj] at hj
      exact Option.noConfusion hj
    rw [hnj] at hj
    injection hj with hj
    subst hj
    intro hmem
    exact hInv.psDisj j n1 hnj x (List.mem_of_mem_filter hx)
      (List.mem_of_mem_filter hmem)
  · intro j n2 r2 hj hr2 hrdy
    rw [hN j] at hj
    rw [hR j] at hr2
    by_cases hji : j = id
    · rw [if_pos hji] at hj
      exact Option.noConfusion hj
    rw [if_neg hji] at hj
    rw [if_neg hji] at hr2
    rcases hnj : s.nodes j with _ | n1
    · rw [hnj] at hj
      exact Option.noConfusion hj
    rw [hnj] at hj
    injection hj with hj
    subst hj
    have hpre := hInv.trigGe j n1 r2 hnj hr2 hrdy
    have hle := hcountLe n1.preds
    rw [detachSet]
    simp only
    omega
  · intro m hm
    obtain ⟨n1, r1, g1, g2, g3, g4, g5⟩ := hInv.toRunInv m hm
    have hmid : m ≠ id := hneid m r1 g2 g3
    refine ⟨detachSet [id] n1, r1, ?_, ?_, g3, g4, fun hop => g5 hop⟩
    · rw [hN m, if_neg hmid, g1]
      rfl
    · rw [hR m, if_neg hmid]
      exact g2
  · intro m hm
    obtain ⟨n1, r1, g1, g2, g3, g4, g5, g6, g7⟩ := hInv.toCompInv m hm
    have hmid : m ≠ id := hneid m r1 g2 g4
    refine ⟨detachSet [id] n1, r1, ?_, ?_, g3, g4, g5, g6, g7⟩
    · rw [hN m, if_neg hmid, g1]
      rfl
    · rw [hR m, if_neg hmid]
      exact g2
  · intro m hm n2 r2 h1 h2 h3 q hq
    rw [hN m] at h1
    rw [hR m] at h2
    by_cases hmi : m = id
    · rw [if_pos hmi] at h2
      exact Option.noConfusion h2
    rw [if_neg hmi] at h1
    rw [if_neg hmi] at h2
    rcases hnm : s.nodes m with _ | n1
    · rw [hnm] at h1
      exact Option.noConfusion h1
    rw [hnm] at h1
    injection h1 with h1
    subst h1
    rw [detachSet] at hq
    simp only [List.mem_filter] at hq
    have hqid : q ≠ id := by simpa using hq.2
    rw [hstateEq q hqid]
    exact hInv.pushedReady m hm n1 r2 hnm h2 h3 q hq.1
  · intro m hm hrep
    obtain ⟨n1, r1, g1, g2, g3, g4, g5⟩ := hInv.pendingPushed m hm hrep
    have hmid : m ≠ id := hneid m r1 g2 g4
    refine ⟨detachSet [id] n1, r1, ?_, ?_, g3, g4, g5⟩
    · rw [hN m, if_neg hmid, g1]
      rfl
    · rw [hR m, if_neg hmid]
      exact g2

/-- An `OnExternRCUpdate` callback after an `extern_rc` mutation preserves the
invariant. -/
theorem inv_externUpd (s s' : SchedState) (tr : List Act) (id : Nat) (v : Int)
    (hInv : Inv s)
    (h : onExternRCUpdate (setExternRc s id v) id = some (s', tr)) :
    Inv s' := by
  have hInv2 := inv_setExternRc s id v hInv
  simp only [onExternRCUpdate] at h
  rcases hnn : (setExternRc s id v).nodes id with _ | n
  · simp only [hnn] at h
    exact Option.noConfusion h
  simp only [hnn] at h
  rcases hrr : (setExternRc s id v).rt id with _ | r
  · simp only [hrr] at h
    exact Option.noConfusion h
  simp only [hrr] at h
  rcases hstate : r.state with _ | _
  · -- kReady
    simp only [hstate] at h
    simp only [Option.some.injEq, Prod.mk.injEq] at h
    rw [← h.1]
    exact hInv2
  · -- kCompleted
    simp only [hstate] at h
    by_cases hc : r.referenceCount = 0 ∧ n.externRc = 0
    · rw [if_pos hc] at h
      simp only [Option.some.injEq, Prod.mk.injEq] at h
      rw [← h.1]
      exact inv_removeCompleted (setExternRc s id v) id n r hInv2 hnn hrr hstate
    · rw [if_neg hc] at h
      simp only [Option.some.injEq, Prod.mk.injEq] at h
      rw [← h.1]
      exact hInv2

/-! ## Characterization of the create pipeline -/

/-- Two runtime entries agreeing on everything except possibly the reference
count (the only field `OnCreateEdge` mutates on an edge source). -/
def sameStateTrig : Option RuntimeInfo → Option RuntimeInfo → Prop
  | none, none => True
  | some r1, some r2 => r2.state = r1.state ∧ r2.numTriggersNeeded = r1.numTriggersNeeded
  | _, _ => False

theorem sameStateTrig_refl (a : Option RuntimeInfo) : sameStateTrig a a := by
  cases a <;> simp [sameStateTrig]

theorem sameStateTrig_trans (a b c : Option RuntimeInfo)
    (h1 : sameStateTrig a b) (h2 : sameStateTrig b c) : sameStateTrig a c := by
  cases a <;> cases b <;> cases c <;> simp_all [sameStateTrig]

theorem sameStateTrig_none (b : Option RuntimeInfo)
    (h : sameStateTrig none b) : b = none := by
  cases b <;> simp_all [sameStateTrig]

theorem sameStateTrig_some (r1 : RuntimeInfo) (b : Option RuntimeInfo)
    (h : sameStateTrig (some r1) b) :
    ∃ r2, b = some r2 ∧ r2.state = r1.state ∧
      r2.numTriggersNeeded = r1.numTriggersNeeded := by
  cases b with
  | none => simp [sameStateTrig] at h
  | some r2 => exact ⟨r2, rfl, h.1, h.2⟩

theorem sameStateTrig_isSome (a b : Option RuntimeInfo) (h : sameStateTrig a b) :
    b.isSome = a.isSome := by
  cases a <;> cases b <;> simp_all [sameStateTrig]

theorem insertId_self_mem (l : List Nat) (x : Nat) : x ∈ insertId l x :=
  (insertId_mem l x x).mpr (Or.inr rfl)

theorem insertId_idem (l : List Nat) (x : Nat) :
    insertId (insertId l x) x = insertId l x := by
  rw [insertId, if_pos (insertId_self_mem l x)]

/-- The first `Create` loop (lines 28-30): the result ids are the consecutive
fresh ids; the runtime map, the queue and the counters are untouched. -/
theorem newDataNodes_char (sizes : List (List Nat)) : ∀ (s : SchedState) (devId : Nat),
    (newDataNodes s devId sizes).1.rt = s.rt ∧
    (newDataNodes s devId sizes).1.queue = s.queue ∧
    (newDataNodes s devId sizes).1.pushed = s.pushed ∧
    (newDataNodes s devId sizes).1.reported = s.reported ∧
    (newDataNodes s devId sizes).1.numYet = s.numYet ∧
    (newDataNodes s devId sizes).1.nextId = s.nextId + sizes.length ∧
    (∀ j, (j < s.nextId ∨ s.nextId + sizes.length ≤ j) →
      (newDataNodes s devId sizes).1.nodes j = s.nodes j) ∧
    (∀ j, j ∈ (newDataNodes s devId sizes).2 ↔
      (s.nextId ≤ j ∧ j < s.nextId + sizes.length)) ∧
    (newDataNodes s devId sizes).2.Nodup ∧
    (∀ j, s.nextId ≤ j → j < s.nextId + sizes.length →
      ∃ sz dz, (newDataNodes s devId sizes).1.nodes j =
        some ⟨false, [], [], sz, devId, dz, 0⟩) := by
  induction sizes with
  | nil =>
    intro s devId
    refine ⟨rfl, rfl, rfl, rfl, rfl, by simp [newDataNodes], ?_, ?_, ?_, ?_⟩
    · intro j _
      rfl
    · intro j
      simp [newDataNodes]
    · simp [newDataNodes]
    · intro j h1 h2
      simp only [List.length_nil] at h2
      omega
  | cons size rest ih =>
    intro s devId
    have hstep : newDataNodes s devId (size :: rest) =
        ((newDataNodes (newDataNodeOp s devId size).1 devId rest).1,
          (newDataNodeOp s devId size).2 ::
            (newDataNodes (newDataNodeOp s devId size).1 devId rest).2) := by
      rw [newDataNodes]
    obtain ⟨i1, i2, i3, i4, i5, i6, i7, i8, i9, i10⟩ :=
      ih (newDataNodeOp s devId size).1 devId
    have hs1n : (newDataNodeOp s devId size).1.nextId = s.nextId + 1 := rfl
    have hs1id : (newDataNodeOp s devId size).2 = s.nextId := rfl
    rw [hstep]
    refine ⟨?_, ?_, ?_, ?_, ?_, ?_, ?_, ?_, ?_, ?_⟩
    · rw [i1]
      rfl
    · rw [i2]
      rfl
    · rw [i3]
      rfl
    · rw [i4]
      rfl
    · rw [i5]
      rfl
    · rw [i6, hs1n]
      simp only [List.length_cons]
      omega
    · intro j hj
      simp only [List.length_cons] at hj
      rw [i7 j (by rw [hs1n]; omega)]
      exact setFn_other s.nodes s.nextId j _ (by omega)
    · intro j
      simp only [List.mem_cons, i8, hs1id, hs1n, List.length_cons]
      omega
    · rw [List.nodup_cons]
      refine ⟨?_, i9⟩
      rw [i8, hs1id, hs1n]
      omega
    · intro j h1 h2
      by_cases hj : j = s.nextId
      · subst hj
        rw [i7 s.nextId (by rw [hs1n]; omega)]
        refine ⟨size, s.nextDataId, ?_⟩
        show setFn s.nodes s.nextId _ s.nextId = _
        rw [setFn_same]
      · exact i10 j (by rw [hs1n]; omega)
          (by rw [hs1n]; simp only [List.length_cons] at h2; omega)

/-- The second `Create` loop (lines 31-33): every listed id gets a fresh
`Ready` runtime entry with both counters `0`; nothing else changes. -/
theorem onCreateNodes_char (ids : List Nat) : ∀ s : SchedState,
    (onCreateNodes s ids).nodes = s.nodes ∧
    (onCreateNodes s ids).queue = s.queue ∧
    (onCreateNodes s ids).pushed = s.pushed ∧
    (onCreateNodes s ids).reported = s.reported ∧
    (onCreateNodes s ids).numYet = s.numYet ∧
    (onCreateNodes s ids).nextId = s.nextId ∧
    (∀ j, j ∉ ids → (onCreateNodes s ids).rt j = s.rt j) ∧
    (∀ j, j ∈ ids → (onCreateNodes s ids).rt j = some ⟨NodeState.kReady, 0, 0⟩) := by
  induction ids with
  | nil =>
    intro s
    exact ⟨rfl, rfl, rfl, rfl, rfl, rfl, fun j _ => rfl, fun j hj => absurd hj
      (List.not_mem_nil j)⟩
  | cons a rest ih =>
    intro s
    have hstep : onCreateNodes s (a :: rest) = onCreateNodes (onCreateNode s a) rest := rfl
    obtain ⟨i1, i2, i3, i4, i5, i6, i7, i8⟩ := ih (onCreateNode s a)
    rw [hstep]
    refine ⟨by rw [i1]; rfl, by rw [i2]; rfl, by rw [i3]; rfl, by rw [i4]; rfl,
      by rw [i5]; rfl, by rw [i6]; rfl, ?_, ?_⟩
    · intro j hj
      rw [List.mem_cons] at hj
      push_neg at hj
      rw [i7 j hj.2]
      exact updRt_rt_other s a j _ hj.1
    · intro j hj
      rw [List.mem_cons] at hj
      by_cases hjr : j ∈ rest
      · exact i8 j hjr
      · rcases hj with hja | hja
        · subst hja
          rw [i7 j hjr]
          exact updRt_rt_same s j _
        · exact absurd hja hjr

/-- The input-edge fold of `NewOpNode`: the op node accumulates the (deduped)
inputs as predecessors, each input gains the op as successor, and nothing else
changes. -/
theorem addInputEdges_char (params : List Nat) : ∀ (s : SchedState) (opId : Nat),
    opId ∉ params →
    (params.foldl (fun t d => addInputEdge t d opId) s).rt = s.rt ∧
    (params.foldl (fun t d => addInputEdge t d opId) s).queue = s.queue ∧
    (params.foldl (fun t d => addInputEdge t d opId) s).pushed = s.pushed ∧
    (params.foldl (fun t d => addInputEdge t d opId) s).reported = s.reported ∧
    (params.foldl (fun t d => addInputEdge t d opId) s).numYet = s.numYet ∧
    (params.foldl (fun t d => addInputEdge t d opId) s).nextId = s.nextId ∧
    (params.foldl (fun t d => addInputEdge t d opId) s).nodes opId =
      (s.nodes opId).map (fun n => { n with preds := insertAll n.preds params }) ∧
    (∀ j, j ∉ params → j ≠ opId →
      (params.foldl (fun t d => addInputEdge t d opId) s).nodes j = s.nodes j) ∧
    (∀ j, j ∈ params →
      (params.foldl (fun t d => addInputEdge t d opId) s).nodes j =
        (s.nodes j).map (fun n => { n with succs := insertId n.succs opId })) := by
  induction params with
  | nil =>
    intro s opId _
    refine ⟨rfl, rfl, rfl, rfl, rfl, rfl, ?_, fun j _ _ => rfl,
      fun j hj => absurd hj (List.not_mem_nil j)⟩
    show s.nodes opId = (s.nodes opId).map (fun n => { n with preds := insertAll n.preds [] })
    rcases s.nodes opId with _ | n
    · rfl
    · simp [insertAll]
  | cons d rest ih =>
    intro s opId hop
    have hopd : opId ≠ d := fun e => hop (e ▸ List.mem_cons_self d rest)
    have hoprest : opId ∉ rest := fun e => hop (List.mem_cons_of_mem d e)
    obtain ⟨i1, i2, i3, i4, i5, i6, i7, i8, i9⟩ := ih (addInputEdge s d opId) opId hoprest
    have hstep : (d :: rest).foldl (fun t d => addInputEdge t d opId) s =
        rest.foldl (fun t d => addInputEdge t d opId) (addInputEdge s d opId) := rfl
    have hAop : (addInputEdge s d opId).nodes opId =
        (s.nodes opId).map (fun n => { n with preds := insertId n.preds d }) := by
      show (if opId = d then _ else if opId = opId then _ else _) = _
      rw [if_neg hopd, if_pos rfl]
    have hAd : (addInputEdge s d opId).nodes d =
        (s.nodes d).map (fun n => { n with succs := insertId n.succs opId }) := by
      show (if d = d then _ else _) = _
      rw [if_pos rfl]
    have hAother : ∀ j, j ≠ d → j ≠ opId → (addInputEdge s d opId).nodes j = s.nodes j := by
      intro j h1 h2
      show (if j = d then _ else if j = opId then _ else _) = _
      rw [if_neg h1, if_neg h2]
    rw [hstep]
    refine ⟨by rw [i1]; rfl, by rw [i2]; rfl, by rw [i3]; rfl, by rw [i4]; rfl,
      by rw [i5]; rfl, by rw [i6]; rfl, ?_, ?_, ?_⟩
    · rw [i7, hAop]
      rcases s.nodes opId with _ | n
      · rfl
      · simp only [Option.map_some', Option.some.injEq]
        rw [show insertAll n.preds (d :: rest) = insertAll (insertId n.preds d) rest
          from rfl]
    · intro j hj hjop
      rw [List.mem_cons] at hj
      push_neg at hj
      rw [i8 j hj.2 hjop]
      exact hAother j hj.1 hjop
    · intro j hj
      rw [List.mem_cons] at hj
      by_cases hjr : j ∈ rest
      · rw [i9 j hjr]
        by_cases hjd : j = d
        · subst hjd
          rw [hAd]
          rcases s.nodes j with _ | n
          · rfl
          · simp only [Option.map_some', Option.some.injEq]
            rw [insertId_idem]
        · rw [hAother j hjd (fun e => hop (e ▸ (List.mem_cons_of_mem d hjr)))]
      · rcases hj with hjd | hjd
        · subst hjd
          rw [i8 j hjr (Ne.symm hopd), hAd]
        · exact absurd hjd hjr

/-- The output-edge fold of `NewOpNode`: the op node accumulates the (deduped)
outputs as successors, each output gains the op as predecessor, and nothing
else changes. -/
theorem addOutputEdges_char (outs : List Nat) : ∀ (s : SchedState) (opId : Nat),
    opId ∉ outs →
    (outs.foldl (fun t o => addOutputEdge t opId o) s).rt = s.rt ∧
    (outs.foldl (fun t o => addOutputEdge t opId o) s).queue = s.queue ∧
    (outs.foldl (fun t o => addOutputEdge t opId o) s).pushed = s.pushed ∧
    (outs.foldl (fun t o => addOutputEdge t opId o) s).reported = s.reported ∧
    (outs.foldl (fun t o => addOutputEdge t opId o) s).numYet = s.numYet ∧
    (outs.foldl (fun t o => addOutputEdge t opId o) s).nextId = s.nextId ∧
    (outs.foldl (fun t o => addOutputEdge t opId o) s).nodes opId =
      (s.nodes opId).map (fun n => { n with succs := insertAll n.succs outs }) ∧
    (∀ j, j ∉ outs → j ≠ opId →
      (outs.foldl (fun t o => addOutputEdge t opId o) s).nodes j = s.nodes j) ∧
    (∀ j, j ∈ outs →
      (outs.foldl (fun t o => addOutputEdge t opId o) s).nodes j =
        (s.nodes j).map (fun n => { n with preds := insertId n.preds opId })) := by
  induction outs with
  | nil =>
    intro s opId _
    refine ⟨rfl, rfl, rfl, rfl, rfl, rfl, ?_, fun j _ _ => rfl,
      fun j hj => absurd hj (List.not_mem_nil j)⟩
    show s.nodes opId = (s.nodes opId).map (fun n => { n with succs := insertAll n.succs [] })
    rcases s.nodes opId with _ | n
    · rfl
    · simp [insertAll]
  | cons o rest ih =>
    intro s opId hop
    have hopo : opId ≠ o := fun e => hop (e ▸ List.mem_cons_self o rest)
    have hoprest : opId ∉ rest := fun e => hop (List.mem_cons_of_mem o e)
    obtain ⟨i1, i2, i3, i4, i5, i6, i7, i8, i9⟩ := ih (addOutputEdge s opId o) opId hoprest
    have hstep : (o :: rest).foldl (fun t o => addOutputEdge t opId o) s =
        rest.foldl (fun t o => addOutputEdge t opId o) (addOutputEdge s opId o) := rfl
    have hAop : (addOutputEdge s opId o).nodes opId =
        (s.nodes opId).map (fun n => { n with succs := insertId n.succs o }) := by
      show (if opId = o then _ else if opId = opId then _ else _) = _
      rw [if_neg hopo, if_pos rfl]
    have hAo : (addOutputEdge s opId o).nodes o =
        (s.nodes o).map (fun n => { n with preds := insertId n.preds opId }) := by
      show (if o = o then _ else _) = _
      rw [if_pos rfl]
    have hAother : ∀ j, j ≠ o → j ≠ opId → (addOutputEdge s opId o).nodes j = s.nodes j := by
      intro j h1 h2
      show (if j = o then _ else if j = opId then _ else _) = _
      rw [if_neg h1, if_neg h2]
    rw [hstep]
    refine ⟨by rw [i1]; rfl, by rw [i2]; rfl, by rw [i3]; rfl, by rw [i4]; rfl,
      by rw [i5]; rfl, by rw [i6]; rfl, ?_, ?_, ?_⟩
    · rw [i7, hAop]
      rcases s.nodes opId with _ | n
      · rfl
      · simp only [Option.map_some', Option.some.injEq]
        rw [show insertAll n.succs (o :: rest) = insertAll (insertId n.succs o) rest
          from rfl]
    · intro j hj hjop
      rw [List.mem_cons] at hj
      push_neg at hj
      rw [i8 j hj.2 hjop]
      exact hAother j hj.1 hjop
    · intro j hj
      rw [List.mem_cons] at hj
      by_cases hjr : j ∈ rest
      · rw [i9 j hjr]
        by_cases hjo : j = o
        · subst hjo
          rw [hAo]
          rcases s.nodes j with _ | n
          · rfl
          · simp only [Option.map_some', Option.some.injEq]
            rw [insertId_idem]
        · rw [hAother j hjo (fun e => hop (e ▸ (List.mem_cons_of_mem o hjr)))]
      · rcases hj with hjo | hjo
        · subst hjo
          rw [i8 j hjr (Ne.symm hopo), hAo]
        · exact absurd hjo hjr

/-- `PhysicalDag::NewOpNode` (`Create` line 41): the fresh op id is
`s.nextId`; the op node carries the deduped inputs/outputs as edge sets, each
input gains the op as successor, each output gains it as predecessor, and the
runtime map and the counters are untouched. -/
theorem newOpNodeOp_char (s : SchedState) (devId : Nat) (inputs outputs : List Nat)
    (hin : ∀ d ∈ inputs, d < s.nextId) (hout : s.nextId ∉ outputs)
    (hdisj : ∀ o ∈ outputs, o ∉ inputs) :
    (newOpNodeOp s devId inputs outputs).2 = s.nextId ∧
    (newOpNodeOp s devId inputs outputs).1.rt = s.rt ∧
    (newOpNodeOp s devId inputs outputs).1.queue = s.queue ∧
    (newOpNodeOp s devId inputs outputs).1.pushed = s.pushed ∧
    (newOpNodeOp s devId inputs outputs).1.reported = s.reported ∧
    (newOpNodeOp s devId inputs outputs).1.numYet = s.numYet ∧
    (newOpNodeOp s devId inputs outputs).1.nextId = s.nextId + 1 ∧
    (newOpNodeOp s devId inputs outputs).1.nodes s.nextId =
      some ⟨true, insertAll [] inputs, insertAll [] outputs, [], devId, 0, 0⟩ ∧
    (∀ j, j ∉ inputs → j ∉ outputs → j ≠ s.nextId →
      (newOpNodeOp s devId inputs outputs).1.nodes j = s.nodes j) ∧
    (∀ d ∈ inputs, (newOpNodeOp s devId inputs outputs).1.nodes d =
      (s.nodes d).map (fun n => { n with succs := insertId n.succs s.nextId })) ∧
    (∀ o ∈ outputs, (newOpNodeOp s devId inputs outputs).1.nodes o =
      (s.nodes o).map (fun n => { n with preds := insertId n.preds s.nextId })) := by
  have hinop : s.nextId ∉ inputs := fun e => absurd (hin s.nextId e) (by omega)
  have hfst : (newOpNodeOp s devId inputs outputs).1 =
      outputs.foldl (fun t o => addOutputEdge t s.nextId o)
        (inputs.foldl (fun t d => addInputEdge t d s.nextId)
          { s with nodes := setFn s.nodes s.nextId (some ⟨true, [], [], [], devId, 0, 0⟩),
                   nextId := s.nextId + 1 }) := rfl
  obtain ⟨a1, a2, a3, a4, a5, a6, a7, a8, a9⟩ :=
    addInputEdges_char inputs
      { s with nodes := setFn s.nodes s.nextId (some ⟨true, [], [], [], devId, 0, 0⟩),
               nextId := s.nextId + 1 } s.nextId hinop
  obtain ⟨b1, b2, b3, b4, b5, b6, b7, b8, b9⟩ :=
    addOutputEdges_char outputs
      (inputs.foldl (fun t d => addInputEdge t d s.nextId)
        { s with nodes := setFn s.nodes s.nextId (some ⟨true, [], [], [], devId, 0, 0⟩),
                 nextId := s.nextId + 1 }) s.nextId hout
  refine ⟨rfl, ?_, ?_, ?_, ?_, ?_, ?_, ?_, ?_, ?_, ?_⟩
  · rw [hfst, b1, a1]
  · rw [hfst, b2, a2]
  · rw [hfst, b3, a3]
  · rw [hfst, b4, a4]
  · rw [hfst, b5, a5]
  · rw [hfst, b6, a6]
  · rw [hfst, b7, a7]
    show ((setFn s.nodes s.nextId (some ⟨true, [], [], [], devId, 0, 0⟩) s.nextId).map _).map
      _ = _
    rw [setFn_same]
    rfl
  · intro j h1 h2 h3
    rw [hfst, b8 j h2 h3, a8 j h1 h3]
    exact setFn_other s.nodes s.nextId j _ h3
  · intro d hd
    have hdop : d ≠ s.nextId := fun e => absurd (hin d hd) (by omega)
    have hdout : d ∉ outputs := fun e => hdisj d e hd
    rw [hfst, b8 d hdout hdop, a9 d hd]
    dsimp only
    rw [setFn_other s.nodes s.nextId d _ hdop]
  · intro o ho
    have hoop : o ≠ s.nextId := fun e => hout (e ▸ ho)
    have hoin : o ∉ inputs := hdisj o ho
    rw [hfst, b9 o ho, a8 o hoin hoop]
    dsimp only
    rw [setFn_other s.nodes s.nextId o _ hoop]

/-- The `OnCreateEdge(param, op)` loop (lines 45-47): the DAG is untouched,
every runtime entry other than the op's keeps its state and trigger count, and
the op's trigger count grows by the number of passed params (with multiplicity)
that are not `Completed`.  The op's entry must be `Ready` throughout. -/
theorem onCreateInEdges_char (params : List Nat) :
    ∀ (s s5 : SchedState) (a5 : List Act) (opId : Nat) (ro : RuntimeInfo),
    opId ∉ params →
    s.rt opId = some ro → ro.state = NodeState.kReady →
    onCreateInEdges s params opId = some (s5, a5) →
    s5.nodes = s.nodes ∧ s5.queue = s.queue ∧ s5.pushed = s.pushed ∧
    s5.reported = s.reported ∧ s5.numYet = s.numYet ∧ s5.nextId = s.nextId ∧
    (∀ j, j ≠ opId → sameStateTrig (s.rt j) (s5.rt j)) ∧
    (∃ r5, s5.rt opId = some r5 ∧ r5.state = ro.state ∧
      r5.numTriggersNeeded = ro.numTriggersNeeded +
        ((params.filter
          (fun p => decide (stateOf s p ≠ some NodeState.kCompleted))).length : Int)) := by
  induction params with
  | nil =>
    intro s s5 a5 opId ro _ hro _ h
    simp only [onCreateInEdges, Option.some.injEq, Prod.mk.injEq] at h
    obtain ⟨h1, _⟩ := h
    subst h1
    refine ⟨rfl, rfl, rfl, rfl, rfl, rfl, fun j _ => sameStateTrig_refl _, ro, hro, rfl, ?_⟩
    simp
  | cons p rest ih =>
    intro s s5 a5 opId ro hop hro hroR h
    have hpop : p ≠ opId := fun e => hop (e ▸ List.mem_cons_self p rest)
    have hoprest : opId ∉ rest := fun e => hop (List.mem_cons_of_mem p e)
    simp only [onCreateInEdges] at h
    rcases hE : onCreateEdge s p opId with _ | ⟨sE, aE⟩ <;> rw [hE] at h
    · simp at h
    simp only [Option.bind_eq_bind, Option.some_bind] at h
    rcases hrec : onCreateInEdges sE rest opId with _ | ⟨s5x, a5x⟩ <;> rw [hrec] at h
    · simp at h
    simp only [Option.some_bind, Option.some.injEq, Prod.mk.injEq] at h
    obtain ⟨h1, _⟩ := h
    subst h1
    -- invert the edge creation
    simp only [onCreateEdge, hro] at hE
    rcases hrs : s.rt p with _ | rs
    · simp only [hrs] at hE
      exact Option.noConfusion hE
    simp only [hrs] at hE
    rw [if_neg (by simp [hroR])] at hE
    have hsp : stateOf s p = some rs.state := by
      rw [stateOf, hrs]
      rfl
    by_cases hpc : rs.state ≠ NodeState.kCompleted
    · rw [if_pos hpc] at hE
      simp only [Option.some.injEq, Prod.mk.injEq] at hE
      have hsE : sE = updRt (updRt s p
          (some { rs with referenceCount := rs.referenceCount + 1 })) opId
          (some { ro with numTriggersNeeded := ro.numTriggersNeeded + 1 }) :=
        hE.1.symm
      have hsEop : sE.rt opId =
          some { ro with numTriggersNeeded := ro.numTriggersNeeded + 1 } := by
        rw [hsE, updRt_rt_same]
      have hsEother : ∀ j, j ≠ opId → j ≠ p → sE.rt j = s.rt j := by
        intro j h1 h2
        rw [hsE, updRt_rt_other _ _ _ _ h1, updRt_rt_other _ _ _ _ h2]
      have hsEp : sE.rt p =
          some { rs with referenceCount := rs.referenceCount + 1 } := by
        rw [hsE, updRt_rt_other _ _ _ _ hpop, updRt_rt_same]
      have hstE : ∀ x, stateOf sE x = stateOf s x := by
        intro x
        by_cases hx1 : x = opId
        · subst hx1
          rw [stateOf, stateOf, hsEop, hro]
          rfl
        · by_cases hx2 : x = p
          · subst hx2
            rw [stateOf, stateOf, hsEp, hrs]
            rfl
          · rw [stateOf, stateOf, hsEother x hx1 hx2]
      obtain ⟨i1, i2, i3, i4, i5, i6, i7, i8⟩ :=
        ih sE s5x a5x opId { ro with numTriggersNeeded := ro.numTriggersNeeded + 1 }
          hoprest hsEop hroR hrec
      have hfilter : rest.filter (fun q => decide (stateOf sE q ≠ some NodeState.kCompleted)) =
          rest.filter (fun q => decide (stateOf s q ≠ some NodeState.kCompleted)) :=
        List.filter_congr (fun x _ => by rw [hstE x])
      refine ⟨by rw [i1, hsE]; rfl, by rw [i2, hsE]; rfl, by rw [i3, hsE]; rfl,
        by rw [i4, hsE]; rfl, by rw [i5, hsE]; rfl, by rw [i6, hsE]; rfl, ?_, ?_⟩
      · intro j hj
        refine sameStateTrig_trans _ (sE.rt j) _ ?_ (i7 j hj)
        by_cases hjp : j = p
        · subst hjp
          rw [hsEp, hrs]
          exact ⟨rfl, rfl⟩
        · rw [hsEother j hj hjp]
          exact sameStateTrig_refl _
      · obtain ⟨r5, j1, j2, j3⟩ := i8
        refine ⟨r5, j1, j2, ?_⟩
        rw [hfilter] at j3
        have hcond : decide (stateOf s p ≠ some NodeState.kCompleted) = true := by
          rw [hsp]
          simpa using hpc
        rw [List.filter_cons, if_pos hcond]
        simp only at j3
        rw [j3]
        simp only [List.length_cons]
        push_cast
        omega
    · rw [if_neg hpc] at hE
      push_neg at hpc
      simp only [Option.some.injEq, Prod.mk.injEq] at hE
      have hsE : sE = updRt s p
          (some { rs with referenceCount := rs.referenceCount + 1 }) :=
        hE.1.symm
      have hsEop : sE.rt opId = some ro := by
        rw [hsE, updRt_rt_other _ _ _ _ (Ne.symm hpop)]
        exact hro
      have hsEother : ∀ j, j ≠ p → sE.rt j = s.rt j := by
        intro j h2
        rw [hsE, updRt_rt_other _ _ _ _ h2]
      have hsEp : sE.rt p =
          some { rs with referenceCount := rs.referenceCount + 1 } := by
        rw [hsE, updRt_rt_same]
      have hstE : ∀ x, stateOf sE x = stateOf s x := by
        intro x
        by_cases hx2 : x = p
        · subst hx2
          rw [stateOf, stateOf, hsEp, hrs]
          rfl
        · rw [stateOf, stateOf, hsEother x hx2]
      obtain ⟨i1, i2, i3, i4, i5, i6, i7, i8⟩ :=
        ih sE s5x a5x opId ro hoprest hsEop hroR hrec
      have hfilter : rest.filter (fun q => decide (stateOf sE q ≠ some NodeState.kCompleted)) =
          rest.filter (fun q => decide (stateOf s q ≠ some NodeState.kCompleted)) :=
        List.filter_congr (fun x _ => by rw [hstE x])
      refine ⟨by rw [i1, hsE]; rfl, by rw [i2, hsE]; rfl, by rw [i3, hsE]; rfl,
        by rw [i4, hsE]; rfl, by rw [i5, hsE]; rfl, by rw [i6, hsE]; rfl, ?_, ?_⟩
      · intro j hj
        refine sameStateTrig_trans _ (sE.rt j) _ ?_ (i7 j hj)
        by_cases hjp : j = p
        · subst hjp
          rw [hsEp, hrs]
          exact ⟨rfl, rfl⟩
        · rw [hsEother j hjp]
          exact sameStateTrig_refl _
      · obtain ⟨r5, j1, j2, j3⟩ := i8
        refine ⟨r5, j1, j2, ?_⟩
        rw [hfilter] at j3
        have hcond : decide (stateOf s p ≠ some NodeState.kCompleted) = false := by
          rw [hsp, hpc]
          simp
        rw [List.filter_cons, if_neg (by rw [hcond]; exact Bool.noConfusion)]
        exact j3

/-- The `OnCreateEdge(op, result)` loop (lines 48-50): the DAG is untouched,
runtime entries outside the (duplicate-free) result list keep state and
trigger count, and each `Ready` result's trigger count is incremented once
(the op source is `Ready`, hence not `Completed`). -/
theorem onCreateOutEdges_char (outs : List Nat) :
    ∀ (s s6 : SchedState) (a6 : List Act) (opId : Nat),
    opId ∉ outs → outs.Nodup →
    stateOf s opId = some NodeState.kReady →
    onCreateOutEdges s opId outs = some (s6, a6) →
    s6.nodes = s.nodes ∧ s6.queue = s.queue ∧ s6.pushed = s.pushed ∧
    s6.reported = s.reported ∧ s6.numYet = s.numYet ∧ s6.nextId = s.nextId ∧
    (∀ j, j ∉ outs → sameStateTrig (s.rt j) (s6.rt j)) ∧
    (∀ o ∈ outs, ∃ r r6, s.rt o = some r ∧ s6.rt o = some r6 ∧
      r.state = NodeState.kReady ∧ r6.state = r.state ∧
      r6.numTriggersNeeded = r.numTriggersNeeded + 1) := by
  induction outs with
  | nil =>
    intro s s6 a6 opId _ _ _ h
    simp only [onCreateOutEdges, Option.some.injEq, Prod.mk.injEq] at h
    obtain ⟨h1, _⟩ := h
    subst h1
    exact ⟨rfl, rfl, rfl, rfl, rfl, rfl, fun j _ => sameStateTrig_refl _,
      fun o ho => absurd ho (List.not_mem_nil o)⟩
  | cons o rest ih =>
    intro s s6 a6 opId hop hN hopR h
    have hoop : o ≠ opId := fun e => hop (e ▸ List.mem_cons_self o rest)
    have hoprest : opId ∉ rest := fun e => hop (List.mem_cons_of_mem o e)
    have horest : o ∉ rest := (List.nodup_cons.mp hN).1
    have hNrest : rest.Nodup := (List.nodup_cons.mp hN).2
    simp only [onCreateOutEdges] at h
    rcases hE : onCreateEdge s opId o with _ | ⟨sE, aE⟩ <;> rw [hE] at h
    · simp at h
    simp only [Option.bind_eq_bind, Option.some_bind] at h
    rcases hrec : onCreateOutEdges sE opId rest with _ | ⟨s6x, a6x⟩ <;> rw [hrec] at h
    · simp at h
    simp only [Option.some_bind, Option.some.injEq, Prod.mk.injEq] at h
    obtain ⟨h1, _⟩ := h
    subst h1
    -- invert the edge creation (src = op, dst = o)
    rcases hrsrc : s.rt opId with _ | rs
    · rw [stateOf, hrsrc] at hopR
      exact Option.noConfusion hopR
    have hrsS : rs.state = NodeState.kReady := by
      rw [stateOf, hrsrc] at hopR
      simpa using hopR
    simp only [onCreateEdge, hrsrc] at hE
    rcases hrd : s.rt o with _ | rd
    · simp only [hrd] at hE
      exact Option.noConfusion hE
    simp only [hrd] at hE
    by_cases hrdR : rd.state ≠ NodeState.kReady
    · rw [if_pos hrdR] at hE
      exact Option.noConfusion hE
    rw [if_neg hrdR] at hE
    push_neg at hrdR
    rw [if_pos (by rw [hrsS]; exact fun hc => NodeState.noConfusion hc)] at hE
    simp only [Option.some.injEq, Prod.mk.injEq] at hE
    have hsE : sE = updRt (updRt s opId
        (some { rs with referenceCount := rs.referenceCount + 1 })) o
        (some { rd with numTriggersNeeded := rd.numTriggersNeeded + 1 }) :=
      hE.1.symm
    have hsEo : sE.rt o =
        some { rd with numTriggersNeeded := rd.numTriggersNeeded + 1 } := by
      rw [hsE, updRt_rt_same]
    have hsEop : sE.rt opId =
        some { rs with referenceCount := rs.referenceCount + 1 } := by
      rw [hsE, updRt_rt_other _ _ _ _ (Ne.symm hoop), updRt_rt_same]
    have hsEother : ∀ j, j ≠ o → j ≠ opId → sE.rt j = s.rt j := by
      intro j h1 h2
      rw [hsE, updRt_rt_other _ _ _ _ h1, updRt_rt_other _ _ _ _ h2]
    have hopRE : stateOf sE opId = some NodeState.kReady := by
      rw [stateOf, hsEop]
      simpa using hrsS
    obtain ⟨i1, i2, i3, i4, i5, i6, i7, i8⟩ :=
      ih sE s6x a6x opId hoprest hNrest hopRE hrec
    refine ⟨by rw [i1, hsE]; rfl, by rw [i2, hsE]; rfl, by rw [i3, hsE]; rfl,
      by rw [i4, hsE]; rfl, by rw [i5, hsE]; rfl, by rw [i6, hsE]; rfl, ?_, ?_⟩
    · intro j hj
      rw [List.mem_cons] at hj
      push_neg at hj
      refine sameStateTrig_trans _ (sE.rt j) _ ?_ (i7 j hj.2)
      by_cases hjop : j = opId
      · subst hjop
        rw [hsEop, hrsrc]
        exact ⟨rfl, rfl⟩
      · rw [hsEother j hj.1 hjop]
        exact sameStateTrig_refl _
    · intro x hx
      rw [List.mem_cons] at hx
      rcases hx with hxo | hxr
      · subst hxo
        have hkeep := i7 x horest
        rw [hsEo] at hkeep
        obtain ⟨r6, hr6, hst, htr⟩ := sameStateTrig_some _ _ hkeep
        refine ⟨rd, r6, hrd, hr6, hrdR, ?_, ?_⟩
        · rw [hst]
        · rw [htr]
      · obtain ⟨r, r6, k1, k2, k3, k4, k5⟩ := i8 x hxr
        have hxo2 : x ≠ o := fun e => horest (e ▸ hxr)
        have hxop : x ≠ opId := fun e => hoprest (e ▸ hxr)
        rw [hsEother x hxo2 hxop] at k1
        exact ⟨r, r6, k1, k2, k3, k4, k5⟩

theorem sameStateTrig_stateOf (s s6 : SchedState) (x : Nat)
    (h : sameStateTrig (s.rt x) (s6.rt x)) : stateOf s6 x = stateOf s x := by
  rw [stateOf, stateOf]
  cases ha : s.rt x <;> cases hb : s6.rt x <;> rw [ha, hb] at h <;>
    simp_all [sameStateTrig]

theorem sameStateTrig_some_right (a : Option RuntimeInfo) (r2 : RuntimeInfo)
    (h : sameStateTrig a (some r2)) :
    ∃ r1, a = some r1 ∧ r2.state = r1.state ∧
      r2.numTriggersNeeded = r1.numTriggersNeeded := by
  cases a with
  | none => simp [sameStateTrig] at h
  | some r1 => exact ⟨r1, rfl, h.1, h.2⟩

/-- The master preservation lemma for `Create`: a post state holding the fresh
op node (with deduped edge sets), the fresh result data nodes, the
successor-extended params, an op trigger count dominating its pending inputs,
result trigger counts `1`, otherwise unchanged runtime entries and an
unchanged queue satisfies the invariant. -/
theorem create_preserves_inv (s s6 : SchedState) (params rstIds : List Nat)
    (opId devId : Nat)
    (hInv : Inv s)
    (hparBound : ∀ d ∈ params, d < s.nextId)
    (hrstRange : ∀ j, j ∈ rstIds ↔ (s.nextId ≤ j ∧ j < opId))
    (hopIdGe : s.nextId ≤ opId)
    (hNop : s6.nodes opId =
      some ⟨true, insertAll [] params, insertAll [] rstIds, [], devId, 0, 0⟩)
    (hNrst : ∀ j ∈ rstIds, ∃ sz dz,
      s6.nodes j = some ⟨false, [opId], [], sz, devId, dz, 0⟩)
    (hNpar : ∀ d ∈ params, ∃ nd, s.nodes d = some nd ∧ nd.isOp = false ∧
      s6.nodes d = some { nd with succs := insertId nd.succs opId })
    (hNother : ∀ j, j ∉ params → j ∉ rstIds → j ≠ opId → s6.nodes j = s.nodes j)
    (hRop : ∃ r, s6.rt opId = some r ∧ r.state = NodeState.kReady ∧
      (pendingCount s (insertAll [] params) : Int) ≤ r.numTriggersNeeded)
    (hRrst : ∀ j ∈ rstIds, ∃ rj, s6.rt j = some rj ∧
      rj.state = NodeState.kReady ∧ rj.numTriggersNeeded = 1)
    (hRold : ∀ j, j ∉ rstIds → j ≠ opId → sameStateTrig (s.rt j) (s6.rt j))
    (hQ : s6.queue = s.queue) (hP : s6.pushed = s.pushed)
    (hRep : s6.reported = s.reported) (hNI : s6.nextId = opId + 1) :
    Inv s6 := by
  obtain ⟨rop, hropEq, hropS, hropT⟩ := hRop
  have hedge1 : ∀ j nj, s.nodes j = some nj → ∀ y ∈ nj.preds, y < s.nextId := by
    intro j nj hj y hy
    obtain ⟨ny, hny, _, _⟩ := (hInv.edges j nj hj).2.2.1 y hy
    exact hInv.bounded y (by rw [hny]; rfl)
  have hedge2 : ∀ j nj, s.nodes j = some nj → ∀ y ∈ nj.succs, y < s.nextId := by
    intro j nj hj y hy
    obtain ⟨ny, hny, _, _⟩ := (hInv.edges j nj hj).2.2.2 y hy
    exact hInv.bounded y (by rw [hny]; rfl)
  have hOldNotRst : ∀ j, j < s.nextId → j ∉ rstIds := by
    intro j hj hmem
    have := (hrstRange j).mp hmem
    omega
  have hOldNotOp : ∀ j, j < s.nextId → j ≠ opId := by
    intro j hj e
    omega
  have hRoldLt : ∀ j, j < s.nextId → sameStateTrig (s.rt j) (s6.rt j) := by
    intro j hj
    exact hRold j (hOldNotRst j hj) (hOldNotOp j hj)
  have hstate6 : ∀ x, x < s.nextId → stateOf s6 x = stateOf s x := by
    intro x hx
    exact sameStateTrig_stateOf s s6 x (hRoldLt x hx)
  have hstate6op : stateOf s6 opId = some NodeState.kReady := by
    rw [stateOf, hropEq]
    simp [hropS]
  have hOldView : ∀ j nj, s.nodes j = some nj → ∃ nj', s6.nodes j = some nj' ∧
      nj'.isOp = nj.isOp ∧ nj'.preds = nj.preds ∧
      (∀ y, y ∈ nj'.succs ↔ (y ∈ nj.succs ∨ (j ∈ params ∧ y = opId))) := by
    intro j nj hj
    have hjN : j < s.nextId := hInv.bounded j (by rw [hj]; rfl)
    by_cases hjp : j ∈ params
    · obtain ⟨nd, hnd, hndop, hnd6⟩ := hNpar j hjp
      rw [hj] at hnd
      injection hnd with hnd
      subst hnd
      refine ⟨{ nj with succs := insertId nj.succs opId }, hnd6, rfl, rfl, ?_⟩
      intro y
      show y ∈ insertId nj.succs opId ↔ _
      rw [insertId_mem]
      constructor
      · rintro (h1 | h1)
        · exact Or.inl h1
        · exact Or.inr ⟨hjp, h1⟩
      · rintro (h1 | h1)
        · exact Or.inl h1
        · exact Or.inr h1.2
    · rw [← hNother j hjp (hOldNotRst j hjN) (hOldNotOp j hjN)] at hj
      refine ⟨nj, hj, rfl, rfl, ?_⟩
      intro y
      constructor
      · exact Or.inl
      · rintro (h1 | h1)
        · exact h1
        · exact absurd h1.1 hjp
  have hOldRt : ∀ j rj', s6.rt j = some rj' → j < s.nextId →
      ∃ rj, s.rt j = some rj ∧ rj'.state = rj.state ∧
        rj'.numTriggersNeeded = rj.numTriggersNeeded := by
    intro j rj' hj hjN
    exact sameStateTrig_some_right _ _ (hj ▸ hRoldLt j hjN)
  have hpend6 : ∀ l : List Nat, (∀ y ∈ l, y < s.nextId) →
      pendingCount s6 l = pendingCount s l := by
    intro l hl
    rw [pendingCount, pendingCount]
    apply List.countP_congr
    intro x hx
    rw [hstate6 x (hl x hx)]
  refine ⟨?_, ?_, ?_, ?_, ?_, ?_, ?_, ?_, ?_, ?_, ?_, ?_, ?_, ?_, ?_⟩
  · -- domEq
    intro j
    by_cases hjop : j = opId
    · subst hjop
      rw [hNop, hropEq]
      simp
    by_cases hjr : j ∈ rstIds
    · obtain ⟨sz, dz, hn⟩ := hNrst j hjr
      obtain ⟨rj, hrj, _, _⟩ := hRrst j hjr
      rw [hn, hrj]
      simp
    by_cases hjp : j ∈ params
    · obtain ⟨nd, hnd, _, hnd6⟩ := hNpar j hjp
      rw [hnd6, sameStateTrig_isSome _ _ (hRold j hjr hjop)]
      rw [← hInv.domEq j, hnd]
      simp
    · rw [hNother j hjp hjr hjop, sameStateTrig_isSome _ _ (hRold j hjr hjop)]
      exact hInv.domEq j
  · -- bounded
    intro j hj
    rw [hNI]
    by_cases hjop : j = opId
    · omega
    by_cases hjr : j ∈ rstIds
    · have := (hrstRange j).mp hjr
      omega
    by_cases hjp : j ∈ params
    · have := hparBound j hjp
      omega
    · rw [hNother j hjp hjr hjop] at hj
      have := hInv.bounded j hj
      omega
  · -- queueBounded
    intro e he
    rw [hQ] at he
    rw [hNI]
    have := hInv.queueBounded e he
    omega
  · -- pushedBounded
    intro id hid
    rw [hP] at hid
    rw [hNI]
    have := hInv.pushedBounded id hid
    omega
  · -- edges
    intro j nj' hj
    by_cases hjop : j = opId
    · subst hjop
      rw [hNop] at hj
      injection hj with hj
      subst hj
      refine ⟨insertAll_nodup params [] List.nodup_nil,
        insertAll_nodup rstIds [] List.nodup_nil, ?_, ?_⟩
      · intro p hp
        have hp2 : p ∈ params := by
          rcases (insertAll_mem params [] p).mp hp with h1 | h1
          · exact absurd h1 (List.not_mem_nil p)
          · exact h1
        obtain ⟨nd, hnd, hndop, hnd6⟩ := hNpar p hp2
        refine ⟨{ nd with succs := insertId nd.succs j }, hnd6, ?_, ?_⟩
        · exact insertId_self_mem nd.succs j
        · show nd.isOp = _
          rw [hndop]
          rfl
      · intro q hq
        have hq2 : q ∈ rstIds := by
          rcases (insertAll_mem rstIds [] q).mp hq with h1 | h1
          · exact absurd h1 (List.not_mem_nil q)
          · exact h1
        obtain ⟨sz, dz, hn⟩ := hNrst q hq2
        exact ⟨_, hn, List.mem_singleton_self j, rfl⟩
    by_cases hjr : j ∈ rstIds
    · obtain ⟨sz, dz, hn⟩ := hNrst j hjr
      rw [hn] at hj
      injection hj with hj
      subst hj
      refine ⟨List.nodup_singleton opId, List.nodup_nil, ?_, ?_⟩
      · intro p hp
        rw [List.mem_singleton] at hp
        subst hp
        refine ⟨_, hNop, ?_, rfl⟩
        show j ∈ insertAll [] rstIds
        exact (insertAll_mem rstIds [] j).mpr (Or.inr hjr)
      · intro q hq
        exact absurd hq (List.not_mem_nil q)
    · -- an old node
      have hjold : ∃ nj0, s.nodes j = some nj0 := by
        by_cases hjp : j ∈ params
        · obtain ⟨nd, hnd, _, _⟩ := hNpar j hjp
          exact ⟨nd, hnd⟩
        · rw [hNother j hjp hjr hjop] at hj
          exact ⟨nj', hj⟩
      obtain ⟨nj0, hj0⟩ := hjold
      obtain ⟨nj2, hj2, hiso, hpreds, hsuccs⟩ := hOldView j nj0 hj0
      rw [hj2] at hj
      injection hj with hj
      subst hj
      obtain ⟨e1, e2, e3, e4⟩ := hInv.edges j nj0 hj0
      refine ⟨by rw [hpreds]; exact e1, ?_, ?_, ?_⟩
      · -- succs nodup
        by_cases hjp : j ∈ params
        · obtain ⟨nd, hnd, _, hnd6⟩ := hNpar j hjp
          rw [hj0] at hnd
          injection hnd with hnd
          subst hnd
          rw [hj2] at hnd6
          injection hnd6 with hnd6
          rw [hnd6]
          exact insertId_nodup _ _ e2
        · rw [hNother j hjp hjr hjop, hj0] at hj2
          injection hj2 with hj2
          rw [← hj2]
          exact e2
      · intro p hp
        rw [hpreds] at hp
        obtain ⟨np, hnp, hmem, hbip⟩ := e3 p hp
        obtain ⟨np2, hnp2, hiso2, _, hsuccs2⟩ := hOldView p np hnp
        refine ⟨np2, hnp2, ?_, ?_⟩
        · exact (hsuccs2 j).mpr (Or.inl hmem)
        · rw [hiso2, hiso]
          exact hbip
      · intro q hq
        rcases (hsuccs q).mp hq with h1 | h1
        · obtain ⟨nq, hnq, hmem, hbip⟩ := e4 q h1
          obtain ⟨nq2, hnq2, hiso2, hpreds2, _⟩ := hOldView q nq hnq
          refine ⟨nq2, hnq2, ?_, ?_⟩
          · rw [hpreds2]
            exact hmem
          · rw [hiso2, hiso]
            exact hbip
        · obtain ⟨hjp, hqop⟩ := h1
          subst hqop
          refine ⟨_, hNop, ?_, ?_⟩
          · show j ∈ insertAll [] params
            exact (insertAll_mem params [] j).mpr (Or.inr hjp)
          · show (true : Bool) = !nj2.isOp
            obtain ⟨nd, hnd, hndop, _⟩ := hNpar j hjp
            rw [hj0] at hnd
            injection hnd with hnd
            rw [hiso, hnd, hndop]
            rfl
  · -- noSelf
    intro j nj' hj
    by_cases hjop : j = opId
    · subst hjop
      rw [hNop] at hj
      injection hj with hj
      subst hj
      constructor
      · show j ∉ insertAll [] params
        intro hmem
        rcases (insertAll_mem params [] j).mp hmem with h1 | h1
        · exact List.not_mem_nil j h1
        · exact absurd (hparBound j h1) (by omega)
      · show j ∉ insertAll [] rstIds
        intro hmem
        rcases (insertAll_mem rstIds [] j).mp hmem with h1 | h1
        · exact List.not_mem_nil j h1
        · have := (hrstRange j).mp h1
          omega
    by_cases hjr : j ∈ rstIds
    · obtain ⟨sz, dz, hn⟩ := hNrst j hjr
      rw [hn] at hj
      injection hj with hj
      subst hj
      constructor
      · show j ∉ [opId]
        rw [List.mem_singleton]
        intro e
        have := (hrstRange j).mp hjr
        omega
      · exact List.not_mem_nil j
    · have hjold : ∃ nj0, s.nodes j = some nj0 := by
        by_cases hjp : j ∈ params
        · obtain ⟨nd, hnd, _, _⟩ := hNpar j hjp
          exact ⟨nd, hnd⟩
        · rw [hNother j hjp hjr hjop] at hj
          exact ⟨nj', hj⟩
      obtain ⟨nj0, hj0⟩ := hjold
      have hjN : j < s.nextId := hInv.bounded j (by rw [hj0]; rfl)
      obtain ⟨nj2, hj2, _, hpreds, hsuccs⟩ := hOldView j nj0 hj0
      rw [hj2] at hj
      injection hj with hj
      subst hj
      have hns := hInv.noSelf j nj0 hj0
      constructor
      · rw [hpreds]
        exact hns.1
      · intro hmem
        rcases (hsuccs j).mp hmem with h1 | h1
        · exact hns.2 h1
        · omega
  · -- psDisj
    intro j nj' hj x hx
    by_cases hjop : j = opId
    · subst hjop
      rw [hNop] at hj
      injection hj with hj
      subst hj
      intro hmem
      have hx2 : x ∈ params := by
        rcases (insertAll_mem params [] x).mp hx with h1 | h1
        · exact absurd h1 (List.not_mem_nil x)
        · exact h1
      have hm2 : x ∈ rstIds := by
        rcases (insertAll_mem rstIds [] x).mp hmem with h1 | h1
        · exact absurd h1 (List.not_mem_nil x)
        · exact h1
      have := hparBound x hx2
      have := (hrstRange x).mp hm2
      omega
    by_cases hjr : j ∈ rstIds
    · obtain ⟨sz, dz, hn⟩ := hNrst j hjr
      rw [hn] at hj
      injection hj with hj
      subst hj
      exact List.not_mem_nil x
    · have hjold : ∃ nj0, s.nodes j = some nj0 := by
        by_cases hjp : j ∈ params
        · obtain ⟨nd, hnd, _, _⟩ := hNpar j hjp
          exact ⟨nd, hnd⟩
        · rw [hNother j hjp hjr hjop] at hj
          exact ⟨nj', hj⟩
      obtain ⟨nj0, hj0⟩ := hjold
      obtain ⟨nj2, hj2, _, hpreds, hsuccs⟩ := hOldView j nj0 hj0
      rw [hj2] at hj
      injection hj with hj
      subst hj
      rw [hpreds] at hx
      intro hmem
      rcases (hsuccs x).mp hmem with h1 | h1
      · exact hInv.psDisj j nj0 hj0 x hx h1
      · have := hedge1 j nj0 hj0 x hx
        omega
  · -- trigGe
    intro j nj' rj' hj hrj hrdy
    by_cases hjop : j = opId
    · subst hjop
      rw [hNop] at hj
      injection hj with hj
      subst hj
      rw [hropEq] at hrj
      injection hrj with hrj
      subst hrj
      show (pendingCount s6 (insertAll [] params) : Int) ≤ _
      rw [hpend6 (insertAll [] params) (by
        intro y hy
        rcases (insertAll_mem params [] y).mp hy with h1 | h1
        · exact absurd h1 (List.not_mem_nil y)
        · exact hparBound y h1)]
      exact hropT
    by_cases hjr : j ∈ rstIds
    · obtain ⟨sz, dz, hn⟩ := hNrst j hjr
      obtain ⟨rj, hrjEq, hrjS, hrjT⟩ := hRrst j hjr
      rw [hn] at hj
      injection hj with hj
      subst hj
      rw [hrjEq] at hrj
      injection hrj with hrj
      subst hrj
      show (pendingCount s6 [opId] : Int) ≤ _
      rw [hrjT]
      have : pendingCount s6 [opId] = 1 := by
        rw [pendingCount]
        simp [hstate6op]
      rw [this]
      omega
    · have hjold : ∃ nj0, s.nodes j = some nj0 := by
        by_cases hjp : j ∈ params
        · obtain ⟨nd, hnd, _, _⟩ := hNpar j hjp
          exact ⟨nd, hnd⟩
        · rw [hNother j hjp hjr hjop] at hj
          exact ⟨nj', hj⟩
      obtain ⟨nj0, hj0⟩ := hjold
      have hjN : j < s.nextId := hInv.bounded j (by rw [hj0]; rfl)
      obtain ⟨nj2, hj2, _, hpreds, _⟩ := hOldView j nj0 hj0
      rw [hj2] at hj
      injection hj with hj
      subst hj
      obtain ⟨rj, hrjEq, hrjS, hrjT⟩ := hOldRt j rj' hrj hjN
      rw [hpreds, hpend6 nj0.preds (hedge1 j nj0 hj0), hrjT]
      exact hInv.trigGe j nj0 rj hj0 hrjEq (by rw [← hrjS]; exact hrdy)
  · -- toRunInv
    intro m hm
    rw [hQ] at hm
    obtain ⟨nm, rm, g1, g2, g3, g4, g5⟩ := hInv.toRunInv m hm
    have hmN : m < s.nextId := hInv.bounded m (by rw [g1]; rfl)
    obtain ⟨nm2, hm2, hiso, _, _⟩ := hOldView m nm g1
    obtain ⟨rm2, hrm2, hst2, htr2⟩ := sameStateTrig_some rm _
      (g2 ▸ hRoldLt m hmN)
    refine ⟨nm2, rm2, hm2, hrm2, ?_, ?_, ?_⟩
    · rw [hst2]
      exact g3
    · rw [htr2]
      exact g4
    · intro hop
      rw [hP]
      exact g5 (hiso ▸ hop)
  · -- toCompInv
    intro m hm
    rw [hQ] at hm
    obtain ⟨nm, rm, g1, g2, g3, g4, g5, g6, g7⟩ := hInv.toCompInv m hm
    have hmN : m < s.nextId := hInv.bounded m (by rw [g1]; rfl)
    obtain ⟨nm2, hm2, hiso, _, _⟩ := hOldView m nm g1
    obtain ⟨rm2, hrm2, hst2, htr2⟩ := sameStateTrig_some rm _
      (g2 ▸ hRoldLt m hmN)
    refine ⟨nm2, rm2, hm2, hrm2, ?_, ?_, ?_, ?_, ?_⟩
    · rw [hiso]
      exact g3
    · rw [hst2]
      exact g4
    · rw [htr2]
      exact g5
    · rw [hP]
      exact g6
    · rw [hRep]
      exact g7
  · -- queueOnce
    intro e
    rw [hQ]
    exact hInv.queueOnce e
  · -- pushedNodup
    rw [hP]
    exact hInv.pushedNodup
  · -- reportedSub
    intro x hx
    rw [hRep] at hx
    rw [hP]
    exact hInv.reportedSub x hx
  · -- pushedReady
    intro m hm nm' rm' h1 h2 h3 q hq
    rw [hP] at hm
    have hmN : m < s.nextId := hInv.pushedBounded m hm
    have hmold : ∃ nm0, s.nodes m = some nm0 := by
      by_cases hjp : m ∈ params
      · obtain ⟨nd, hnd, _, _⟩ := hNpar m hjp
        exact ⟨nd, hnd⟩
      · rw [hNother m hjp (hOldNotRst m hmN) (hOldNotOp m hmN)] at h1
        exact ⟨nm', h1⟩
    obtain ⟨nm0, hm0⟩ := hmold
    obtain ⟨nm2, hm2, _, hpreds, _⟩ := hOldView m nm0 hm0
    rw [hm2] at h1
    injection h1 with h1
    subst h1
    obtain ⟨rm0, hrm0, hst0, _⟩ := sameStateTrig_some_right _ rm'
      (h2 ▸ hRoldLt m hmN)
    rw [hpreds] at hq
    have hqN : q < s.nextId := hedge1 m nm0 hm0 q hq
    rw [hstate6 q hqN]
    exact hInv.pushedReady m hm nm0 rm0 hm0 hrm0 (by rw [← hst0]; exact h3) q hq
  · -- pendingPushed
    intro m hm hrep
    rw [hP] at hm
    rw [hRep] at hrep
    obtain ⟨nm, rm, g1, g2, g3, g4, g5⟩ := hInv.pendingPushed m hm hrep
    have hmN : m < s.nextId := hInv.bounded m (by rw [g1]; rfl)
    obtain ⟨nm2, hm2, hiso, _, _⟩ := hOldView m nm g1
    obtain ⟨rm2, hrm2, hst2, htr2⟩ := sameStateTrig_some rm _
      (g2 ▸ hRoldLt m hmN)
    exact ⟨nm2, rm2, hm2, hrm2, by rw [hiso]; exact g3, by rw [hst2]; exact g4,
      by rw [htr2]; exact g5⟩

/-- Enqueueing a `kToRun` event for a live, `Ready`, trigger-free node that is
not yet pushed and not yet queued preserves the invariant
(`ProcessIfReady`, lines 145-148). -/
theorem inv_enqueue_fresh (s : SchedState) (id : Nat) (node : PhysNode)
    (ri : RuntimeInfo) (hInv : Inv s)
    (hn : s.nodes id = some node) (hr : s.rt id = some ri)
    (hready : ri.state = NodeState.kReady) (htrig0 : ri.numTriggersNeeded = 0)
    (hnpush : node.isOp = true → id ∉ s.pushed)
    (hnew : ∀ t, (t, id) ∉ s.queue) :
    Inv { s with numYet := s.numYet + 1,
                 queue := s.queue ++ [(TaskType.kToRun, id)] } := by
  refine ⟨hInv.domEq, hInv.bounded, ?_, hInv.pushedBounded, hInv.edges, hInv.noSelf,
    hInv.psDisj, hInv.trigGe, ?_, ?_, ?_, hInv.pushedNodup, hInv.reportedSub,
    hInv.pushedReady, hInv.pendingPushed⟩
  · intro e he
    rcases List.mem_append.mp he with h0 | h0
    · exact hInv.queueBounded e h0
    · rw [List.mem_singleton] at h0
      subst h0
      exact hInv.bounded id (by rw [hn]; rfl)
  · intro m hm
    rcases List.mem_append.mp hm with h0 | h0
    · exact hInv.toRunInv m h0
    · rw [List.mem_singleton] at h0
      have hm2 : m = id := congrArg Prod.snd h0
      subst hm2
      exact ⟨node, ri, hn, hr, hready, htrig0, hnpush⟩
  · intro m hm
    rcases List.mem_append.mp hm with h0 | h0
    · exact hInv.toCompInv m h0
    · rw [List.mem_singleton] at h0
      exact absurd (congrArg Prod.fst h0) (by simp)
  · intro e
    show List.count e (s.queue ++ [(TaskType.kToRun, id)]) ≤ 1
    rw [List.count_append]
    by_cases he : e = (TaskType.kToRun, id)
    · subst he
      rw [List.count_eq_zero.mpr (hnew TaskType.kToRun)]
      simp
    · have h0 : e ∉ [(TaskType.kToRun, id)] := by
        rw [List.mem_singleton]
        exact he
      rw [List.count_eq_zero.mpr h0]
      have := hInv.queueOnce e
      omega

/-- A successful `Create` call on live data-node params preserves the
invariant. -/
theorem inv_create (s s' : SchedState) (tr : List Act) (devId : Nat)
    (params : List Nat) (sizes : List (List Nat)) (hInv : Inv s)
    (hparams : ∀ p ∈ params, ∃ n, s.nodes p = some n ∧ n.isOp = false)
    (h : createStep s devId params sizes = some (s', tr)) : Inv s' := by
  have hD := newDataNodes_char sizes s devId
  rcases hnd : newDataNodes s devId sizes with ⟨s1, rstIds⟩
  rw [hnd] at hD
  simp only at hD
  obtain ⟨d1, d2, d3, d4, d5, d6, d7, d8, d9, d10⟩ := hD
  obtain ⟨c1, c2, c3, c4, c5, c6, c7, c8⟩ := onCreateNodes_char rstIds s1
  have hparBound : ∀ d ∈ params, d < s.nextId := by
    intro d hd
    obtain ⟨n, hn, _⟩ := hparams d hd
    exact hInv.bounded d (by rw [hn]; rfl)
  have hs2next : (onCreateNodes s1 rstIds).nextId = s.nextId + sizes.length := by
    rw [c6, d6]
  have hO := newOpNodeOp_char (onCreateNodes s1 rstIds) devId params rstIds
    (by
      intro d hd
      rw [hs2next]
      have := hparBound d hd
      omega)
    (by
      rw [hs2next]
      intro hmem
      have := (d8 (s.nextId + sizes.length)).mp hmem
      omega)
    (by
      intro o ho hin
      have := (d8 o).mp ho
      have := hparBound o hin
      omega)
  rcases hop3 : newOpNodeOp (onCreateNodes s1 rstIds) devId params rstIds
    with ⟨s3, opId⟩
  rw [hop3] at hO
  simp only at hO
  obtain ⟨o1, o2, o3, o4, o5, o6, o7, o8, o9, o10, o11⟩ := hO
  have hopId : opId = s.nextId + sizes.length := o1.trans hs2next
  -- reduce the createStep equation
  simp only [createStep] at h
  rw [hnd] at h
  simp only at h
  have hguard : (params.all (fun p => match s.nodes p with
      | some n => !n.isOp
      | none => false)) = true := by
    rw [List.all_eq_true]
    intro p hp
    obtain ⟨n, hn, hop⟩ := hparams p hp
    simp [hn, hop]
  rw [if_neg (by simp [hguard])] at h
  rw [hop3] at h
  simp only at h
  rcases h5 : onCreateInEdges (onCreateNode s3 opId) params opId with _ | ⟨s5, a5⟩ <;>
    rw [h5] at h
  · simp at h
  simp only [Option.bind_eq_bind, Option.some_bind] at h
  rcases h6 : onCreateOutEdges s5 opId rstIds with _ | ⟨s6, a6⟩ <;> rw [h6] at h
  · simp at h
  simp only [Option.some_bind] at h
  rcases h7 : processIfReady s6 opId with _ | ⟨s7, a7⟩ <;> rw [h7] at h
  · simp at h
  simp only [Option.some_bind, Option.some.injEq, Prod.mk.injEq] at h
  obtain ⟨hs'eq, _⟩ := h
  subst hs'eq
  -- characterize the edge loops
  have hopNotPar : opId ∉ params := by
    intro hmem
    have := hparBound opId hmem
    omega
  have hro4 : (onCreateNode s3 opId).rt opId = some ⟨NodeState.kReady, 0, 0⟩ :=
    updRt_rt_same s3 opId _
  obtain ⟨i1, i2, i3, i4, i5, i6, i7, i8⟩ :=
    onCreateInEdges_char params (onCreateNode s3 opId) s5 a5 opId
      ⟨NodeState.kReady, 0, 0⟩ hopNotPar hro4 rfl h5
  obtain ⟨r5op, hr5op, hr5opS, hr5opT⟩ := i8
  have hopNotRst : opId ∉ rstIds := by
    intro hmem
    have := (d8 opId).mp hmem
    omega
  have hs5opR : stateOf s5 opId = some NodeState.kReady := by
    rw [stateOf, hr5op]
    simp [hr5opS]
  obtain ⟨t1, t2, t3, t4, t5, t6, t7, t8⟩ :=
    onCreateOutEdges_char rstIds s5 s6 a6 opId hopNotRst d9 hs5opR h6
  -- global facts relative to the pre state
  have hrtChain : ∀ j, j ∉ rstIds → j ≠ opId → sameStateTrig (s.rt j) (s6.rt j) := by
    intro j hjr hjop
    have e1 : s.rt j = (onCreateNode s3 opId).rt j := by
      rw [show (onCreateNode s3 opId).rt j = s3.rt j from
        updRt_rt_other _ _ _ _ hjop, o2, c7 j hjr, d1]
    rw [e1]
    exact sameStateTrig_trans _ (s5.rt j) _ (i7 j hjop) (t7 j hjr)
  have hN6 : s6.nodes = s3.nodes := by
    rw [t1, i1]
    rfl
  have hNop6 : s6.nodes opId =
      some ⟨true, insertAll [] params, insertAll [] rstIds, [], devId, 0, 0⟩ := by
    rw [hN6, o1]
    exact o8
  have hNrst6 : ∀ j ∈ rstIds, ∃ sz dz,
      s6.nodes j = some ⟨false, [opId], [], sz, devId, dz, 0⟩ := by
    intro j hj
    have hrange := (d8 j).mp hj
    obtain ⟨sz, dz, hdn⟩ := d10 j hrange.1 hrange.2
    refine ⟨sz, dz, ?_⟩
    rw [hN6, o11 j hj, c1, hdn]
    simp only [Option.map_some', Option.some.injEq]
    rw [← o1]
    simp [insertId]
  have hNpar6 : ∀ d ∈ params, ∃ nd, s.nodes d = some nd ∧ nd.isOp = false ∧
      s6.nodes d = some { nd with succs := insertId nd.succs opId } := by
    intro d hd
    obtain ⟨nd, hnd, hop⟩ := hparams d hd
    refine ⟨nd, hnd, hop, ?_⟩
    rw [hN6, o10 d hd, c1, d7 d (Or.inl (hparBound d hd)), hnd]
    simp only [Option.map_some', Option.some.injEq]
    rw [← o1]
  have hNother6 : ∀ j, j ∉ params → j ∉ rstIds → j ≠ opId → s6.nodes j = s.nodes j := by
    intro j h1 h2 h3
    have h3' : j ≠ (onCreateNodes s1 rstIds).nextId := by
      rw [← o1]
      exact h3
    rw [hN6, o9 j h1 h2 h3', c1]
    apply d7
    by_cases hlt : j < s.nextId
    · exact Or.inl hlt
    · right
      by_contra hcon
      push_neg at hcon
      exact h2 ((d8 j).mpr ⟨by omega, by omega⟩)
  have hRop6 : ∃ r, s6.rt opId = some r ∧ r.state = NodeState.kReady ∧
      (pendingCount s (insertAll [] params) : Int) ≤ r.numTriggersNeeded := by
    obtain ⟨r6, hr6, hst6, htr6⟩ := sameStateTrig_some r5op _
      (hr5op ▸ t7 opId hopNotRst)
    refine ⟨r6, hr6, by rw [hst6, hr5opS], ?_⟩
    rw [htr6, hr5opT]
    have hstEq : ∀ p ∈ params,
        stateOf (onCreateNode s3 opId) p = stateOf s p := by
      intro p hp
      have hplt := hparBound p hp
      rw [stateOf, stateOf]
      have h2 : (onCreateNode s3 opId).rt p = s.rt p := by
        rw [show (onCreateNode s3 opId).rt p = s3.rt p from
          updRt_rt_other _ _ _ _ (by omega : p ≠ opId), o2,
          c7 p (fun hmem => by have := (d8 p).mp hmem; omega), d1]
      rw [h2]
    have hfil : (params.filter (fun p =>
          decide (stateOf (onCreateNode s3 opId) p ≠ some NodeState.kCompleted))).length =
        (params.filter (fun p =>
          decide (stateOf s p ≠ some NodeState.kCompleted))).length := by
      rw [List.filter_congr (fun x hx => by rw [hstEq x hx])]
    rw [hfil]
    have hle := insertAll_countP_le params
      (fun x => decide (stateOf s x ≠ some NodeState.kCompleted))
    rw [pendingCount, ← List.countP_eq_length_filter]
    push_cast
    omega
  have hRrst6 : ∀ j ∈ rstIds, ∃ rj, s6.rt j = some rj ∧
      rj.state = NodeState.kReady ∧ rj.numTriggersNeeded = 1 := by
    intro j hj
    obtain ⟨r, r6, hr, hr6, hrS, hr6S, hr6T⟩ := t8 j hj
    have hjop : j ≠ opId := fun e => hopNotRst (e ▸ hj)
    have h42 : (onCreateNode s3 opId).rt j = some ⟨NodeState.kReady, 0, 0⟩ := by
      rw [show (onCreateNode s3 opId).rt j = s3.rt j from
        updRt_rt_other _ _ _ _ hjop, o2, c8 j hj]
    have hsst := i7 j hjop
    rw [h42] at hsst
    obtain ⟨r', hr', hst', htr'⟩ := sameStateTrig_some _ _ hsst
    rw [hr] at hr'
    injection hr' with hr'
    refine ⟨r6, hr6, by rw [hr6S, hrS], ?_⟩
    rw [hr6T, hr', htr']
    simp
  have hQ6 : s6.queue = s.queue := by
    rw [t2, i2]
    show s3.queue = s.queue
    rw [o3, c2, d2]
  have hP6 : s6.pushed = s.pushed := by
    rw [t3, i3]
    show s3.pushed = s.pushed
    rw [o4, c3, d3]
  have hRep6 : s6.reported = s.reported := by
    rw [t4, i4]
    show s3.reported = s.reported
    rw [o5, c4, d4]
  have hNI6 : s6.nextId = opId + 1 := by
    rw [t6, i6]
    show s3.nextId = opId + 1
    rw [o7, ← o1]
  have hrstRange : ∀ j, j ∈ rstIds ↔ (s.nextId ≤ j ∧ j < opId) := by
    intro j
    rw [d8 j, hopId]
  have hInv6 : Inv s6 := create_preserves_inv s s6 params rstIds opId devId hInv
    hparBound hrstRange (by omega) hNop6 hNrst6 hNpar6 hNother6 hRop6 hRrst6
    hrtChain hQ6 hP6 hRep6 hNI6
  -- the final ProcessIfReady
  obtain ⟨r6op, hr6op, hr6opS, hr6opT⟩ := hRop6
  simp only [processIfReady, hr6op] at h7
  rw [if_neg (by simp [hr6opS])] at h7
  by_cases hT : r6op.numTriggersNeeded = 0
  · rw [if_pos hT] at h7
    simp only [Option.some.injEq, Prod.mk.injEq] at h7
    rw [← h7.1]
    exact inv_enqueue_fresh s6 opId _ r6op hInv6 hNop6 hr6op hr6opS hT
      (fun _ hpsh => by
        rw [hP6] at hpsh
        have := hInv.pushedBounded opId hpsh
        omega)
      (fun t hmem => by
        rw [hQ6] at hmem
        have h2 : opId < s.nextId := hInv.queueBounded (t, opId) hmem
        omega)
  · rw [if_neg hT] at h7
    simp only [Option.some.injEq, Prod.mk.injEq] at h7
    rw [← h7.1]
    exact hInv6

/-! ## C9 — an op task is pushed exactly at its trigger moment, at most once -/

theorem completeDataSelf_pushed (s : SchedState) (id : Nat) (node : PhysNode)
    (ri : RuntimeInfo) : (completeDataSelf s id node ri).1.pushed = s.pushed := by
  rw [completeDataSelf]
  split <;> rfl

theorem completeDataPred_pushed (s : SchedState) (node : PhysNode) (s3 : SchedState)
    (a : List Act) (h : completeDataPred s node = some (s3, a)) :
    s3.pushed = s.pushed := by
  rcases hp : node.preds with _ | ⟨p, rest⟩
  · simp only [completeDataPred, hp] at h
    exact Option.noConfusion h
  rcases rest with _ | ⟨p2, r2⟩
  swap
  · simp only [completeDataPred, hp] at h
    exact Option.noConfusion h
  simp only [completeDataPred, hp] at h
  rcases hr : s.rt p with _ | pri
  · simp only [hr] at h
    exact Option.noConfusion h
  simp only [hr] at h
  by_cases ht : pri.numTriggersNeeded ≠ 0
  · rw [if_pos ht] at h
    exact Option.noConfusion h
  rw [if_neg ht] at h
  by_cases hrc : pri.referenceCount - 1 = 0
  · rw [if_pos hrc] at h
    simp only [Option.some.injEq, Prod.mk.injEq] at h
    rw [← h.1]
    rfl
  · rw [if_neg hrc] at h
    simp only [Option.some.injEq, Prod.mk.injEq] at h
    rw [← h.1]
    rfl

theorem completeOpPreds_pushed (l : List Nat) :
    ∀ (s s3 : SchedState) (a : List Act),
    completeOpPreds s l = some (s3, a) → s3.pushed = s.pushed := by
  induction l with
  | nil =>
    intro s s3 a h
    simp only [completeOpPreds, Option.some.injEq, Prod.mk.injEq] at h
    rw [← h.1]
  | cons p rest ih =>
    intro s s3 a h
    simp only [completeOpPreds] at h
    rcases hr : s.rt p with _ | pri
    · rcases hn : s.nodes p with _ | pnode <;> simp only [hr, hn] at h <;>
        exact Option.noConfusion h
    rcases hn : s.nodes p with _ | pnode
    · simp only [hr, hn] at h
      exact Option.noConfusion h
    simp only [hr, hn] at h
    by_cases hop : pnode.isOp = true
    · rw [if_pos hop] at h
      exact Option.noConfusion h
    rw [if_neg hop] at h
    by_cases htr : pri.numTriggersNeeded ≠ 0
    · rw [if_pos htr] at h
      exact Option.noConfusion h
    rw [if_neg htr] at h
    by_cases hrc : pri.referenceCount - 1 = 0 ∧ pnode.externRc = 0
    · rw [if_pos hrc] at h
      rw [Option.map_eq_some'] at h
      obtain ⟨⟨s3x, ax⟩, hrec, hf⟩ := h
      simp only [Prod.mk.injEq] at hf
      rw [← hf.1, ih _ s3x ax hrec]
      rfl
    · rw [if_neg hrc] at h
      rw [Option.map_eq_some'] at h
      obtain ⟨⟨s3x, ax⟩, hrec, hf⟩ := h
      simp only [Prod.mk.injEq] at hf
      rw [← hf.1, ih _ s3x ax hrec]
      rfl

theorem triggerSuccessors_pushed (l : List Nat) :
    ∀ (s s4 : SchedState) (a : List Act),
    triggerSuccessors s l = some (s4, a) → s4.pushed = s.pushed := by
  induction l with
  | nil =>
    intro s s4 a h
    simp only [triggerSuccessors, Option.some.injEq, Prod.mk.injEq] at h
    rw [← h.1]
  | cons q rest ih =>
    intro s s4 a h
    simp only [triggerSuccessors] at h
    rcases hq : s.rt q with _ | qri
    · simp only [hq] at h
      exact Option.noConfusion h
    simp only [hq] at h
    by_cases hc : qri.state = NodeState.kReady ∧ qri.numTriggersNeeded - 1 = 0
    · rw [if_pos hc] at h
      rw [Option.map_eq_some'] at h
      obtain ⟨⟨s4x, ax⟩, hrec, hf⟩ := h
      simp only [Prod.mk.injEq] at hf
      rw [← hf.1, ih _ s4x ax hrec]
      rfl
    · rw [if_neg hc] at h
      rw [Option.map_eq_some'] at h
      obtain ⟨⟨s4x, ax⟩, hrec, hf⟩ := h
      simp only [Prod.mk.injEq] at hf
      rw [← hf.1, ih _ s4x ax hrec]
      rfl

/-- A dispatcher event either leaves the push history unchanged (every
completion branch) or is a `kToRun` on an op node and appends exactly that
node. -/
theorem dispatchEvent_pushed (s s1 : SchedState) (A : List Act) (tt : TaskType)
    (id : Nat) (h : dispatchEvent s tt id = some (s1, A)) :
    s1.pushed = s.pushed ∨
      (tt = TaskType.kToRun ∧ ∃ node, s.nodes id = some node ∧ node.isOp = true ∧
        s1.pushed = s.pushed ++ [id]) := by
  rcases hn : s.nodes id with _ | node
  · simp only [dispatchEvent, hn] at h
    exact Option.noConfusion h
  rcases hr : s.rt id with _ | ri
  · simp only [dispatchEvent, hn, hr] at h
    exact Option.noConfusion h
  by_cases hc : tt = TaskType.kToRun ∧ node.isOp = true
  · right
    rcases hc with ⟨h1, h2⟩
    subst h1
    rw [dispatchEvent_push s id node ri hn hr h2] at h
    simp only [Option.some.injEq, Prod.mk.injEq] at h
    refine ⟨rfl, node, rfl, h2, ?_⟩
    rw [← h.1]
  · left
    by_cases hop : node.isOp = true
    · have htt : tt = TaskType.kToComplete := by
        rcases tt
        · exact absurd ⟨rfl, hop⟩ hc
        · rfl
      subst htt
      obtain ⟨_, s3, a3, s4, a4, h3, h4, hs1, _⟩ :=
        dispatchEvent_complete_op_inv s s1 A id node ri hn hr hop h
      rw [hs1, finishNotify_fst_pushed, triggerSuccessors_pushed node.succs s3 s4 a4 h4,
        completeOpPreds_pushed node.preds _ s3 a3 h3]
      rfl
    · have hopf : node.isOp = false := by
        cases hb : node.isOp
        · rfl
        · exact absurd hb hop
      obtain ⟨s3, apred, s4, a4, hpredEq, h4, hs1, _⟩ :=
        dispatchEvent_complete_data_inv s s1 A tt id node ri hn hr hopf h
      rw [hs1, finishNotify_fst_pushed, triggerSuccessors_pushed node.succs s3 s4 a4 h4,
        completeDataPred_pushed _ node s3 apred hpredEq, completeDataSelf_pushed]
      rfl

/-- Every reachable scheduler state satisfies the invariant. -/
theorem reach_inv (s : SchedState) (hs : Reach s) : Inv s := by
  induction hs with
  | init => exact inv_init
  | create a1 a2 a3 ih => exact inv_create _ _ _ _ _ _ ih a2 a3
  | dispatch a1 a2 ih => exact inv_dispatch _ _ _ ih a2
  | report a1 a2 a3 ih => exact inv_report _ _ ih a2 a3
  | externUpd a1 a2 a3 a4 ih => exact inv_externUpd _ _ _ _ _ ih a4

/-- C9: tasks are pushed to a device only for op nodes, only at the moment
when every predecessor data node is `Completed`, and at most once per op node
over the whole execution.  On every reachable state the push history
`pushed` — which only ever grows, one append per device push — is
duplicate-free, so no op's task is ever pushed twice; and whenever one
dispatcher iteration pushes a task for a node not pushed before, that node is
an op node all of whose predecessors are `Completed` in the state the push
happens from (the trigger bookkeeping of `ProcessIfReady`, lines 142-150, and
of the successor loop, lines 217-227, enqueues the op exactly when its trigger
count reaches `0`, and the count dominates the number of its non-`Completed`
inputs). -/
theorem dispatch_only_completed_inputs_once (s s' : SchedState) (tr : List Act)
    (hs : Reach s) :
    s.pushed.Nodup ∧
    (∀ id, dispatcherStep s = some (s', tr) → id ∈ s'.pushed → id ∉ s.pushed →
      ∃ n, s.nodes id = some n ∧ n.isOp = true ∧
        ∀ p ∈ n.preds, stateOf s p = some NodeState.kCompleted) := by
  have hInv := reach_inv s hs
  refine ⟨hInv.pushedNodup, ?_⟩
  intro id h hid hnew
  rw [dispatcherStep] at h
  rcases hq : s.queue with _ | ⟨e, rest⟩
  · simp only [hq] at h
    exact Option.noConfusion h
  simp only [hq] at h
  obtain ⟨t, m⟩ := e
  rcases dispatchEvent_pushed { s with queue := rest } s' tr t m h with
    h0 | ⟨htt, node, hnode, hop, hps⟩
  · rw [h0] at hid
    exact absurd hid hnew
  · rw [hps] at hid
    have hid2 : id ∈ s.pushed ++ [m] := hid
    rcases List.mem_append.mp hid2 with h1 | h1
    · exact absurd h1 hnew
    · rw [List.mem_singleton] at h1
      subst h1
      subst htt
      obtain ⟨nm, rm, g1, g2, g3, g4, g5⟩ := hInv.toRunInv id
        (by rw [hq]; exact List.mem_cons_self _ _)
      have hg : s.nodes id = some node := hnode
      rw [g1] at hg
      injection hg with hg
      refine ⟨nm, g1, by rw [hg]; exact hop, ?_⟩
      have hpend := hInv.trigGe id nm rm g1 g2 g3
      rw [g4] at hpend
      have h0' : pendingCount s nm.preds = 0 := by omega
      exact pendingCount_zero s nm.preds h0'

/-- Witness for C9 on the concrete execution that creates a zero-input op on
device `7` and dispatches its `kToRun`: the push history stays duplicate-free
and the pushed op `1` has all (zero) predecessors `Completed`. -/
theorem dispatch_only_completed_inputs_once_witness :
    exCreate1.1.pushed.Nodup ∧
    (∀ id, dispatcherStep exCreate1.1 = some (exB2.1, exB2.2) →
      id ∈ exB2.1.pushed → id ∉ exCreate1.1.pushed →
      ∃ n, exCreate1.1.nodes id = some n ∧ n.isOp = true ∧
        ∀ p ∈ n.preds, stateOf exCreate1.1 p = some NodeState.kCompleted) :=
  dispatch_only_completed_inputs_once exCreate1.1 exB2.1 exB2.2
    (@Reach.create initState exCreate1.1 exCreate1.2 7 [] [[2]]
      Reach.init (by simp) rfl)

end Minerva
